import Mathlib

/-!
Price arithmetic of `price/domain/price.go`.

A shallow embedding of the `Price` value type of the commerce price domain
(`src/price/domain/price.go`) together with theorems about its arithmetic,
its currency guard, its rounding to payable amounts, its splitting into
payable parts and its serialization.

The amounts are embedded twice.

* `Price` holds its amount as an exact rational (`BigFloat := ℚ`).  The
  mantissa rounding that `math/big` performs at a finite precision and the
  loss of the intermediate `Float64()` conversion are outside this
  embedding.  It carries the statements about the control flow of the code:
  the currency guard and its errors, the comparisons, the branches of the
  rounding modes, the integer arithmetic of the split, the overflow guard,
  the charges and the cart.  An amount that such a statement gives is the
  amount of exact arithmetic.
* `fp.Price` holds its amount as a `big.Float`: a mantissa precision and a
  value.  `big.NewFloat` gives 53 bits and `SetInt64` 64 bits; an operation
  on a receiver of precision 0 takes the larger precision of its operands
  and rounds the result to it, to the nearest value and a half to the even
  mantissa, the mode of every `big.Float` of the source; `Float64()` rounds
  to 53 bits.  The numerical laws (Add and Sub, Multiply and Divided, the
  rounding to payable amounts, the parts of a split, the order of a sum, the
  taxes, the serialization) are stated over this embedding.

Modelling decisions:

* The exponent ranges of `big.Float` and of float64 are not modelled, nor
  are infinities, NaN and the sign of a zero.  A quotient by zero has the
  value 0 in both embeddings; no theorem relies on it.
* `int64` values are integers; arithmetic on them wraps through `wrap64`.
* The conversion `int64(f)` of a float truncates toward zero.  For a value
  outside the `int64` range Go leaves the result implementation-dependent;
  the model takes the amd64 result (`minInt64`).  No theorem below relies on
  that choice except where it says so.
* A Go result pair `(value, error)` is a pair whose second component is
  `none` when the error is `nil`.
* Go `int` is 64 bit wide; `count` and `precision` arguments are integers.
* The JSON text of an amount is embedded by the number it denotes:
  `MarshalText` writes the shortest decimal that denotes the value at its
  own precision, `UnmarshalText` reads a decimal at 64 bits.
-/

namespace domain

/-! ## Machine integers -/

/-- The smallest `int64`. -/
def minInt64 : Int := -(2 ^ 63)

/-- The largest `int64` (`math.MaxInt64`). -/
def maxInt64 : Int := 2 ^ 63 - 1

/-- Two's complement wrap-around of an integer into the `int64` range. -/
def wrap64 (x : Int) : Int := (x + 2 ^ 63) % 2 ^ 64 - 2 ^ 63

/-- Exact amounts: `big.Float` without its mantissa rounding, the first
embedding of the modelling decisions. -/
abbrev BigFloat := ℚ

/-- Truncation toward zero of an exact value. -/
def truncate (x : ℚ) : Int := if 0 ≤ x then ⌊x⌋ else -⌊-x⌋

/-- Go's conversion `int64(f)`: truncation toward zero when the result is
representable, `minInt64` (the amd64 result) otherwise.  Below the range a
saturating conversion (arm64) gives `minInt64` as well; above the range it
gives `maxInt64` instead. -/
def int64OfFloat (x : ℚ) : Int :=
  if minInt64 ≤ truncate x ∧ truncate x ≤ maxInt64 then truncate x else minInt64

/-- The comparison `x.Cmp(y)` of `big.Float`: `-1`, `0` or `+1`. -/
def Cmp (x y : BigFloat) : Int :=
  if x < y then -1 else if y < x then 1 else 0

/-! ## Strings -/

/-- The rune mapping of `unicode.ToLower`, on the runes whose lower case is
an ASCII letter: `A`..`Z`, U+0130 (to `i`) and U+212A (to `k`).  Any other
rune goes to a rune outside ASCII in Go and is left as it is here, which
does not change a comparison with an ASCII word. -/
def toLowerRune (c : Char) : Char :=
  if c = Char.ofNat 0x130 then 'i'
  else if c = Char.ofNat 0x212A then 'k'
  else c.toLower

/-- Go's `strings.ToLower`, rune by rune. -/
def toLower (s : String) : String := String.mk (s.data.map toLowerRune)

/-! ## Loops -/

/-- The loop `for i := 0; i < n; i++ { body }` over a state. -/
def forRange {σ : Type} (n : Nat) (init : σ) (body : Nat → σ → σ) : σ :=
  (List.range n).foldl (fun s i => body i s) init

/-! ## Data model on exact amounts -/

/-- The type `error`, by its message. -/
abbrev Error := String

/-- Price: an amount in a currency. -/
structure Price where
  amount : BigFloat
  currency : String
deriving DecidableEq

/-- RoundingModeFloor - use if you want to cut (round down). -/
def RoundingModeFloor : String := "floor"

/-- RoundingModeCeil - use if you want to round up always. -/
def RoundingModeCeil : String := "ceil"

/-- RoundingModeHalfUp - default for GetPayable(). -/
def RoundingModeHalfUp : String := "halfup"

/-- RoundingModeHalfDown - in cases where you want to round down on .5. -/
def RoundingModeHalfDown : String := "halfdown"

/-- NewZero: the zero price of a currency. -/
def NewZero (currency : String) : Price :=
  { amount := 0, currency := currency }

/-- NewFromFloat, on the exact value of the float. -/
def NewFromFloat (amount : ℚ) (currency : String) : Price :=
  { amount := amount, currency := currency }

/-- NewFromInt: a price from its smallest payable unit, the exact quotient. -/
def NewFromInt (amount : Int) (precicion : Int) (currency : String) : Price :=
  if precicion = 0 then { amount := 0, currency := currency }
  else { amount := (amount : ℚ) / (precicion : ℚ), currency := currency }

namespace Price

/-- Currency returns the currency. -/
def Currency (p : Price) : String := p.currency

/-- Amount returns the exact amount. -/
def Amount (p : Price) : BigFloat := p.amount

/-- Clone returns a copy of the price. -/
def Clone (p : Price) : Price := { amount := p.amount, currency := p.currency }

/-- Equal compares the prices exactly: the same currency and
`amount.Cmp == 0`. -/
def Equal (p cmp : Price) : Bool :=
  if p.currency ≠ cmp.currency then false
  else decide (Cmp p.amount cmp.amount = 0)

/-- IsLessThen: `false` on different currencies, else `amount.Cmp == -1`. -/
def IsLessThen (p cmp : Price) : Bool :=
  if p.currency ≠ cmp.currency then false
  else decide (Cmp p.amount cmp.amount = -1)

/-- IsGreaterThen: `false` on different currencies, else `amount.Cmp == 1`. -/
def IsGreaterThen (p cmp : Price) : Bool :=
  if p.currency ≠ cmp.currency then false
  else decide (Cmp p.amount cmp.amount = 1)

/-- IsLessThenValue compares the amount with a value. -/
def IsLessThenValue (p : Price) (amount : BigFloat) : Bool :=
  if Cmp p.amount amount = -1 then true else false

/-- IsGreaterThenValue compares the amount with a value. -/
def IsGreaterThenValue (p : Price) (amount : BigFloat) : Bool :=
  if Cmp p.amount amount = 1 then true else false

/-- IsNegative: the amount is below zero. -/
def IsNegative (p : Price) : Bool := p.IsLessThenValue 0

/-- IsPositive: the amount is above zero. -/
def IsPositive (p : Price) : Bool := p.IsGreaterThenValue 0

/-- IsZero: equal to one of the two zero prices of its own currency. -/
def IsZero (p : Price) : Bool :=
  p.Equal (NewZero p.Currency) || p.Equal (NewFromFloat 0 p.Currency)

/-- The currency guard of the price calculations: the price to fill in,
and the error when two non-zero prices differ in currency. -/
def currencyGuard (p check : Price) : Price × Option Error :=
  if p.currency = check.currency then
    ({ amount := 0, currency := check.currency }, none)
  else if p.IsZero then
    ({ amount := 0, currency := check.currency }, none)
  else if check.IsZero then
    ({ amount := 0, currency := p.currency }, none)
  else
    (NewZero p.currency, some "Cannot calculate prices in different currencies")

/-- Add: the sum of two prices, exact. -/
def Add (p add : Price) : Price × Option Error :=
  match p.currencyGuard add with
  | (newPrice, some err) => (newPrice, some err)
  | (newPrice, none) => ({ newPrice with amount := p.amount + add.amount }, none)

/-- ForceAdd: the sum when it can be taken, else the receiver. -/
def ForceAdd (p add : Price) : Price :=
  match p.currencyGuard add with
  | (_, some _) => p
  | (newPrice, none) => { newPrice with amount := p.amount + add.amount }

/-- Sub: the difference of two prices, exact. -/
def Sub (p sub : Price) : Price × Option Error :=
  match p.currencyGuard sub with
  | (newPrice, some err) => (newPrice, some err)
  | (newPrice, none) => ({ newPrice with amount := p.amount - sub.amount }, none)

/-- The precision as an amount. -/
def precisionF (_p : Price) (precision : Int) : BigFloat := (precision : ℚ)

/-- The rounding mode and precision of the currency of a price. -/
def payableRoundingPrecision (p : Price) : String × Int :=
  if toLower p.currency = "miles" ∨ toLower p.currency = "points" then
    (RoundingModeFloor, 1)
  else (RoundingModeHalfUp, 100)

/-- GetPayableByRoundingMode: rounding with a mode and a precision, the
scaled amounts and the final quotient exact (`fp.Price.GetPayableByRoundingMode`
has them at the precision of the source).  The final `Quo` by a precision of
zero (an infinite amount or a panic in Go) is outside the model; `GetPayable`
only passes the precisions 1 and 100. -/
def GetPayableByRoundingMode (p : Price) (mode : String) (precision : Int) : Price :=
  let negative : Int := if p.IsNegative then -1 else 1
  let offsetToCheckRounding : BigFloat := p.precisionF precision * 10
  let amountTruncatedFloat : ℚ := p.amount * p.precisionF precision
  let amountTruncatedInt : Int := int64OfFloat amountTruncatedFloat
  let amountRoundingCheckFloat : ℚ := p.amount * offsetToCheckRounding
  let amountRoundingCheckInt : Int := int64OfFloat amountRoundingCheckFloat
  let valueAfterPrecision : Int :=
    wrap64 (wrap64 (amountRoundingCheckInt - wrap64 (amountTruncatedInt * 10)) * negative)
  if amountTruncatedFloat ≥ 2 ^ 63 then
    { amount := p.amount, currency := p.currency }
  else
    let amountTruncatedInt : Int :=
      if mode = RoundingModeCeil then
        if negative = 1 ∧ valueAfterPrecision > 0 then
          wrap64 (amountTruncatedInt + 1 * negative)
        else amountTruncatedInt
      else if mode = RoundingModeHalfUp then
        if negative = 1 ∧ valueAfterPrecision ≥ 5 then
          wrap64 (amountTruncatedInt + 1 * negative)
        else amountTruncatedInt
      else if mode = RoundingModeHalfDown then
        if negative = 1 ∧ valueAfterPrecision > 5 then
          wrap64 (amountTruncatedInt + 1 * negative)
        else amountTruncatedInt
      else if mode = RoundingModeFloor then
        if negative = -1 then wrap64 (amountTruncatedInt + 1 * negative)
        else amountTruncatedInt
      else amountTruncatedInt
    { amount := (amountTruncatedInt : ℚ) / p.precisionF precision, currency := p.currency }

/-- GetPayable: the price rounded as its currency requires. -/
def GetPayable (p : Price) : Price :=
  p.GetPayableByRoundingMode p.payableRoundingPrecision.1 p.payableRoundingPrecision.2

/-- IsPayable: the price is its own payable price. -/
def IsPayable (p : Price) : Bool := p.GetPayable.Equal p

/-- SplitInPayables: `count` payable prices for one price, the total read
from the exact payable amount. -/
def SplitInPayables (p : Price) (count : Int) : List Price × Option Error :=
  if count ≤ 0 then ([], some "Split must be higher than zero")
  else
    let precision := p.payableRoundingPrecision.2
    let amountToMatchInt : Int := int64OfFloat (p.GetPayable.Amount * p.precisionF precision)
    let splittedAmountModulo : Int := Int.tmod amountToMatchInt count
    let splittedAmount : Int := Int.tdiv amountToMatchInt count
    let splittedAmounts : List Int := List.replicate count.toNat 0
    let splittedAmounts := forRange count.toNat splittedAmounts
      (fun i s => s.set i splittedAmount)
    let splittedAmounts := forRange splittedAmountModulo.toNat splittedAmounts
      (fun i s => s.set i (wrap64 (s.getD i 0 + 1)))
    let prices : List Price := List.replicate count.toNat { amount := 0, currency := "" }
    let prices := forRange count.toNat prices
      (fun i s => s.set i (NewFromInt (splittedAmounts.getD i 0) p.payableRoundingPrecision.2
          p.Currency))
    (prices, none)

end Price

/-- The loop of `SumAll` over the prices after the first one. -/
def SumAll.loop : Price → List Price → Price × Option Error
  | result, [] => (result, none)
  | result, price :: rest =>
    match result.Add price with
    | (result, some err) => (result, some err)
    | (result, none) => SumAll.loop result rest

/-- SumAll: the sum of all given prices. -/
def SumAll (prices : List Price) : Price × Option Error :=
  match prices with
  | [] => (NewZero "", some "no price given")
  | first :: rest => SumAll.loop first.Clone rest

/-- The fold the specification gives for `SumAll`: `Add` taken left to
right from the first price over the rest, stopping at the first `Add` that
fails, whose price and error it reports. -/
def foldAddLeftToRight (first : Price) (rest : List Price) : Except (Price × Error) Price :=
  rest.foldlM
    (fun acc price =>
      match acc.Add price with
      | (sum, none) => Except.ok sum
      | (failed, some err) => Except.error (failed, err))
    first

/-- The payable amount in minor units as SplitInPayables reads it. -/
def amountToMatch (p : Price) : Int :=
  int64OfFloat (p.GetPayable.Amount * p.precisionF p.payableRoundingPrecision.2)

/-- The payable price in minor units, `total` in the specification of the
split: `GetPayable` scaled by the precision of the currency, as a whole
number. -/
def payableMinorUnits (p : Price) : Int :=
  truncate (p.GetPayable.amount * (p.payableRoundingPrecision.2 : ℚ))

/-- The range in which GetPayableByRoundingMode computes without integer
overflow: the amount scaled by the precision, with the digit the rounding
checks (`amount * precision * 10`), truncates to an int64. -/
def InRange (amount : BigFloat) (precision : Int) : Prop :=
  minInt64 ≤ truncate (amount * (precision : ℚ) * 10) ∧
    truncate (amount * (precision : ℚ) * 10) ≤ maxInt64

/-! ## Charges -/

/-- Charge: an amount of a certain type, paid as `Price`, worth `Value`.
The field `type` is the field `Type` of the source, a reserved word here. -/
structure Charge where
  Price : Price
  Value : domain.Price
  type : String
deriving DecidableEq

/-- The zero value `Charge{}` of Go. -/
def Charge.zero : Charge :=
  { Price := { amount := 0, currency := "" }, Value := { amount := 0, currency := "" },
    type := "" }

/-- Add adds the given Charge to the current Charge. -/
def Charge.Add (p add : Charge) : Charge × Option Error :=
  if p.type ≠ add.type then (Charge.zero, some "charge type mismatch")
  else
    match p.Price.Add add.Price with
    | (_, some err) => (Charge.zero, some err)
    | (newPrice, none) =>
      match p.Value.Add add.Value with
      | (_, some err) => (Charge.zero, some err)
      | (newValue, none) => ({ Price := newPrice, Value := newValue, type := p.type }, none)

/-- GetPayable rounds the charge. -/
def Charge.GetPayable (p : Charge) : Charge :=
  { Price := p.Price.GetPayable, Value := p.Value.GetPayable, type := p.type }

/-- A Go `map[string]Charge`: a finite map with unique keys, whose entries
stand in one of the orders in which `range` can visit them. -/
abbrev ChargeMap := AList (fun _ : String => Charge)

/-- Charges: the charges by type; `none` is the nil map. -/
structure Charges where
  chargesByType : Option ChargeMap

/-- NewCharges creates a new Charges object. -/
def NewCharges (chargesByType : Option ChargeMap) : Charges :=
  { chargesByType := chargesByType }

namespace Charges

/-- The map read `c.chargesByType[ctype]`, which on a nil map finds nothing. -/
def lookup (c : Charges) (ctype : String) : Option Charge :=
  match c.chargesByType with
  | none => none
  | some m => m.lookup ctype

/-- The map after `if c.chargesByType == nil { make(...) }`. -/
def madeMap (c : Charges) : ChargeMap :=
  match c.chargesByType with
  | none => ∅
  | some m => m

/-- HasType tells whether the charges include a charge of the type. -/
def HasType (c : Charges) (ctype : String) : Bool :=
  match c.lookup ctype with
  | some _ => true
  | none => false

/-- GetByType returns the charge of the type, or the zero charge and
`false`. -/
def GetByType (c : Charges) (ctype : String) : Charge × Bool :=
  match c.lookup ctype with
  | some charge => (charge, true)
  | none => (Charge.zero, false)

/-- GetByTypeForced returns the charge of the type, or the zero charge. -/
def GetByTypeForced (c : Charges) (ctype : String) : Charge :=
  match c.lookup ctype with
  | some charge => charge
  | none => Charge.zero

/-- The entries `range` visits; on a nil map there are none. -/
def entries (c : Charges) : List ((_ : String) × Charge) :=
  match c.chargesByType with
  | none => []
  | some m => m.entries

/-- One round of the loop of `Add` over the entries of the other map. -/
def addEntry (m : ChargeMap) (entry : (_ : String) × Charge) : ChargeMap :=
  match m.lookup entry.1 with
  | some existingCharge => m.insert entry.1 (existingCharge.Add entry.2).1.GetPayable
  | none => m.insert entry.1 entry.2

/-- Add returns the Charges with the given ones added. -/
def Add (c toadd : Charges) : Charges :=
  { chargesByType := some (toadd.entries.foldl addEntry c.madeMap) }

/-- AddCharge returns the Charges with the given Charge added. -/
def AddCharge (c : Charges) (toadd : Charge) : Charges :=
  match c.madeMap.lookup toadd.type with
  | some existingCharge =>
    { chargesByType :=
        some (c.madeMap.insert toadd.type (existingCharge.Add toadd).1.GetPayable) }
  | none => { chargesByType := some (c.madeMap.insert toadd.type toadd) }

/-- What the specification gives for `Add`: `AddCharge` applied for every
entry of the other Charges, the entries taken in the given order. -/
def addChargeEach (c : Charges) (order : List ((_ : String) × Charge)) : Charges :=
  order.foldl (fun acc entry => acc.AddCharge entry.2) c

end Charges

/-! ## The cart (`cart/domain/cart/cart.go`) -/

/-- Item of a cart, with the fields the lookups of the cart read. -/
structure Item where
  ID : String
  MarketplaceCode : String
  VariantMarketPlaceCode : String
  Qty : Int
deriving DecidableEq

/-- The zero value of `Item` (`var item Item`). -/
def Item.zero : Item :=
  { ID := "", MarketplaceCode := "", VariantMarketPlaceCode := "", Qty := 0 }

/-- Cart, with its list of items. -/
structure Cart where
  Cartitems : List Item

/-- GetByLineNr gets an item, starting with 1.  The index `lineNr-1` is
within the list by the condition before it. -/
def Cart.GetByLineNr (cart : Cart) (lineNr : Int) : Item × Option Error :=
  if (cart.Cartitems.length : Int) ≥ lineNr ∧ lineNr > 0 then
    (cart.Cartitems.getD (lineNr - 1).toNat Item.zero, none)
  else (Item.zero, some "Line in cart not existend")

/-- The loop of HasItem over the items from the index `lineNr` on. -/
def Cart.HasItem.loop (marketplaceCode variantMarketplaceCode : String) :
    List Item → Int → Bool × Int
  | [], _ => (false, 0)
  | item :: rest, lineNr =>
    if item.MarketplaceCode = marketplaceCode ∧
        item.VariantMarketPlaceCode = variantMarketplaceCode then
      (true, lineNr + 1)
    else Cart.HasItem.loop marketplaceCode variantMarketplaceCode rest (lineNr + 1)

/-- HasItem checks if a cart item for that sku exists and returns its line
number if found. -/
def Cart.HasItem (cart : Cart) (marketplaceCode variantMarketplaceCode : String) :
    Bool × Int :=
  Cart.HasItem.loop marketplaceCode variantMarketplaceCode cart.Cartitems 0

/-! ## Amounts at the precision of `math/big` -/

namespace big

/-- Rounding of a value to the nearest integer, a half to the even one. -/
def roundHalfEven (t : ℚ) : Int :=
  if t - ⌊t⌋ < 1 / 2 then ⌊t⌋
  else if 1 / 2 < t - ⌊t⌋ then ⌊t⌋ + 1
  else if ⌊t⌋ % 2 = 0 then ⌊t⌋
  else ⌊t⌋ + 1

/-- The unit in the last place of a value at a mantissa of `prec` bits:
`2 ^ (e - prec + 1)` for a value of magnitude in `[2 ^ e, 2 ^ (e + 1))`. -/
def ulp (prec : Nat) (x : ℚ) : ℚ := (2 : ℚ) ^ (Int.log 2 |x| - (prec : Int) + 1)

/-- Rounding of a value to a mantissa of `prec` bits in the mode
ToNearestEven, the mode of every `big.Float` of the source (none sets
another one).  The exponent of a `big.Float` has 32 bits; its overflow is
not modelled. -/
def round (prec : Nat) (x : ℚ) : ℚ := (roundHalfEven (x / ulp prec x) : ℚ) * ulp prec x

/-- A finite `big.Float`: its mantissa precision in bits and its value.
Infinite values and the sign of a zero are not modelled. -/
structure Float where
  prec : Nat
  val : ℚ
deriving DecidableEq

/-- The zero value `big.Float{}`, of precision 0. -/
def Float.zero : Float := { prec := 0, val := 0 }

/-- The values a `big.Float` can hold: those that rounding to its own
precision leaves as they are. -/
def Float.Valid (x : Float) : Prop := round x.prec x.val = x.val

/-- NewFloat: a `big.Float` of precision 53 set to a float64. -/
def NewFloat (x : ℚ) : Float := { prec := 53, val := x }

/-- The call `new(big.Float).SetInt64(x)`: precision 64, which holds every
int64 as it is. -/
def SetInt64 (x : Int) : Float := { prec := 64, val := (x : ℚ) }

namespace Float

/-- The call `new(big.Float).Set(x)`: the precision and the value of `x`. -/
def Set (x : Float) : Float := { prec := x.prec, val := x.val }

/-- The call `new(big.Float).Copy(x)`. -/
def Copy (x : Float) : Float := { prec := x.prec, val := x.val }

/-- The call `z.Add(x, y)` on a receiver of precision 0, which takes the
larger precision of the operands and holds the rounded sum. -/
def Add (x y : Float) : Float :=
  { prec := max x.prec y.prec, val := round (max x.prec y.prec) (x.val + y.val) }

/-- The call `z.Sub(x, y)` on a receiver of precision 0. -/
def Sub (x y : Float) : Float :=
  { prec := max x.prec y.prec, val := round (max x.prec y.prec) (x.val - y.val) }

/-- The call `z.Mul(x, y)` on a receiver of precision 0. -/
def Mul (x y : Float) : Float :=
  { prec := max x.prec y.prec, val := round (max x.prec y.prec) (x.val * y.val) }

/-- The call `z.Quo(x, y)` on a receiver of precision 0.  A division by
zero (an infinite value or a panic in Go) is outside the model. -/
def Quo (x y : Float) : Float :=
  { prec := max x.prec y.prec, val := round (max x.prec y.prec) (x.val / y.val) }

/-- Float64: the nearest float64 (53 bits, a half to the even mantissa).
The exponent range of float64 is not modelled: a value too large for it
converts to an int64 like any value outside the int64 range, and a value too
small for a normal float64 truncates to zero like the float64 it becomes. -/
def Float64 (x : Float) : ℚ := round 53 x.val

/-- The comparison `x.Cmp(y)`: `-1`, `0` or `+1`, by the values. -/
def Cmp (x y : Float) : Int := domain.Cmp x.val y.val

end Float

end big

/-- The conversion of a constant to a float64: the nearest float64 (the
exponent range of float64 is not modelled). -/
def float64 (x : ℚ) : ℚ := big.round 53 x

/-! ## Prices at the precision of `math/big` -/

namespace fp

/-- Price: an amount, a `big.Float` with its precision, in a currency. -/
structure Price where
  amount : big.Float
  currency : String
deriving DecidableEq

/-- NewFromFloat: the amount is a `big.Float` of precision 53 set to the
float64. -/
def NewFromFloat (amount : ℚ) (currency : String) : Price :=
  { amount := big.NewFloat amount, currency := currency }

/-- NewZero: the zero price of a currency. -/
def NewZero (currency : String) : Price :=
  { amount := big.SetInt64 0, currency := currency }

/-- NewFromInt: a price from its smallest payable unit. -/
def NewFromInt (amount : Int) (precicion : Int) (currency : String) : Price :=
  let amountF := big.SetInt64 amount
  if precicion = 0 then { amount := big.SetInt64 0, currency := currency }
  else
    let precicionF := big.SetInt64 precicion
    { amount := amountF.Quo precicionF, currency := currency }

namespace Price

/-- Currency returns the currency. -/
def Currency (p : Price) : String := p.currency

/-- Amount returns the amount. -/
def Amount (p : Price) : big.Float := p.amount

/-- Clone returns a copy of the price. -/
def Clone (p : Price) : Price := { amount := p.amount.Set, currency := p.currency }

/-- Equal compares the prices exactly: the same currency and
`amount.Cmp == 0`. -/
def Equal (p cmp : Price) : Bool :=
  if p.currency ≠ cmp.currency then false
  else decide (p.amount.Cmp cmp.amount = 0)

/-- IsLessThenValue compares the amount with a value. -/
def IsLessThenValue (p : Price) (amount : big.Float) : Bool :=
  if p.amount.Cmp amount = -1 then true else false

/-- IsNegative: the amount is below zero. -/
def IsNegative (p : Price) : Bool := p.IsLessThenValue (big.NewFloat 0)

/-- IsZero: equal to one of the two zero prices of its own currency. -/
def IsZero (p : Price) : Bool :=
  p.Equal (NewZero p.Currency) || p.Equal (NewFromFloat 0 p.Currency)

/-- FloatAmount gets the amount as float64. -/
def FloatAmount (p : Price) : ℚ := p.amount.Float64

/-- The currency guard of the price calculations.  The price it returns
without an error has the zero value of `big.Float` as amount. -/
def currencyGuard (p check : Price) : Price × Option Error :=
  if p.currency = check.currency then
    ({ amount := big.Float.zero, currency := check.currency }, none)
  else if p.IsZero then
    ({ amount := big.Float.zero, currency := check.currency }, none)
  else if check.IsZero then
    ({ amount := big.Float.zero, currency := p.currency }, none)
  else
    (NewZero p.currency, some "Cannot calculate prices in different currencies")

/-- Add: the sum of two prices. -/
def Add (p add : Price) : Price × Option Error :=
  match p.currencyGuard add with
  | (newPrice, some err) => (newPrice, some err)
  | (newPrice, none) => ({ newPrice with amount := p.amount.Add add.amount }, none)

/-- Sub: the difference of two prices. -/
def Sub (p sub : Price) : Price × Option Error :=
  match p.currencyGuard sub with
  | (newPrice, some err) => (newPrice, some err)
  | (newPrice, none) => ({ newPrice with amount := p.amount.Sub sub.amount }, none)

/-- Multiply returns a new price with the amount multiplied. -/
def Multiply (p : Price) (qty : Int) : Price :=
  { amount := p.amount.Mul (big.SetInt64 qty), currency := p.currency }

/-- Divided returns a new price with the amount divided; a zero price on a
division by zero. -/
def Divided (p : Price) (qty : Int) : Price :=
  if qty = 0 then NewZero p.currency
  else { amount := p.amount.Quo (big.SetInt64 qty), currency := p.currency }

/-- The precision as a `big.Float`. -/
def precisionF (_p : Price) (precision : Int) : big.Float := big.SetInt64 precision

/-- The rounding mode and precision of the currency of a price. -/
def payableRoundingPrecision (p : Price) : String × Int :=
  if toLower p.currency = "miles" ∨ toLower p.currency = "points" then
    (RoundingModeFloor, 1)
  else (RoundingModeHalfUp, 100)

/-- GetPayableByRoundingMode: rounding with a mode and a precision.  The
scaled amounts go through `Float64()` before the conversion to int64. -/
def GetPayableByRoundingMode (p : Price) (mode : String) (precision : Int) : Price :=
  let amountForRound := p.amount.Copy
  let negative : Int := if p.IsNegative then -1 else 1
  let offsetToCheckRounding := (p.precisionF precision).Mul (big.SetInt64 10)
  let amountTruncatedFloat : ℚ := (amountForRound.Mul (p.precisionF precision)).Float64
  let amountTruncatedInt : Int := int64OfFloat amountTruncatedFloat
  let amountRoundingCheckFloat : ℚ := (amountForRound.Mul offsetToCheckRounding).Float64
  let amountRoundingCheckInt : Int := int64OfFloat amountRoundingCheckFloat
  let valueAfterPrecision : Int :=
    wrap64 (wrap64 (amountRoundingCheckInt - wrap64 (amountTruncatedInt * 10)) * negative)
  if amountTruncatedFloat ≥ 2 ^ 63 then
    { amount := p.amount, currency := p.currency }
  else
    let amountTruncatedInt : Int :=
      if mode = RoundingModeCeil then
        if negative = 1 ∧ valueAfterPrecision > 0 then
          wrap64 (amountTruncatedInt + 1 * negative)
        else amountTruncatedInt
      else if mode = RoundingModeHalfUp then
        if negative = 1 ∧ valueAfterPrecision ≥ 5 then
          wrap64 (amountTruncatedInt + 1 * negative)
        else amountTruncatedInt
      else if mode = RoundingModeHalfDown then
        if negative = 1 ∧ valueAfterPrecision > 5 then
          wrap64 (amountTruncatedInt + 1 * negative)
        else amountTruncatedInt
      else if mode = RoundingModeFloor then
        if negative = -1 then wrap64 (amountTruncatedInt + 1 * negative)
        else amountTruncatedInt
      else amountTruncatedInt
    { amount := (big.SetInt64 amountTruncatedInt).Quo (p.precisionF precision),
      currency := p.currency }

/-- GetPayable: the price rounded as its currency requires. -/
def GetPayable (p : Price) : Price :=
  p.GetPayableByRoundingMode p.payableRoundingPrecision.1 p.payableRoundingPrecision.2

/-- IsPayable: the price is its own payable price. -/
def IsPayable (p : Price) : Bool := p.GetPayable.Equal p

/-- SplitInPayables: `count` payable prices for one price. -/
def SplitInPayables (p : Price) (count : Int) : List Price × Option Error :=
  if count ≤ 0 then ([], some "Split must be higher than zero")
  else
    let precision := p.payableRoundingPrecision.2
    let amountToMatchFloat : ℚ := (p.GetPayable.Amount.Mul (p.precisionF precision)).Float64
    let amountToMatchInt : Int := int64OfFloat amountToMatchFloat
    let splittedAmountModulo : Int := Int.tmod amountToMatchInt count
    let splittedAmount : Int := Int.tdiv amountToMatchInt count
    let splittedAmounts : List Int := List.replicate count.toNat 0
    let splittedAmounts := forRange count.toNat splittedAmounts
      (fun i s => s.set i splittedAmount)
    let splittedAmounts := forRange splittedAmountModulo.toNat splittedAmounts
      (fun i s => s.set i (wrap64 (s.getD i 0 + 1)))
    let prices : List Price :=
      List.replicate count.toNat { amount := big.Float.zero, currency := "" }
    let prices := forRange count.toNat prices
      (fun i s => s.set i
        (NewFromInt (splittedAmounts.getD i 0) p.payableRoundingPrecision.2 p.Currency))
    (prices, none)

end Price

/-- The loop of `SumAll` over the prices after the first one. -/
def SumAll.loop : Price → List Price → Price × Option Error
  | result, [] => (result, none)
  | result, price :: rest =>
    match result.Add price with
    | (result, some err) => (result, some err)
    | (result, none) => SumAll.loop result rest

/-- SumAll: the sum of all given prices. -/
def SumAll (prices : List Price) : Price × Option Error :=
  match prices with
  | [] => (NewZero "", some "no price given")
  | first :: rest => SumAll.loop first.Clone rest

/-- The two float64 values that GetPayableByRoundingMode converts to
int64: the amount scaled by the precision, -/
def scaled (p : Price) (precision : Int) : ℚ :=
  (p.amount.Mul (big.SetInt64 precision)).Float64

/-- and the amount scaled by ten times the precision. -/
def scaled10 (p : Price) (precision : Int) : ℚ :=
  (p.amount.Mul ((big.SetInt64 precision).Mul (big.SetInt64 10))).Float64

/-- The range in which GetPayableByRoundingMode computes without integer
overflow: both scaled float64 values truncate to an int64, the first one
with room for its tenfold. -/
def InRange (p : Price) (precision : Int) : Prop :=
  minInt64 ≤ truncate (scaled p precision) * 10 ∧
    truncate (scaled p precision) * 10 ≤ maxInt64 ∧
    minInt64 ≤ truncate (scaled10 p precision) ∧
    truncate (scaled10 p precision) ≤ maxInt64

/-- The payable amount in minor units as SplitInPayables reads it. -/
def amountToMatch (p : Price) : Int :=
  int64OfFloat (p.GetPayable.Amount.Mul (p.precisionF p.payableRoundingPrecision.2)).Float64

/-- The payable price in minor units, `total` in the specification of the
split: the whole number nearest to the payable amount scaled by the
precision of the currency. -/
def payableMinorUnits (p : Price) : Int :=
  big.roundHalfEven (p.GetPayable.amount.val * (p.payableRoundingPrecision.2 : ℚ))

end fp

/-! ## Comparisons -/

theorem Cmp_eq_zero_iff (x y : BigFloat) : Cmp x y = 0 ↔ x = y := by
  unfold Cmp
  split_ifs with h1 h2
  · simp; exact ne_of_lt h1
  · simp; exact ne_of_gt h2
  · simp; exact le_antisymm (not_lt.mp h2) (not_lt.mp h1)

theorem Cmp_eq_neg_one_iff (x y : BigFloat) : Cmp x y = -1 ↔ x < y := by
  unfold Cmp
  split_ifs with h1 h2 <;> simp [h1]

theorem Cmp_eq_one_iff (x y : BigFloat) : Cmp x y = 1 ↔ y < x := by
  unfold Cmp
  split_ifs with h1 h2
  · simp; exact le_of_lt h1
  · simp [h2]
  · simp [h2]

theorem Equal_iff (p q : Price) :
    p.Equal q = true ↔ p.currency = q.currency ∧ p.amount = q.amount := by
  unfold Price.Equal
  by_cases h : p.currency = q.currency
  · simp [h, Cmp_eq_zero_iff]
  · simp [h]

theorem IsZero_iff (p : Price) : p.IsZero = true ↔ p.amount = 0 := by
  simp [Price.IsZero, Equal_iff, NewZero, NewFromFloat, Price.Currency]

theorem IsLessThen_iff (p q : Price) :
    p.IsLessThen q = true ↔ p.currency = q.currency ∧ p.amount < q.amount := by
  unfold Price.IsLessThen
  by_cases h : p.currency = q.currency
  · simp [h, Cmp_eq_neg_one_iff]
  · simp [h]

theorem IsGreaterThen_iff (p q : Price) :
    p.IsGreaterThen q = true ↔ p.currency = q.currency ∧ q.amount < p.amount := by
  unfold Price.IsGreaterThen
  by_cases h : p.currency = q.currency
  · simp [h, Cmp_eq_one_iff]
  · simp [h]

theorem IsNegative_iff (p : Price) : p.IsNegative = true ↔ p.amount < 0 := by
  simp [Price.IsNegative, Price.IsLessThenValue, Cmp_eq_neg_one_iff]

/-! ## Machine integers and conversions -/

theorem wrap64_zero : wrap64 0 = 0 := by decide

theorem wrap64_of_range (x : Int) (h1 : minInt64 ≤ x) (h2 : x ≤ maxInt64) : wrap64 x = x := by
  unfold wrap64
  unfold minInt64 at h1
  unfold maxInt64 at h2
  omega

theorem wrap64_range (x : Int) : minInt64 ≤ wrap64 x ∧ wrap64 x ≤ maxInt64 := by
  unfold wrap64 minInt64 maxInt64
  omega

theorem truncate_intCast (k : Int) : truncate (k : ℚ) = k := by
  unfold truncate
  split_ifs with h
  · exact Int.floor_intCast k
  · rw [← Int.cast_neg, Int.floor_intCast]; ring

theorem int64OfFloat_of_range (x : ℚ) (h1 : minInt64 ≤ truncate x) (h2 : truncate x ≤ maxInt64) :
    int64OfFloat x = truncate x := by
  unfold int64OfFloat
  rw [if_pos ⟨h1, h2⟩]

theorem int64OfFloat_range (x : ℚ) :
    minInt64 ≤ int64OfFloat x ∧ int64OfFloat x ≤ maxInt64 := by
  unfold int64OfFloat
  split_ifs with h
  · exact h
  · unfold minInt64 maxInt64
    constructor <;> norm_num

theorem tmod_nonpos_of_nonpos (a b : Int) (ha : a ≤ 0) : Int.tmod a b ≤ 0 := by
  have h := Int.tmod_nonneg b (neg_nonneg.mpr ha)
  rw [Int.tmod_def, Int.neg_tdiv] at h
  rw [Int.tmod_def]
  have e : -a - b * -a.tdiv b = -(a - b * a.tdiv b) := by ring
  rw [e] at h
  linarith

/-- The increment of the second loop of SplitInPayables does not overflow:
a positive remainder needs a positive total and a count of two or more. -/
theorem tdiv_succ_in_range (a c : Int) (ha : a ≤ maxInt64) (hc : 1 ≤ c)
    (hm : 0 < Int.tmod a c) :
    minInt64 ≤ Int.tdiv a c + 1 ∧ Int.tdiv a c + 1 ≤ maxInt64 := by
  have hpos : 0 < a := by
    by_contra hneg
    have := tmod_nonpos_of_nonpos a c (not_lt.mp hneg)
    omega
  have hlt : Int.tmod a c < c := Int.tmod_lt_of_pos a (by omega)
  have hb : 0 ≤ Int.tdiv a c := Int.tdiv_nonneg (le_of_lt hpos) (by omega)
  have hdef := Int.tmod_add_tdiv a c
  have hc2 : 2 ≤ c := by omega
  have hmul : 2 * Int.tdiv a c ≤ c * Int.tdiv a c := by nlinarith
  unfold maxInt64 at ha ⊢
  unfold minInt64
  constructor <;> omega

/-! ## Loops -/

theorem forRange_succ {σ : Type} (n : Nat) (init : σ) (body : Nat → σ → σ) :
    forRange (n + 1) init body = body n (forRange n init body) := by
  unfold forRange
  rw [List.range_succ, List.foldl_append]
  rfl

/-- A loop that rewrites entry `i` in round `i` from its index and its old
value leaves the length alone and has rewritten the entries below `k`
after `k` rounds. -/
theorem forRange_set {α : Type} (h : Nat → α → α) (d : α) (s : List α) (k : Nat) :
    (forRange k s (fun i t => t.set i (h i (t.getD i d)))).length = s.length ∧
    ∀ j, (forRange k s (fun i t => t.set i (h i (t.getD i d))))[j]? =
      (s[j]?).map (fun x => if j < k then h j x else x) := by
  induction k with
  | zero =>
    refine ⟨rfl, fun j => ?_⟩
    simp [forRange]
  | succ k ih =>
    obtain ⟨hlen, hget⟩ := ih
    rw [forRange_succ]
    refine ⟨by rw [List.length_set, hlen], fun j => ?_⟩
    rw [List.getElem?_set, hlen]
    by_cases hjk : k = j
    · subst hjk
      by_cases hlt : k < s.length
      · have hs : s[k]? = some s[k] := List.getElem?_eq_getElem hlt
        have hk := hget k
        rw [hs] at hk
        simp only [Option.map_some', lt_self_iff_false, if_false] at hk
        rw [if_pos rfl, if_pos hlt, hs, List.getD_eq_getElem?_getD, hk]
        simp
      · have hs : s[k]? = none := List.getElem?_eq_none (not_lt.mp hlt)
        simp [hlt, hs]
    · rw [if_neg hjk, hget j]
      rcases hs : s[j]? with _ | x
      · rfl
      · simp only [Option.map_some', Option.some.injEq]
        by_cases h1 : j < k
        · rw [if_pos h1, if_pos (Nat.lt_succ_of_lt h1)]
        · have h2 : ¬ j < k + 1 := by omega
          rw [if_neg h1, if_neg h2]

/-! ## The currency guard -/

theorem currencyGuard_cases (p q : Price) :
    (p.currencyGuard q = ({ amount := 0, currency := q.currency }, none) ∧
        (p.currency = q.currency ∨ p.IsZero = true)) ∨
    (p.currencyGuard q = ({ amount := 0, currency := p.currency }, none) ∧
        p.currency ≠ q.currency ∧ p.IsZero = false ∧ q.IsZero = true) ∨
    (p.currencyGuard q =
        (NewZero p.currency, some "Cannot calculate prices in different currencies") ∧
        p.currency ≠ q.currency ∧ p.IsZero = false ∧ q.IsZero = false) := by
  unfold Price.currencyGuard
  by_cases hc : p.currency = q.currency
  · simp [hc]
  · by_cases hp : p.IsZero = true
    · simp [hc, hp]
    · by_cases hq : q.IsZero = true
      · simp [hc, hp, hq]
      · simp [hc, hp, hq]

/-! ## Rounding -/

theorem payable_eur (a : ℚ) :
    (Price.mk a "EUR").payableRoundingPrecision = (RoundingModeHalfUp, 100) := by
  simp [Price.payableRoundingPrecision, toLower, toLowerRune]

theorem payable_miles (a : ℚ) :
    (Price.mk a "miles").payableRoundingPrecision = (RoundingModeFloor, 1) := by
  simp [Price.payableRoundingPrecision, toLower, toLowerRune]

theorem payableRoundingPrecision_ne_zero (p : Price) : p.payableRoundingPrecision.2 ≠ 0 := by
  unfold Price.payableRoundingPrecision
  split_ifs <;> decide

theorem payableRoundingPrecision_pos (p : Price) : 0 < p.payableRoundingPrecision.2 := by
  unfold Price.payableRoundingPrecision
  split_ifs <;> decide

theorem payableRoundingPrecision_congr (p q : Price) (h : p.currency = q.currency) :
    p.payableRoundingPrecision = q.payableRoundingPrecision := by
  unfold Price.payableRoundingPrecision
  rw [h]

theorem GetPayableByRoundingMode_currency (p : Price) (mode : String) (precision : Int) :
    (p.GetPayableByRoundingMode mode precision).currency = p.currency := by
  unfold Price.GetPayableByRoundingMode
  simp only []
  split_ifs <;> rfl

theorem GetPayable_currency (p : Price) : p.GetPayable.currency = p.currency :=
  GetPayableByRoundingMode_currency p _ _

/-- The two shapes of a rounded price: the price itself behind the overflow
guard, or an int64 number of units of `1 / precision`. -/
theorem GetPayableByRoundingMode_shape (p : Price) (mode : String) (precision : Int) :
    ((p.amount * (precision : ℚ) ≥ 2 ^ 63) ∧ p.GetPayableByRoundingMode mode precision = p) ∨
    ∃ k : Int, minInt64 ≤ k ∧ k ≤ maxInt64 ∧
      p.GetPayableByRoundingMode mode precision =
        Price.mk ((k : ℚ) / (precision : ℚ)) p.currency := by
  unfold Price.GetPayableByRoundingMode
  simp only [Price.precisionF]
  by_cases hg : p.amount * (precision : ℚ) ≥ 2 ^ 63
  · left
    exact ⟨hg, by rw [if_pos hg]⟩
  · right
    rw [if_neg hg]
    have hi := int64OfFloat_range (p.amount * (precision : ℚ))
    split_ifs
    all_goals first
      | exact ⟨_, (wrap64_range _).1, (wrap64_range _).2, rfl⟩
      | exact ⟨_, hi.1, hi.2, rfl⟩

/-- Rounding a price that is a whole number `k` of units of `1 / precision`:
no digit follows the precision, so only the Floor case moves it, and it
moves every negative `k` one unit down. -/
theorem GetPayableByRoundingMode_whole (k precision : Int) (mode c : String)
    (hP : 0 < precision) (hmin : minInt64 ≤ k * 10) (hmax : k * 10 ≤ maxInt64) :
    (Price.mk ((k : ℚ) / (precision : ℚ)) c).GetPayableByRoundingMode mode precision =
      Price.mk
        (((if mode = RoundingModeFloor ∧ k < 0 then wrap64 (k + 1 * -1) else k : Int) : ℚ) /
          (precision : ℚ)) c := by
  have hPq : (0 : ℚ) < (precision : ℚ) := by exact_mod_cast hP
  have hkmin : minInt64 ≤ k := by unfold minInt64 at hmin ⊢; omega
  have hkmax : k ≤ maxInt64 := by unfold maxInt64 at hmax ⊢; omega
  have h1 : (k : ℚ) / (precision : ℚ) * (precision : ℚ) = (k : ℚ) := by field_simp
  have h2 : (k : ℚ) / (precision : ℚ) * ((precision : ℚ) * 10) = ((k * 10 : Int) : ℚ) := by
    push_cast; field_simp; ring
  have hneg : (Price.mk ((k : ℚ) / (precision : ℚ)) c).IsNegative = decide (k < 0) := by
    rw [Bool.eq_iff_iff, IsNegative_iff]
    simp only [decide_eq_true_eq]
    rw [div_lt_iff₀ hPq, zero_mul]
    exact_mod_cast Iff.rfl
  have hguard : ¬ ((k : ℚ) ≥ 2 ^ 63) := by
    have : (k : ℚ) ≤ ((maxInt64 : Int) : ℚ) := by exact_mod_cast hkmax
    unfold maxInt64 at this
    push_cast at this
    intro h
    linarith
  unfold Price.GetPayableByRoundingMode
  simp only [Price.precisionF, h1, h2, hneg]
  rw [int64OfFloat_of_range (k : ℚ) (by rw [truncate_intCast]; exact hkmin)
      (by rw [truncate_intCast]; exact hkmax),
    int64OfFloat_of_range ((k * 10 : Int) : ℚ) (by rw [truncate_intCast]; exact hmin)
      (by rw [truncate_intCast]; exact hmax)]
  simp only [truncate_intCast]
  rw [wrap64_of_range (k * 10) hmin hmax, sub_self, wrap64_zero, zero_mul, wrap64_zero,
    if_neg hguard]
  by_cases hk : k < 0
  · simp [hk, RoundingModeCeil, RoundingModeHalfUp, RoundingModeHalfDown, RoundingModeFloor]
    split_ifs <;> simp_all
  · simp [hk]

theorem getPayable_neg_one_eur : (Price.mk (-1) "EUR").GetPayable = Price.mk (-1) "EUR" := by
  simp [Price.GetPayable, Price.GetPayableByRoundingMode, payable_eur, Price.IsNegative,
    Price.IsLessThenValue, Cmp, int64OfFloat, truncate, wrap64, minInt64, maxInt64,
    Price.precisionF, RoundingModeHalfUp, RoundingModeCeil, RoundingModeFloor,
    RoundingModeHalfDown]
  norm_num

theorem getPayable_12456_eur :
    (Price.mk (12456 / 1000) "EUR").GetPayable = Price.mk (1246 / 100) "EUR" := by
  simp [Price.GetPayable, Price.GetPayableByRoundingMode, payable_eur, Price.IsNegative,
    Price.IsLessThenValue, Cmp, int64OfFloat, truncate, wrap64, minInt64, maxInt64,
    Price.precisionF, RoundingModeHalfUp, RoundingModeCeil, RoundingModeFloor,
    RoundingModeHalfDown]
  norm_num

theorem payableMinorUnits_12456_eur :
    payableMinorUnits (Price.mk (12456 / 1000) "EUR") = 1246 := by
  unfold payableMinorUnits
  rw [getPayable_12456_eur, payable_eur]
  norm_num [truncate]

/-! ## The parts of SplitInPayables -/

theorem NewFromInt_currency (a precision : Int) (currency : String) :
    (NewFromInt a precision currency).currency = currency := by
  unfold NewFromInt
  split_ifs <;> rfl

theorem splittedAmounts_getElem? (n m : Nat) (b : Int) (j : Nat) :
    (forRange m (forRange n (List.replicate n (0 : Int)) (fun i s => s.set i b))
        (fun i s => s.set i (wrap64 (s.getD i 0 + 1))))[j]? =
      if j < n then some (if j < m then wrap64 (b + 1) else b) else none := by
  have h1 := (forRange_set (fun _ _ => b) (0 : Int) (List.replicate n 0) n).2
  have h2 := (forRange_set (fun _ x => wrap64 (x + 1)) (0 : Int)
    (forRange n (List.replicate n (0 : Int)) (fun i s => s.set i b)) m).2 j
  rw [h2, h1 j, List.getElem?_replicate]
  by_cases hj : j < n
  · simp [hj]
  · simp [hj]

theorem splittedAmounts_getD (n m : Nat) (b : Int) (j : Nat) (hj : j < n) :
    (forRange m (forRange n (List.replicate n (0 : Int)) (fun i s => s.set i b))
        (fun i s => s.set i (wrap64 (s.getD i 0 + 1)))).getD j 0 =
      if j < m then wrap64 (b + 1) else b := by
  rw [List.getD_eq_getElem?_getD, splittedAmounts_getElem?, if_pos hj]
  rfl

theorem SplitInPayables_parts (p : Price) (count : Int) (hc : 1 ≤ count) :
    (p.SplitInPayables count).2 = none ∧
    (p.SplitInPayables count).1.length = count.toNat ∧
    ∀ j, (p.SplitInPayables count).1[j]? =
      if j < count.toNat then
        some (NewFromInt
          (if j < (Int.tmod (amountToMatch p) count).toNat
            then wrap64 (Int.tdiv (amountToMatch p) count + 1)
            else Int.tdiv (amountToMatch p) count)
          p.payableRoundingPrecision.2 p.currency)
      else none := by
  have hnot : ¬ count ≤ 0 := by omega
  unfold Price.SplitInPayables
  simp only [if_neg hnot]
  refine ⟨trivial, ?_, fun j => ?_⟩
  · have h3 := (forRange_set
      (fun i _ => NewFromInt
        ((forRange (Int.tmod (amountToMatch p) count).toNat
          (forRange count.toNat (List.replicate count.toNat (0 : Int))
            (fun i s => s.set i (Int.tdiv (amountToMatch p) count)))
          (fun i s => s.set i (wrap64 (s.getD i 0 + 1)))).getD i 0)
        p.payableRoundingPrecision.2 p.Currency)
      ({ amount := 0, currency := "" } : Price)
      (List.replicate count.toNat { amount := 0, currency := "" }) count.toNat).1
    rw [List.length_replicate] at h3
    exact h3
  · have h3 := (forRange_set
      (fun i _ => NewFromInt
        ((forRange (Int.tmod (amountToMatch p) count).toNat
          (forRange count.toNat (List.replicate count.toNat (0 : Int))
            (fun i s => s.set i (Int.tdiv (amountToMatch p) count)))
          (fun i s => s.set i (wrap64 (s.getD i 0 + 1)))).getD i 0)
        p.payableRoundingPrecision.2 p.Currency)
      ({ amount := 0, currency := "" } : Price)
      (List.replicate count.toNat { amount := 0, currency := "" }) count.toNat).2 j
    refine Eq.trans h3 ?_
    rw [List.getElem?_replicate]
    by_cases hj : j < count.toNat
    · rw [if_pos hj, if_pos hj]
      simp only [Option.map_some', if_pos hj]
      rw [splittedAmounts_getD _ _ _ _ hj]
      rfl
    · simp [hj]

/-- The parts SplitInPayables returns for `count >= 1`, from the minor
units it reads: as many parts one minor unit above the quotient as the
remainder of Go's `%` says (none when it is negative), then parts of the
quotient. -/
theorem SplitInPayables_eq_replicate (p : Price) (count : Int) (hc : 1 ≤ count) :
    p.SplitInPayables count =
      (List.replicate (Int.tmod (amountToMatch p) count).toNat
          (NewFromInt (Int.tdiv (amountToMatch p) count + 1)
            p.payableRoundingPrecision.2 p.currency) ++
        List.replicate (count.toNat - (Int.tmod (amountToMatch p) count).toNat)
          (NewFromInt (Int.tdiv (amountToMatch p) count)
            p.payableRoundingPrecision.2 p.currency), none) := by
  obtain ⟨herr, _, hget⟩ := SplitInPayables_parts p count hc
  have hlt : Int.tmod (amountToMatch p) count < count :=
    Int.tmod_lt_of_pos (amountToMatch p) (by omega)
  refine Prod.ext ?_ herr
  apply List.ext_getElem?
  intro j
  rw [hget j]
  by_cases h1 : j < (Int.tmod (amountToMatch p) count).toNat
  · have hpos : 0 < Int.tmod (amountToMatch p) count := by omega
    have hrange := tdiv_succ_in_range (amountToMatch p) count
      (int64OfFloat_range _).2 hc hpos
    have hj : j < count.toNat := by omega
    rw [if_pos hj, if_pos h1, wrap64_of_range _ hrange.1 hrange.2,
      List.getElem?_append_left (by rw [List.length_replicate]; exact h1),
      List.getElem?_replicate, if_pos h1]
  · rw [if_neg h1, List.getElem?_append_right (by rw [List.length_replicate]; omega),
      List.length_replicate, List.getElem?_replicate]
    by_cases hj : j < count.toNat
    · rw [if_pos hj, if_pos (by omega)]
    · rw [if_neg hj, if_neg (by omega)]

/-- A payable price of at most `maxInt64` minor units did not pass the
overflow guard: it is a whole number of minor units, which SplitInPayables
reads as it is. -/
theorem payableMinorUnits_whole (p : Price) (hmax : payableMinorUnits p ≤ maxInt64) :
    p.GetPayable.amount * (p.payableRoundingPrecision.2 : ℚ) = (payableMinorUnits p : ℚ) ∧
      amountToMatch p = payableMinorUnits p := by
  have hP : (p.payableRoundingPrecision.2 : ℚ) ≠ 0 :=
    Int.cast_ne_zero.mpr (payableRoundingPrecision_ne_zero p)
  rcases GetPayableByRoundingMode_shape p p.payableRoundingPrecision.1
      p.payableRoundingPrecision.2 with ⟨hg, hp⟩ | ⟨k, hkmin, hkmax, hk⟩
  · exfalso
    have hshape : p.GetPayable = p := hp
    unfold payableMinorUnits truncate at hmax
    rw [hshape, if_pos (le_trans (by norm_num) hg)] at hmax
    have h1 : ((2 ^ 63 : Int) : ℚ) ≤ p.amount * (p.payableRoundingPrecision.2 : ℚ) := by
      push_cast; exact hg
    have h2 := Int.le_floor.mpr h1
    unfold maxInt64 at hmax
    omega
  · have hshape : p.GetPayable =
        Price.mk ((k : ℚ) / (p.payableRoundingPrecision.2 : ℚ)) p.currency := hk
    have hwhole : p.GetPayable.amount * (p.payableRoundingPrecision.2 : ℚ) = (k : ℚ) := by
      rw [hshape]; field_simp
    have hunits : payableMinorUnits p = k := by
      unfold payableMinorUnits
      rw [hwhole, truncate_intCast]
    refine ⟨by rw [hwhole, hunits], ?_⟩
    unfold amountToMatch Price.Amount Price.precisionF
    rw [hwhole, hunits, int64OfFloat_of_range] <;> rw [truncate_intCast] <;> assumption

theorem split_neg_one_eur :
    (Price.mk (-1) "EUR").SplitInPayables 3 =
      ([Price.mk (-33 / 100) "EUR", Price.mk (-33 / 100) "EUR", Price.mk (-33 / 100) "EUR"],
        none) := by
  have ha : int64OfFloat (-100) = -100 := by
    norm_num [int64OfFloat, truncate, minInt64, maxInt64]
  have hm : Int.tmod (-100) 3 = -1 := by decide
  have hd : Int.tdiv (-100) 3 = -33 := by decide
  simp [Price.SplitInPayables, getPayable_neg_one_eur, payable_eur, Price.Amount,
    Price.precisionF, ha, hm, hd, forRange, List.range_succ, NewFromInt, Price.Currency]

/-! ## Sums of prices of one currency -/

theorem SumAll_loop_same_currency (acc : Price) (l : List Price)
    (h : ∀ x ∈ l, x.currency = acc.currency) :
    SumAll.loop acc l =
      ({ amount := acc.amount + (l.map Price.amount).sum, currency := acc.currency }, none) := by
  induction l generalizing acc with
  | nil => simp [SumAll.loop]
  | cons x xs ih =>
    have hx : x.currency = acc.currency := h x (List.mem_cons_self _ _)
    have hadd : acc.Add x = ({ amount := acc.amount + x.amount, currency := acc.currency },
        none) := by
      simp [Price.Add, Price.currencyGuard, hx]
    rw [SumAll.loop, hadd]
    simp only []
    rw [ih { amount := acc.amount + x.amount, currency := acc.currency }
      (fun y hy => h y (List.mem_cons_of_mem _ hy))]
    simp [add_assoc]

theorem SumAll_same_currency (l : List Price) (c : String) (hne : l ≠ [])
    (h : ∀ x ∈ l, x.currency = c) :
    SumAll l = ({ amount := (l.map Price.amount).sum, currency := c }, none) := by
  cases l with
  | nil => exact absurd rfl hne
  | cons x xs =>
    have hx : x.currency = c := h x (List.mem_cons_self _ _)
    have := SumAll_loop_same_currency x.Clone xs
      (fun y hy => (h y (List.mem_cons_of_mem _ hy)).trans hx.symm)
    rw [SumAll, this]
    simp [Price.Clone, hx]

theorem SumAll_loop_eq_fold (first : Price) (rest : List Price) :
    SumAll.loop first rest =
      match foldAddLeftToRight first rest with
      | Except.ok sum => (sum, none)
      | Except.error (failed, err) => (failed, some err) := by
  induction rest generalizing first with
  | nil => rfl
  | cons price rest ih =>
    unfold foldAddLeftToRight at ih ⊢
    rw [SumAll.loop, List.foldlM_cons]
    rcases hadd : first.Add price with ⟨r, _ | e⟩
    · simp only []
      rw [ih r]
      rfl
    · rfl

/-! ## C1: the sum of the parts -/

/-- C1, the failing input: -1 EUR is payable as it is, its three parts are
-0.33 EUR each, and their sum, -0.99 EUR, is not Equal to it. -/
theorem split_sum_negative_mismatch :
    ((Price.mk (-1) "EUR").SplitInPayables 3).2 = none ∧
      (Price.mk (-1) "EUR").GetPayable = Price.mk (-1) "EUR" ∧
      SumAll ((Price.mk (-1) "EUR").SplitInPayables 3).1 =
        (Price.mk (-99 / 100) "EUR", none) ∧
      (SumAll ((Price.mk (-1) "EUR").SplitInPayables 3).1).1.Equal
        (Price.mk (-1) "EUR").GetPayable = false := by
  have hsum : SumAll ((Price.mk (-1) "EUR").SplitInPayables 3).1 =
      (Price.mk (-99 / 100) "EUR", none) := by
    rw [split_neg_one_eur]
    simp [SumAll, SumAll.loop, Price.Add, Price.currencyGuard, Price.Clone]
    norm_num
  refine ⟨by rw [split_neg_one_eur], getPayable_neg_one_eur, hsum, ?_⟩
  rw [hsum, getPayable_neg_one_eur, Bool.eq_false_iff, ne_eq, Equal_iff]
  norm_num

/-- On exact amounts, where the remainder of the split is not negative the
parts sum to the payable price: the invariant of SplitInPayables on the totals
it handles.  (At a finite mantissa precision each Add of SumAll rounds.) -/
theorem split_sum_eq_payable (p : Price) (count : Int) (hc : 1 ≤ count)
    (hmax : payableMinorUnits p ≤ maxInt64)
    (hrem : 0 ≤ Int.tmod (payableMinorUnits p) count) :
    (p.SplitInPayables count).2 = none ∧
      (SumAll (p.SplitInPayables count).1).2 = none ∧
      (SumAll (p.SplitInPayables count).1).1.Equal p.GetPayable = true := by
  obtain ⟨ht, hread⟩ := payableMinorUnits_whole p hmax
  generalize payableMinorUnits p = total at ht hread hrem
  have hP' := payableRoundingPrecision_ne_zero p
  have hP : (p.payableRoundingPrecision.2 : ℚ) ≠ 0 := Int.cast_ne_zero.mpr hP'
  have hlt : Int.tmod total count < count := Int.tmod_lt_of_pos total (by omega)
  have hn : count.toNat - (Int.tmod total count).toNat =
      (count - Int.tmod total count).toNat := by omega
  rw [SplitInPayables_eq_replicate p count hc, hread, hn]
  have hne : List.replicate (Int.tmod total count).toNat
        (NewFromInt (Int.tdiv total count + 1) p.payableRoundingPrecision.2 p.currency) ++
      List.replicate (count - Int.tmod total count).toNat
        (NewFromInt (Int.tdiv total count) p.payableRoundingPrecision.2 p.currency) ≠ [] := by
    intro h
    have := congrArg List.length h
    simp at this
    omega
  have hsum := SumAll_same_currency _ p.currency hne (by
    intro x hx
    simp only [List.mem_append, List.mem_replicate] at hx
    rcases hx with ⟨_, rfl⟩ | ⟨_, rfl⟩ <;> exact NewFromInt_currency _ _ _)
  refine ⟨rfl, by rw [hsum], ?_⟩
  rw [hsum, Equal_iff]
  refine ⟨(GetPayable_currency p).symm, ?_⟩
  have hamount : p.GetPayable.amount = (total : ℚ) / (p.payableRoundingPrecision.2 : ℚ) := by
    rw [← ht]; field_simp
  rw [hamount]
  simp only [List.map_append, List.map_replicate, List.sum_append, List.sum_replicate,
    NewFromInt, if_neg hP', nsmul_eq_mul]
  have h1 : (((Int.tmod total count).toNat : Int) : ℚ) = ((Int.tmod total count : Int) : ℚ) := by
    rw [Int.toNat_of_nonneg hrem]
  have h2 : (((count - Int.tmod total count).toNat : Int) : ℚ) =
      ((count - Int.tmod total count : Int) : ℚ) := by
    rw [Int.toNat_of_nonneg (by omega)]
  have h3 : (total : ℚ) =
      (Int.tmod total count : ℚ) + (count : ℚ) * (Int.tdiv total count : ℚ) := by
    have := Int.tmod_add_tdiv total count
    exact_mod_cast this.symm
  rw [Int.cast_natCast] at h1 h2
  rw [h1, h2, h3]
  push_cast
  field_simp
  ring

theorem split_sum_eq_payable_witness :
    ((Price.mk (12456 / 1000) "EUR").SplitInPayables 6).2 = none ∧
      (SumAll ((Price.mk (12456 / 1000) "EUR").SplitInPayables 6).1).2 = none ∧
      (SumAll ((Price.mk (12456 / 1000) "EUR").SplitInPayables 6).1).1.Equal
        (Price.mk (12456 / 1000) "EUR").GetPayable = true :=
  split_sum_eq_payable (Price.mk (12456 / 1000) "EUR") 6 (by decide)
    (by rw [payableMinorUnits_12456_eur]; decide)
    (by rw [payableMinorUnits_12456_eur]; decide)

/-! ## C2: rounding twice -/

/-- C2, the failing input: -2 miles is rounded to -3 miles, and -3 miles to
-4 miles, which is not Equal to -3 miles. -/
theorem getPayable_not_idempotent_negative_miles :
    (Price.mk (-2) "miles").GetPayable = Price.mk (-3) "miles" ∧
      (Price.mk (-2) "miles").GetPayable.GetPayable = Price.mk (-4) "miles" ∧
      (Price.mk (-2) "miles").GetPayable.GetPayable.Equal
        (Price.mk (-2) "miles").GetPayable = false := by
  have h1 : (Price.mk (-2) "miles").GetPayable = Price.mk (-3) "miles" := by
    simp [Price.GetPayable, Price.GetPayableByRoundingMode, payable_miles, Price.IsNegative,
      Price.IsLessThenValue, Cmp, int64OfFloat, truncate, wrap64, minInt64, maxInt64,
      Price.precisionF, RoundingModeHalfUp, RoundingModeCeil, RoundingModeFloor,
      RoundingModeHalfDown]
    norm_num
  have h2 : (Price.mk (-3) "miles").GetPayable = Price.mk (-4) "miles" := by
    simp [Price.GetPayable, Price.GetPayableByRoundingMode, payable_miles, Price.IsNegative,
      Price.IsLessThenValue, Cmp, int64OfFloat, truncate, wrap64, minInt64, maxInt64,
      Price.precisionF, RoundingModeHalfUp, RoundingModeCeil, RoundingModeFloor,
      RoundingModeHalfDown]
    norm_num
  refine ⟨h1, by rw [h1, h2], ?_⟩
  rw [h1, h2, Bool.eq_false_iff, ne_eq, Equal_iff]
  norm_num

/-- On exact amounts, GetPayable is idempotent on the prices it can round
again: the payable amount has its check digit within the int64 range, and it
is not negative where the currency rounds with RoundingModeFloor. -/
theorem GetPayable_idempotent_of_range (p : Price)
    (hmin : ((minInt64 : Int) : ℚ) ≤
      p.GetPayable.amount * (p.payableRoundingPrecision.2 : ℚ) * 10)
    (hmax : p.GetPayable.amount * (p.payableRoundingPrecision.2 : ℚ) * 10 ≤
      ((maxInt64 : Int) : ℚ))
    (hfloor : p.payableRoundingPrecision.1 = RoundingModeFloor → 0 ≤ p.GetPayable.amount) :
    p.GetPayable.GetPayable = p.GetPayable ∧
      p.GetPayable.GetPayable.Equal p.GetPayable = true := by
  have hP := payableRoundingPrecision_pos p
  have hPq : (0 : ℚ) < (p.payableRoundingPrecision.2 : ℚ) := by exact_mod_cast hP
  have hcongr := payableRoundingPrecision_congr p.GetPayable p (GetPayable_currency p)
  have hidem : p.GetPayable.GetPayable = p.GetPayable := by
    rcases GetPayableByRoundingMode_shape p p.payableRoundingPrecision.1
        p.payableRoundingPrecision.2 with ⟨hg, _⟩ | ⟨k, _, _, hk⟩
    · exfalso
      have hshape : p.GetPayable = p := by
        unfold Price.GetPayable
        assumption
      rw [hshape] at hmax
      unfold maxInt64 at hmax
      push_cast at hmax
      linarith
    · have hshape : p.GetPayable =
          Price.mk ((k : ℚ) / (p.payableRoundingPrecision.2 : ℚ)) p.currency := hk
      have hk10 : p.GetPayable.amount * (p.payableRoundingPrecision.2 : ℚ) * 10 =
          ((k * 10 : Int) : ℚ) := by
        rw [hshape]; push_cast; field_simp
      rw [hk10] at hmin hmax
      have hmin' : minInt64 ≤ k * 10 := by exact_mod_cast hmin
      have hmax' : k * 10 ≤ maxInt64 := by exact_mod_cast hmax
      have hwhole := GetPayableByRoundingMode_whole k p.payableRoundingPrecision.2
        p.payableRoundingPrecision.1 p.currency hP hmin' hmax'
      have hnot : ¬ (p.payableRoundingPrecision.1 = RoundingModeFloor ∧ k < 0) := by
        rintro ⟨hm, hneg⟩
        have h0 := hfloor hm
        rw [hshape] at h0
        have : (0 : ℚ) ≤ (k : ℚ) := by
          have := mul_nonneg h0 (le_of_lt hPq)
          rwa [div_mul_cancel₀ _ (ne_of_gt hPq)] at this
        have : (0 : Int) ≤ k := by exact_mod_cast this
        omega
      rw [if_neg hnot] at hwhole
      have hstep : p.GetPayable.GetPayable =
          p.GetPayable.GetPayableByRoundingMode p.payableRoundingPrecision.1
            p.payableRoundingPrecision.2 := by
        rw [← hcongr]
        rfl
      rw [hstep, hshape, hwhole]
  refine ⟨hidem, ?_⟩
  rw [hidem, Equal_iff]
  exact ⟨rfl, rfl⟩

theorem GetPayable_idempotent_of_range_witness :
    (Price.mk (12456 / 1000) "EUR").GetPayable.GetPayable =
        (Price.mk (12456 / 1000) "EUR").GetPayable ∧
      (Price.mk (12456 / 1000) "EUR").GetPayable.GetPayable.Equal
        (Price.mk (12456 / 1000) "EUR").GetPayable = true :=
  GetPayable_idempotent_of_range (Price.mk (12456 / 1000) "EUR")
    (by rw [getPayable_12456_eur, payable_eur]; norm_num [minInt64])
    (by rw [getPayable_12456_eur, payable_eur]; norm_num [maxInt64])
    (by rw [payable_eur]; intro h; exact absurd h (by decide))

/-! ## C4 to C6: Add, Sub and ForceAdd -/

/-- C4: Add and Sub return an error exactly when the currencies differ and
neither price is zero-valued, and the price returned with the error is the
zero price of the receiver's currency. -/
theorem add_sub_error_iff_mismatch (p q : Price) :
    ((p.Add q).2 ≠ none ↔
        (p.currency ≠ q.currency ∧ p.IsZero = false ∧ q.IsZero = false)) ∧
    ((p.Sub q).2 ≠ none ↔
        (p.currency ≠ q.currency ∧ p.IsZero = false ∧ q.IsZero = false)) ∧
    ((p.Add q).2 ≠ none → (p.Add q).1 = NewZero p.currency) ∧
    ((p.Sub q).2 ≠ none → (p.Sub q).1 = NewZero p.currency) := by
  rcases currencyGuard_cases p q with ⟨hg, hor⟩ | ⟨hg, hc, hp, hq⟩ | ⟨hg, hc, hp, hq⟩
  · have ha : (p.Add q).2 = none := by simp [Price.Add, hg]
    have hs : (p.Sub q).2 = none := by simp [Price.Sub, hg]
    simp only [ha, hs, ne_eq, not_true_eq_false, false_iff, false_imp_iff, and_true, true_and]
    rcases hor with h | h
    · simp [h]
    · simp [h]
  · have ha : (p.Add q).2 = none := by simp [Price.Add, hg]
    have hs : (p.Sub q).2 = none := by simp [Price.Sub, hg]
    simp [ha, hs, hq]
  · have ha : p.Add q = (NewZero p.currency,
      some "Cannot calculate prices in different currencies") := by
      simp [Price.Add, hg]
    have hs : p.Sub q = (NewZero p.currency,
        some "Cannot calculate prices in different currencies") := by
      simp [Price.Sub, hg]
    simp [ha, hs, hc, hp, hq]

/-- C4, the scenario: 5 EUR Add 5 USD fails and returns zero EUR. -/
theorem add_eur_usd_fails :
    ((Price.mk 5 "EUR").Add (Price.mk 5 "USD")).2 ≠ none ∧
      ((Price.mk 5 "EUR").Add (Price.mk 5 "USD")).1 = NewZero "EUR" := by
  have h := add_sub_error_iff_mismatch (Price.mk 5 "EUR") (Price.mk 5 "USD")
  have hne : ((Price.mk 5 "EUR").Add (Price.mk 5 "USD")).2 ≠ none :=
    h.1.mpr ⟨by decide, by
      rw [Bool.eq_false_iff, ne_eq, IsZero_iff]; norm_num, by
      rw [Bool.eq_false_iff, ne_eq, IsZero_iff]; norm_num⟩
  exact ⟨hne, h.2.2.1 hne⟩

/-- C5: between different currencies a zero-valued receiver takes the other
price's currency (and amount, negated by Sub), and a zero-valued argument
leaves a non-zero receiver as it is. -/
theorem add_sub_zero_other_currency (p q : Price) (h : p.currency ≠ q.currency) :
    (p.IsZero = true →
        p.Add q = ({ amount := q.amount, currency := q.currency }, none) ∧
        p.Sub q = ({ amount := -q.amount, currency := q.currency }, none)) ∧
    (p.IsZero = false → q.IsZero = true →
        p.Add q = ({ amount := p.amount, currency := p.currency }, none) ∧
        p.Sub q = ({ amount := p.amount, currency := p.currency }, none)) := by
  constructor
  · intro hp
    have h0 : p.amount = 0 := (IsZero_iff p).mp hp
    simp [Price.Add, Price.Sub, Price.currencyGuard, h, hp, h0]
  · intro hp hq
    have h0 : q.amount = 0 := (IsZero_iff q).mp hq
    simp [Price.Add, Price.Sub, Price.currencyGuard, h, hp, hq, h0]

theorem add_sub_zero_other_currency_witness :
    (Price.mk 0 "EUR").Add (Price.mk 3 "USD") = ({ amount := 3, currency := "USD" }, none) ∧
      (Price.mk 0 "EUR").Sub (Price.mk 3 "USD") = ({ amount := -3, currency := "USD" }, none) :=
  (add_sub_zero_other_currency (Price.mk 0 "EUR") (Price.mk 3 "USD") (by decide)).1
    ((IsZero_iff _).mpr rfl)

/-- C6: ForceAdd is the price of Add when Add succeeds and the receiver
itself when Add fails. -/
theorem forceAdd_eq (p q : Price) :
    ((p.Add q).2 = none → p.ForceAdd q = (p.Add q).1) ∧
    ((p.Add q).2 ≠ none → p.ForceAdd q = p) := by
  rcases currencyGuard_cases p q with ⟨hg, _⟩ | ⟨hg, _⟩ | ⟨hg, _⟩ <;>
    simp [Price.Add, Price.ForceAdd, hg]

/-! ## C7 and C8: SumAll and the comparisons -/

/-- C7: SumAll fails exactly on the empty list and on a list whose
left-to-right fold of Add fails; on a non-empty list it returns what that
fold, started from the first price, returns: the sum, or the price and the
error of the first failing Add. -/
theorem sumAll_is_fold :
    (∀ prices : List Price, (SumAll prices).2 ≠ none ↔
        prices = [] ∨ ∃ first rest failure,
          prices = first :: rest ∧ foldAddLeftToRight first rest = Except.error failure) ∧
    (∀ (first : Price) (rest : List Price),
        SumAll (first :: rest) =
          match foldAddLeftToRight first rest with
          | Except.ok sum => (sum, none)
          | Except.error (failed, err) => (failed, some err)) := by
  have key : ∀ first rest, SumAll (first :: rest) =
      match foldAddLeftToRight first rest with
      | Except.ok sum => (sum, none)
      | Except.error (failed, err) => (failed, some err) := by
    intro first rest
    exact SumAll_loop_eq_fold first rest
  refine ⟨?_, key⟩
  intro prices
  cases prices with
  | nil => simp [SumAll]
  | cons first rest =>
    rw [key]
    rcases hf : foldAddLeftToRight first rest with ⟨failed, err⟩ | sum
    · constructor
      · intro _
        exact Or.inr ⟨first, rest, (failed, err), rfl, hf⟩
      · intro _
        simp
    · constructor
      · intro h
        simp at h
      · rintro (h | ⟨f, r, failure, h1, h2⟩)
        · simp at h
        · simp only [List.cons.injEq] at h1
          rw [← h1.1, ← h1.2, hf] at h2
          simp at h2

/-- C8: on different currencies IsLessThen and IsGreaterThen are false;
on equal currencies they compare the amounts strictly; so no two of
IsLessThen, IsGreaterThen and Equal hold together, and one of them holds
when the currencies are equal. -/
theorem comparisons_total (p q : Price) :
    (p.currency ≠ q.currency → p.IsLessThen q = false ∧ p.IsGreaterThen q = false) ∧
    (p.currency = q.currency →
        (p.IsLessThen q = true ↔ p.amount < q.amount) ∧
        (p.IsGreaterThen q = true ↔ q.amount < p.amount)) ∧
    ¬ (p.IsLessThen q = true ∧ p.IsGreaterThen q = true) ∧
    ¬ (p.IsLessThen q = true ∧ p.Equal q = true) ∧
    ¬ (p.IsGreaterThen q = true ∧ p.Equal q = true) ∧
    (p.currency = q.currency →
        p.IsLessThen q = true ∨ p.IsGreaterThen q = true ∨ p.Equal q = true) := by
  refine ⟨?_, ?_, ?_, ?_, ?_, ?_⟩
  · intro h
    constructor
    · rw [Bool.eq_false_iff, ne_eq, IsLessThen_iff]; tauto
    · rw [Bool.eq_false_iff, ne_eq, IsGreaterThen_iff]; tauto
  · intro h
    simp [IsLessThen_iff, IsGreaterThen_iff, h]
  · rw [IsLessThen_iff, IsGreaterThen_iff]
    rintro ⟨⟨_, h1⟩, _, h2⟩
    exact lt_asymm h1 h2
  · rw [IsLessThen_iff, Equal_iff]
    rintro ⟨⟨_, h1⟩, _, h2⟩
    exact ne_of_lt h1 h2
  · rw [IsGreaterThen_iff, Equal_iff]
    rintro ⟨⟨_, h1⟩, _, h2⟩
    exact ne_of_gt h1 h2
  · intro h
    rw [IsLessThen_iff, IsGreaterThen_iff, Equal_iff]
    rcases lt_trichotomy p.amount q.amount with h1 | h1 | h1
    · exact Or.inl ⟨h, h1⟩
    · exact Or.inr (Or.inr ⟨h, h1⟩)
    · exact Or.inr (Or.inl ⟨h, h1⟩)

/-! ## C9: the count of a split -/

/-- C9: SplitInPayables returns an error, and no parts, exactly when
`count <= 0`; for `count >= 1` it returns `count` prices, all of them in
the currency of the price. -/
theorem split_error_iff_count_nonpos (p : Price) (count : Int) :
    ((p.SplitInPayables count).2 ≠ none ↔ count ≤ 0) ∧
    (count ≤ 0 → (p.SplitInPayables count).1 = []) ∧
    (1 ≤ count →
      ((p.SplitInPayables count).1.length : Int) = count ∧
      ∀ part ∈ (p.SplitInPayables count).1, part.currency = p.currency) := by
  by_cases hc : count ≤ 0
  · have h : p.SplitInPayables count = ([], some "Split must be higher than zero") := by
      unfold Price.SplitInPayables
      rw [if_pos hc]
    refine ⟨by simp [h, hc], fun _ => by rw [h], fun h1 => ?_⟩
    omega
  · have hc1 : 1 ≤ count := by omega
    obtain ⟨herr, hlen, hget⟩ := SplitInPayables_parts p count hc1
    refine ⟨by simp [herr, hc], fun h0 => absurd h0 hc, fun _ => ⟨?_, ?_⟩⟩
    · rw [hlen]
      exact Int.toNat_of_nonneg (by omega)
    · intro part hmem
      obtain ⟨j, hj⟩ := List.getElem?_of_mem hmem
      rw [hget j] at hj
      by_cases hlt : j < count.toNat
      · rw [if_pos hlt] at hj
        rw [← Option.some.inj hj]
        exact NewFromInt_currency _ _ _
      · rw [if_neg hlt] at hj
        exact absurd hj (by simp)

theorem split_error_iff_count_nonpos_witness :
    ((Price.mk (-1) "EUR").SplitInPayables 3).1.length = 3 ∧
      ((Price.mk (-1) "EUR").SplitInPayables 0).1 = [] := by
  have h3 := (split_error_iff_count_nonpos (Price.mk (-1) "EUR") 3).2.2 (by decide)
  have h0 := (split_error_iff_count_nonpos (Price.mk (-1) "EUR") 0).2.1 (by decide)
  exact ⟨by exact_mod_cast h3.1, h0⟩

/-! ## C11: the rounding table -/

/-- C11: payableRoundingPrecision is (Floor, 1) exactly for the currencies
that lower-cased are "miles" or "points" and (HalfUp, 100) for all others,
and GetPayable rounds with that mode and precision. -/
theorem payableRoundingPrecision_table (p : Price) :
    (p.payableRoundingPrecision = (RoundingModeFloor, 1) ↔
        (toLower p.currency = "miles" ∨ toLower p.currency = "points")) ∧
    (¬ (toLower p.currency = "miles" ∨ toLower p.currency = "points") →
        p.payableRoundingPrecision = (RoundingModeHalfUp, 100)) ∧
    ((toLower p.currency = "miles" ∨ toLower p.currency = "points") →
        p.GetPayable = p.GetPayableByRoundingMode RoundingModeFloor 1) ∧
    (¬ (toLower p.currency = "miles" ∨ toLower p.currency = "points") →
        p.GetPayable = p.GetPayableByRoundingMode RoundingModeHalfUp 100) := by
  by_cases h : toLower p.currency = "miles" ∨ toLower p.currency = "points"
  · have hp : p.payableRoundingPrecision = (RoundingModeFloor, 1) := by
      unfold Price.payableRoundingPrecision
      rw [if_pos h]
    refine ⟨⟨fun _ => h, fun _ => hp⟩, fun hn => absurd h hn, fun _ => ?_, fun hn => absurd h hn⟩
    unfold Price.GetPayable
    rw [hp]
  · have hp : p.payableRoundingPrecision = (RoundingModeHalfUp, 100) := by
      unfold Price.payableRoundingPrecision
      rw [if_neg h]
    refine ⟨⟨fun h1 => ?_, fun h1 => absurd h1 h⟩, fun _ => hp, fun h1 => absurd h1 h, fun _ => ?_⟩
    · rw [hp] at h1
      exact absurd h1 (by decide)
    · unfold Price.GetPayable
      rw [hp]

/-- C11, in any letter case: "MiLeS" and "POINTS" round with (Floor, 1) and
"EUR" with (HalfUp, 100). -/
theorem payableRoundingPrecision_table_witness :
    (Price.mk (7 / 2) "MiLeS").GetPayable =
        (Price.mk (7 / 2) "MiLeS").GetPayableByRoundingMode RoundingModeFloor 1 ∧
      (Price.mk (7 / 2) "POINTS").payableRoundingPrecision = (RoundingModeFloor, 1) ∧
      (Price.mk (7 / 2) "EUR").GetPayable =
        (Price.mk (7 / 2) "EUR").GetPayableByRoundingMode RoundingModeHalfUp 100 :=
  ⟨(payableRoundingPrecision_table (Price.mk (7 / 2) "MiLeS")).2.2.1 (by decide),
    (payableRoundingPrecision_table (Price.mk (7 / 2) "POINTS")).1.mpr (by decide),
    (payableRoundingPrecision_table (Price.mk (7 / 2) "EUR")).2.2.2 (by decide)⟩

/-! ## Truncation toward zero and negative amounts -/

theorem truncate_nonneg (x : ℚ) (h : 0 ≤ x) : truncate x = ⌊x⌋ := by
  unfold truncate
  rw [if_pos h]

theorem truncate_neg (x : ℚ) (h : x < 0) : truncate x = -⌊-x⌋ := by
  unfold truncate
  rw [if_neg (not_le.mpr h)]

/-- Ten times the truncated value lies between zero and the truncation of
ten times the value. -/
theorem truncate_mul_ten_nonneg (x : ℚ) (h : 0 ≤ x) :
    0 ≤ truncate x ∧ truncate x * 10 ≤ truncate (x * 10) := by
  rw [truncate_nonneg x h, truncate_nonneg (x * 10) (by positivity)]
  refine ⟨Int.floor_nonneg.mpr h, ?_⟩
  apply Int.le_floor.mpr
  have := Int.floor_le x
  push_cast
  linarith

theorem truncate_mul_ten_neg (x : ℚ) (h : x < 0) :
    truncate x ≤ 0 ∧ truncate (x * 10) ≤ truncate x * 10 := by
  rw [truncate_neg x h, truncate_neg (x * 10) (by linarith)]
  have h0 : 0 ≤ ⌊-x⌋ := Int.floor_nonneg.mpr (by linarith)
  refine ⟨by omega, ?_⟩
  have h1 : ⌊-x⌋ * 10 ≤ ⌊-(x * 10)⌋ := by
    apply Int.le_floor.mpr
    have := Int.floor_le (-x)
    push_cast
    linarith
  omega

/-- Rounding a negative amount: the overflow guard does not apply, the
modes Ceil, HalfUp and HalfDown ask for a non-negative amount, and Floor
takes one unit off. -/
theorem GetPayableByRoundingMode_negative (p : Price) (mode : String) (precision : Int)
    (ha : p.amount < 0) (hP : 0 < precision) :
    p.GetPayableByRoundingMode mode precision =
      Price.mk
        (((if mode = RoundingModeFloor then
              wrap64 (int64OfFloat (p.amount * (precision : ℚ)) + 1 * -1)
            else int64OfFloat (p.amount * (precision : ℚ)) : Int) : ℚ) / (precision : ℚ))
        p.currency := by
  have hPq : (0 : ℚ) < (precision : ℚ) := by exact_mod_cast hP
  have hneg : p.IsNegative = true := (IsNegative_iff p).mpr ha
  have hguard : ¬ (p.amount * (precision : ℚ) ≥ 2 ^ 63) := by
    have : p.amount * (precision : ℚ) < 0 := mul_neg_of_neg_of_pos ha hPq
    intro h
    have h2 : (0 : ℚ) < 2 ^ 63 := by positivity
    linarith
  unfold Price.GetPayableByRoundingMode
  simp only [Price.precisionF, hneg, if_true, if_neg hguard]
  by_cases hf : mode = RoundingModeFloor
  · subst hf
    simp [RoundingModeFloor, RoundingModeCeil, RoundingModeHalfUp, RoundingModeHalfDown]
  · simp [hf]

/-! ## C16 to C18: Charge and Charges -/

/-- C16: Charge.Add fails exactly when the types differ or the sum of the
prices or of the values fails; a success carries the type of the receiver
and both sums, a failure the zero-value Charge. -/
theorem charge_add (a b : Charge) :
    ((a.Add b).2 ≠ none ↔
        (a.type ≠ b.type ∨ (a.Price.Add b.Price).2 ≠ none ∨
          (a.Value.Add b.Value).2 ≠ none)) ∧
    ((a.Add b).2 = none →
        (a.Add b).1 =
          { Price := (a.Price.Add b.Price).1, Value := (a.Value.Add b.Value).1,
            type := a.type }) ∧
    ((a.Add b).2 ≠ none → (a.Add b).1 = Charge.zero) := by
  unfold Charge.Add
  by_cases ht : a.type = b.type
  · rw [if_neg (not_not.mpr ht)]
    rcases hp : a.Price.Add b.Price with ⟨newPrice, _ | err⟩
    · rcases hv : a.Value.Add b.Value with ⟨newValue, _ | err⟩
      · simp [ht]
      · simp [ht]
    · simp [ht]
  · rw [if_pos ht]
    simp [ht]

/-- C16, both outcomes: two main charges of 5 EUR add up to 10 EUR, and a
main charge does not add to a shipping charge. -/
theorem charge_add_witness :
    (Charge.mk (Price.mk 5 "EUR") (Price.mk 5 "EUR") "main").Add
        (Charge.mk (Price.mk 5 "EUR") (Price.mk 5 "EUR") "main") =
      (Charge.mk (Price.mk 10 "EUR") (Price.mk 10 "EUR") "main", none) ∧
    ((Charge.mk (Price.mk 5 "EUR") (Price.mk 5 "EUR") "main").Add
        (Charge.mk (Price.mk 5 "EUR") (Price.mk 5 "EUR") "shipping")).1 = Charge.zero := by
  have h1 := charge_add (Charge.mk (Price.mk 5 "EUR") (Price.mk 5 "EUR") "main")
    (Charge.mk (Price.mk 5 "EUR") (Price.mk 5 "EUR") "main")
  have h2 := charge_add (Charge.mk (Price.mk 5 "EUR") (Price.mk 5 "EUR") "main")
    (Charge.mk (Price.mk 5 "EUR") (Price.mk 5 "EUR") "shipping")
  have hadd : (Price.mk 5 "EUR").Add (Price.mk 5 "EUR") = (Price.mk 10 "EUR", none) := by
    simp [Price.Add, Price.currencyGuard]
    norm_num
  constructor
  · have hok : ((Charge.mk (Price.mk 5 "EUR") (Price.mk 5 "EUR") "main").Add
        (Charge.mk (Price.mk 5 "EUR") (Price.mk 5 "EUR") "main")).2 = none := by
      by_contra hne
      rcases h1.1.mp hne with h | h | h
      · exact h rfl
      · exact h (by rw [hadd])
      · exact h (by rw [hadd])
    refine Prod.ext ?_ hok
    rw [h1.2.1 hok, hadd]
  · exact h2.2.2 (h2.1.mpr (Or.inl (by decide)))

theorem Charges.madeMap_lookup (c : Charges) (k : String) :
    c.madeMap.lookup k = c.lookup k := by
  unfold Charges.madeMap Charges.lookup
  cases c.chargesByType with
  | none => exact AList.lookup_empty k
  | some m => rfl

/-- C17: AddCharge stores a charge of a new type as it is, replaces an
entry of the same type by the payable charge of the sum of the entry and
the charge, and leaves the entries of all other types alone. -/
theorem addCharge_entry (cs : Charges) (c : Charge) :
    (cs.lookup c.type = none → (cs.AddCharge c).lookup c.type = some c) ∧
    (∀ e, cs.lookup c.type = some e →
        (cs.AddCharge c).lookup c.type = some (e.Add c).1.GetPayable) ∧
    (∀ k, k ≠ c.type → (cs.AddCharge c).lookup k = cs.lookup k) := by
  have hm := Charges.madeMap_lookup cs
  unfold Charges.AddCharge
  rcases hl : cs.madeMap.lookup c.type with _ | existingCharge
  · rw [hm] at hl
    refine ⟨fun _ => ?_, fun e he => ?_, fun k hk => ?_⟩
    · exact AList.lookup_insert _
    · rw [hl] at he
      exact absurd he (by simp)
    · show AList.lookup k (AList.insert c.type c cs.madeMap) = cs.lookup k
      rw [AList.lookup_insert_ne hk, hm]
  · rw [hm] at hl
    refine ⟨fun h => ?_, fun e he => ?_, fun k hk => ?_⟩
    · rw [hl] at h
      exact absurd h (by simp)
    · rw [hl] at he
      rw [← Option.some.inj he]
      exact AList.lookup_insert _
    · show AList.lookup k (AList.insert c.type _ cs.madeMap) = cs.lookup k
      rw [AList.lookup_insert_ne hk, hm]

theorem getPayable_ten_eur : (Price.mk 10 "EUR").GetPayable = Price.mk 10 "EUR" := by
  simp [Price.GetPayable, Price.GetPayableByRoundingMode, payable_eur, Price.IsNegative,
    Price.IsLessThenValue, Cmp, int64OfFloat, truncate, wrap64, minInt64, maxInt64,
    Price.precisionF, RoundingModeHalfUp, RoundingModeCeil, RoundingModeFloor,
    RoundingModeHalfDown]
  norm_num

/-- C17, the scenario: two main charges of 5.00 EUR added to empty Charges
give a main entry of 10.00 EUR. -/
theorem addCharge_entry_witness :
    (((NewCharges none).AddCharge
        (Charge.mk (Price.mk 5 "EUR") (Price.mk 5 "EUR") "main")).AddCharge
        (Charge.mk (Price.mk 5 "EUR") (Price.mk 5 "EUR") "main")).GetByType "main" =
      (Charge.mk (Price.mk 10 "EUR") (Price.mk 10 "EUR") "main", true) := by
  have h1 := (addCharge_entry (NewCharges none)
    (Charge.mk (Price.mk 5 "EUR") (Price.mk 5 "EUR") "main")).1 rfl
  have h2 := (addCharge_entry ((NewCharges none).AddCharge
    (Charge.mk (Price.mk 5 "EUR") (Price.mk 5 "EUR") "main"))
    (Charge.mk (Price.mk 5 "EUR") (Price.mk 5 "EUR") "main")).2.1 _ h1
  have hadd : (Price.mk 5 "EUR").Add (Price.mk 5 "EUR") = (Price.mk 10 "EUR", none) := by
    simp [Price.Add, Price.currencyGuard]
    norm_num
  have hsum : ((Charge.mk (Price.mk 5 "EUR") (Price.mk 5 "EUR") "main").Add
      (Charge.mk (Price.mk 5 "EUR") (Price.mk 5 "EUR") "main")).1.GetPayable =
      Charge.mk (Price.mk 10 "EUR") (Price.mk 10 "EUR") "main" := by
    simp [Charge.Add, hadd, Charge.GetPayable, getPayable_ten_eur]
  rw [hsum] at h2
  unfold Charges.GetByType
  rw [h2]

/-- The entry a round of the loops stores: the payable sum with the entry
that is there, or the new charge itself. -/
theorem Charges.lookup_addEntry (m : ChargeMap) (entry : (_ : String) × Charge) (k : String) :
    (Charges.addEntry m entry).lookup k =
      if k = entry.1 then
        some (match m.lookup entry.1 with
          | some existingCharge => (existingCharge.Add entry.2).1.GetPayable
          | none => entry.2)
      else m.lookup k := by
  unfold Charges.addEntry
  by_cases hk : k = entry.1
  · subst hk
    rw [if_pos rfl]
    cases m.lookup entry.1 <;> exact AList.lookup_insert _
  · rw [if_neg hk]
    cases m.lookup entry.1 <;> exact AList.lookup_insert_ne hk

/-- The map after the rounds over entries with distinct keys: a key among
the entries holds its merged entry, every other key what it held. -/
theorem Charges.lookup_foldl_addEntry (l : List ((_ : String) × Charge)) (hnd : l.NodupKeys)
    (m : ChargeMap) (k : String) :
    (l.foldl Charges.addEntry m).lookup k =
      match l.dlookup k with
      | some charge =>
        some (match m.lookup k with
          | some existingCharge => (existingCharge.Add charge).1.GetPayable
          | none => charge)
      | none => m.lookup k := by
  induction l generalizing m with
  | nil => rfl
  | cons entry rest ih =>
    obtain ⟨hnot, hrest⟩ := List.nodupKeys_cons.mp hnd
    rw [List.foldl_cons, ih hrest, Charges.lookup_addEntry]
    by_cases hk : k = entry.1
    · subst hk
      have hnone : List.dlookup entry.1 rest = none := List.dlookup_eq_none.mpr hnot
      have hhead : List.dlookup entry.1 (entry :: rest) = some entry.2 := by
        cases entry
        exact List.dlookup_cons_eq _ _ _
      rw [hnone, hhead, if_pos rfl]
    · rw [List.dlookup_cons_ne rest entry hk, if_neg hk]

theorem Charges.lookup_some (m : ChargeMap) (k : String) :
    (Charges.mk (some m)).lookup k = m.lookup k := rfl

/-- AddCharge is the round of the loop of `Add` for a charge stored under
its own type. -/
theorem Charges.AddCharge_eq_addEntry (c : Charges) (entry : (_ : String) × Charge)
    (h : entry.2.type = entry.1) :
    c.AddCharge entry.2 = Charges.mk (some (Charges.addEntry c.madeMap entry)) := by
  unfold Charges.AddCharge Charges.addEntry
  rw [h]
  cases c.madeMap.lookup entry.1 <;> rfl

theorem Charges.lookup_addChargeEach (order : List ((_ : String) × Charge))
    (h : ∀ entry ∈ order, entry.2.type = entry.1) (c : Charges) (k : String) :
    (c.addChargeEach order).lookup k = (order.foldl Charges.addEntry c.madeMap).lookup k := by
  induction order generalizing c with
  | nil => exact (Charges.madeMap_lookup c k).symm
  | cons entry rest ih =>
    unfold Charges.addChargeEach at ih ⊢
    rw [List.foldl_cons, List.foldl_cons,
      ih (fun e he => h e (List.mem_cons_of_mem _ he)),
      Charges.AddCharge_eq_addEntry c entry (h entry (List.mem_cons_self _ _))]
    rfl

theorem Charges.entries_nodupKeys (c : Charges) : c.entries.NodupKeys := by
  unfold Charges.entries
  cases c.chargesByType with
  | none => exact List.nodupKeys_nil
  | some m => exact m.nodupKeys

/-- C18, amended: when every entry of the other Charges is stored under its
own type, `Add` yields the mapping that AddCharge yields when applied for
every entry of the other Charges, in any order of the entries. -/
theorem add_is_addCharge_each (cs other : Charges) (order : List ((_ : String) × Charge))
    (horder : order.Perm other.entries)
    (hkeys : ∀ entry ∈ other.entries, entry.2.type = entry.1) :
    ∀ k, (cs.Add other).lookup k = (cs.addChargeEach order).lookup k := by
  intro k
  have hnd := Charges.entries_nodupKeys other
  have hnd' : order.NodupKeys := (List.perm_nodupKeys horder).mpr hnd
  rw [Charges.lookup_addChargeEach order
    (fun e he => hkeys e (horder.mem_iff.mp he))]
  unfold Charges.Add
  rw [Charges.lookup_some, Charges.lookup_foldl_addEntry _ hnd,
    Charges.lookup_foldl_addEntry _ hnd', List.perm_dlookup k hnd' hnd horder]

theorem lookup_singleton (k key : String) (charge : Charge) :
    AList.lookup k (AList.singleton key charge : ChargeMap) =
      if k = key then some charge else none := by
  rw [← AList.insert_empty]
  by_cases h : k = key
  · subst h
    rw [if_pos rfl]
    exact AList.lookup_insert _
  · rw [if_neg h, AList.lookup_insert_ne h]
    rfl

/-- C18, the counterexample: a shipping charge stored under the key "main".
`Add` to empty Charges stores it under "main", AddCharge under its type, so
that "main" has no entry. -/
theorem add_is_not_addCharge_each :
    ((NewCharges none).Add
        (NewCharges (some ((∅ : ChargeMap).insert "main"
          (Charge.mk (Price.mk 5 "EUR") (Price.mk 5 "EUR") "shipping"))))).lookup "main" =
      some (Charge.mk (Price.mk 5 "EUR") (Price.mk 5 "EUR") "shipping") ∧
    ((NewCharges none).addChargeEach
        (NewCharges (some ((∅ : ChargeMap).insert "main"
          (Charge.mk (Price.mk 5 "EUR") (Price.mk 5 "EUR") "shipping")))).entries).lookup
        "main" = none := by
  constructor
  · simp [Charges.Add, NewCharges, Charges.entries, Charges.madeMap, Charges.addEntry,
      Charges.lookup, AList.insert_entries, lookup_singleton]
  · simp [Charges.addChargeEach, NewCharges, Charges.entries, Charges.madeMap,
      Charges.AddCharge, Charges.lookup, AList.insert_entries, lookup_singleton]

/-- C18, two entries in both orders: main and shipping charges added to
Charges that hold a main charge, read at both keys. -/
theorem add_is_addCharge_each_witness :
    ((NewCharges (some ((∅ : ChargeMap).insert "main"
          (Charge.mk (Price.mk 5 "EUR") (Price.mk 5 "EUR") "main")))).Add
        (NewCharges (some (((∅ : ChargeMap).insert "main"
          (Charge.mk (Price.mk 5 "EUR") (Price.mk 5 "EUR") "main")).insert "shipping"
          (Charge.mk (Price.mk 3 "EUR") (Price.mk 3 "EUR") "shipping"))))).lookup "main" =
      ((NewCharges (some ((∅ : ChargeMap).insert "main"
          (Charge.mk (Price.mk 5 "EUR") (Price.mk 5 "EUR") "main")))).addChargeEach
        [⟨"main", Charge.mk (Price.mk 5 "EUR") (Price.mk 5 "EUR") "main"⟩,
          ⟨"shipping", Charge.mk (Price.mk 3 "EUR") (Price.mk 3 "EUR") "shipping"⟩]).lookup
        "main" ∧
    ((NewCharges (some ((∅ : ChargeMap).insert "main"
          (Charge.mk (Price.mk 5 "EUR") (Price.mk 5 "EUR") "main")))).Add
        (NewCharges (some (((∅ : ChargeMap).insert "main"
          (Charge.mk (Price.mk 5 "EUR") (Price.mk 5 "EUR") "main")).insert "shipping"
          (Charge.mk (Price.mk 3 "EUR") (Price.mk 3 "EUR") "shipping"))))).lookup "shipping" =
      ((NewCharges (some ((∅ : ChargeMap).insert "main"
          (Charge.mk (Price.mk 5 "EUR") (Price.mk 5 "EUR") "main")))).addChargeEach
        [⟨"main", Charge.mk (Price.mk 5 "EUR") (Price.mk 5 "EUR") "main"⟩,
          ⟨"shipping", Charge.mk (Price.mk 3 "EUR") (Price.mk 3 "EUR") "shipping"⟩]).lookup
        "shipping" := by
  have h := add_is_addCharge_each
    (NewCharges (some ((∅ : ChargeMap).insert "main"
      (Charge.mk (Price.mk 5 "EUR") (Price.mk 5 "EUR") "main"))))
    (NewCharges (some (((∅ : ChargeMap).insert "main"
      (Charge.mk (Price.mk 5 "EUR") (Price.mk 5 "EUR") "main")).insert "shipping"
      (Charge.mk (Price.mk 3 "EUR") (Price.mk 3 "EUR") "shipping"))))
    [⟨"main", Charge.mk (Price.mk 5 "EUR") (Price.mk 5 "EUR") "main"⟩,
      ⟨"shipping", Charge.mk (Price.mk 3 "EUR") (Price.mk 3 "EUR") "shipping"⟩]
    (by
      simp [NewCharges, Charges.entries, AList.insert_entries]
      exact List.Perm.swap _ _ _)
    (by
      intro entry hentry
      simp [NewCharges, Charges.entries, AList.insert_entries] at hentry
      rcases hentry with rfl | rfl <;> rfl)
  exact ⟨h "main", h "shipping"⟩

/-! ## C20: the overflow guard -/

/-- The overflow guard: an amount that the precision scales to `2 ^ 63` or
more is returned as it is, under every mode. -/
theorem GetPayableByRoundingMode_guard (p : Price) (mode : String) (precision : Int)
    (h : p.amount * (precision : ℚ) ≥ 2 ^ 63) :
    p.GetPayableByRoundingMode mode precision = p := by
  unfold Price.GetPayableByRoundingMode
  simp only [Price.precisionF]
  rw [if_pos h]

/-- The truncated scaled amount is above `maxInt64` exactly when the guard
applies. -/
theorem truncate_above_max_iff (x : ℚ) : maxInt64 < truncate x ↔ x ≥ 2 ^ 63 := by
  constructor
  · intro h
    by_contra hx
    have hx' : x < 2 ^ 63 := not_le.mp hx
    by_cases h0 : 0 ≤ x
    · rw [truncate_nonneg x h0] at h
      have h1 : ((2 ^ 63 : Int) : ℚ) ≤ x := by
        have h2 : (2 ^ 63 : Int) ≤ ⌊x⌋ := by unfold maxInt64 at h; omega
        exact Int.le_floor.mp h2
      push_cast at h1
      linarith
    · have hneg := (truncate_mul_ten_neg x (not_le.mp h0)).1
      unfold maxInt64 at h
      omega
  · intro h
    rw [truncate_nonneg x (le_trans (by positivity) h)]
    have h1 : ((2 ^ 63 : Int) : ℚ) ≤ x := by push_cast; exact h
    have h2 := Int.le_floor.mpr h1
    unfold maxInt64
    omega

/-- Below the int64 range there is no guard: the rounded amount is an int64
number of units and never the amount itself. -/
theorem GetPayableByRoundingMode_below_range (p : Price) (mode : String) (precision : Int)
    (hP : 0 < precision) (h : truncate (p.amount * (precision : ℚ)) < minInt64) :
    (p.GetPayableByRoundingMode mode precision).amount ≠ p.amount := by
  have hPq : (0 : ℚ) < (precision : ℚ) := by exact_mod_cast hP
  rcases GetPayableByRoundingMode_shape p mode precision with ⟨hg, _⟩ | ⟨k, hkmin, _, hk⟩
  · have := (truncate_above_max_iff _).mpr hg
    unfold minInt64 at h
    unfold maxInt64 at this
    omega
  · rw [hk]
    intro heq
    have hk' : p.amount * (precision : ℚ) = (k : ℚ) := by
      rw [← heq]; field_simp
    rw [hk', truncate_intCast] at h
    omega

/-- C20, the failing input: -10^17 EUR at the precision 100 is below the
int64 range and is rounded to `minInt64` hundredths under HalfUp and to
`maxInt64` hundredths under Floor, not returned as it is. -/
theorem overflow_guard_misses_negative :
    truncate ((Price.mk (-10 ^ 17) "EUR").amount * ((100 : Int) : ℚ)) < minInt64 ∧
      (Price.mk (-10 ^ 17) "EUR").GetPayableByRoundingMode RoundingModeHalfUp 100 =
        Price.mk (-9223372036854775808 / 100) "EUR" ∧
      (Price.mk (-10 ^ 17) "EUR").GetPayableByRoundingMode RoundingModeFloor 100 =
        Price.mk (9223372036854775807 / 100) "EUR" ∧
      ((Price.mk (-10 ^ 17) "EUR").GetPayableByRoundingMode RoundingModeHalfUp 100).Equal
        (Price.mk (-10 ^ 17) "EUR") = false := by
  have hi : int64OfFloat ((-10 ^ 17 : ℚ) * ((100 : Int) : ℚ)) = -9223372036854775808 := by
    norm_num [int64OfFloat, truncate, minInt64, maxInt64]
  have h1 : (Price.mk (-10 ^ 17) "EUR").GetPayableByRoundingMode RoundingModeHalfUp 100 =
      Price.mk (-9223372036854775808 / 100) "EUR" := by
    rw [GetPayableByRoundingMode_negative _ _ _ (by norm_num) (by decide),
      if_neg (by decide), hi]
    norm_num
  refine ⟨by norm_num [truncate, minInt64], h1, ?_, ?_⟩
  · rw [GetPayableByRoundingMode_negative _ _ _ (by norm_num) (by decide), if_pos rfl, hi]
    norm_num [wrap64]
  · rw [h1, Bool.eq_false_iff, ne_eq, Equal_iff]
    norm_num

/-! ## C22 to C24: the rounding modes -/

/-- The digit after the precision: the truncated tenfold scaled amount
less ten times the truncated scaled amount. -/
theorem valueAfterPrecision_range (x : ℚ) :
    0 ≤ ⌊x * 10⌋ - ⌊x⌋ * 10 ∧ ⌊x * 10⌋ - ⌊x⌋ * 10 ≤ 9 := by
  have h1 := Int.floor_le x
  have h2 := Int.lt_floor_add_one x
  have h3 : ⌊x⌋ * 10 ≤ ⌊x * 10⌋ := by
    apply Int.le_floor.mpr
    push_cast
    linarith
  have h4 : ⌊x * 10⌋ < ⌊x⌋ * 10 + 10 := by
    apply Int.floor_lt.mpr
    push_cast
    linarith
  constructor <;> omega

/-- Rounding an amount that is not negative and in range: the truncated
scaled amount, one unit up when the mode and the digit after the precision
say so. -/
theorem GetPayableByRoundingMode_nonneg (p : Price) (mode : String) (precision : Int)
    (ha : 0 ≤ p.amount) (hP : 0 < precision) (hr : InRange p.amount precision) :
    p.GetPayableByRoundingMode mode precision =
      Price.mk
        (((if mode = RoundingModeCeil then
              if ⌊p.amount * (precision : ℚ) * 10⌋ - ⌊p.amount * (precision : ℚ)⌋ * 10 > 0
              then ⌊p.amount * (precision : ℚ)⌋ + 1 else ⌊p.amount * (precision : ℚ)⌋
            else if mode = RoundingModeHalfUp then
              if ⌊p.amount * (precision : ℚ) * 10⌋ - ⌊p.amount * (precision : ℚ)⌋ * 10 ≥ 5
              then ⌊p.amount * (precision : ℚ)⌋ + 1 else ⌊p.amount * (precision : ℚ)⌋
            else if mode = RoundingModeHalfDown then
              if ⌊p.amount * (precision : ℚ) * 10⌋ - ⌊p.amount * (precision : ℚ)⌋ * 10 > 5
              then ⌊p.amount * (precision : ℚ)⌋ + 1 else ⌊p.amount * (precision : ℚ)⌋
            else ⌊p.amount * (precision : ℚ)⌋ : Int) : ℚ) / (precision : ℚ))
        p.currency := by
  have hPq : (0 : ℚ) < (precision : ℚ) := by exact_mod_cast hP
  have hx : 0 ≤ p.amount * (precision : ℚ) := mul_nonneg ha (le_of_lt hPq)
  have hx10 : 0 ≤ p.amount * (precision : ℚ) * 10 := by positivity
  obtain ⟨ht0, hten⟩ := truncate_mul_ten_nonneg _ hx
  have hmax10 := hr.2
  rw [truncate_nonneg _ hx10] at hmax10 hten
  rw [truncate_nonneg _ hx] at ht0 hten
  obtain ⟨hd0, hd9⟩ := valueAfterPrecision_range (p.amount * (precision : ℚ))
  have hneg : p.IsNegative = false := by
    rw [Bool.eq_false_iff, ne_eq, IsNegative_iff]
    exact not_lt.mpr ha
  have hguard : ¬ (p.amount * (precision : ℚ) ≥ 2 ^ 63) := by
    intro h
    have h1 : ((2 ^ 63 : Int) : ℚ) ≤ p.amount * (precision : ℚ) := by push_cast; exact h
    have h2 := Int.le_floor.mpr h1
    unfold maxInt64 at hmax10
    omega
  have hint : int64OfFloat (p.amount * (precision : ℚ)) = ⌊p.amount * (precision : ℚ)⌋ := by
    rw [int64OfFloat_of_range, truncate_nonneg _ hx] <;> rw [truncate_nonneg _ hx] <;>
      unfold minInt64 maxInt64 at * <;> omega
  have hint10 : int64OfFloat (p.amount * ((precision : ℚ) * 10)) =
      ⌊p.amount * (precision : ℚ) * 10⌋ := by
    rw [← mul_assoc, int64OfFloat_of_range, truncate_nonneg _ hx10] <;>
      rw [truncate_nonneg _ hx10] <;> unfold minInt64 maxInt64 at * <;> omega
  have hw1 : wrap64 (⌊p.amount * (precision : ℚ)⌋ * 10) = ⌊p.amount * (precision : ℚ)⌋ * 10 :=
    wrap64_of_range _ (by unfold minInt64; omega) (by unfold maxInt64 at *; omega)
  have hw2 : wrap64 (⌊p.amount * (precision : ℚ) * 10⌋ - ⌊p.amount * (precision : ℚ)⌋ * 10) =
      ⌊p.amount * (precision : ℚ) * 10⌋ - ⌊p.amount * (precision : ℚ)⌋ * 10 :=
    wrap64_of_range _ (by unfold minInt64; omega) (by unfold maxInt64; omega)
  have hw3 : wrap64 (⌊p.amount * (precision : ℚ)⌋ + 1 * 1) = ⌊p.amount * (precision : ℚ)⌋ + 1 := by
    rw [mul_one]
    exact wrap64_of_range _ (by unfold minInt64; omega) (by unfold maxInt64 at *; omega)
  unfold Price.GetPayableByRoundingMode
  simp only [Price.precisionF, hneg, hint, hint10, hw1, hw2, mul_one, if_neg hguard,
    Bool.false_eq_true, if_false, true_and]
  rw [mul_one] at hw3
  simp only [hw3]
  by_cases h1 : mode = RoundingModeCeil
  · simp [h1]
  · by_cases h2 : mode = RoundingModeHalfUp
    · simp [h1, h2]
    · by_cases h3 : mode = RoundingModeHalfDown
      · simp [h1, h2, h3]
      · by_cases h4 : mode = RoundingModeFloor
        · simp [h1, h2, h3, h4]
        · simp [h1, h2, h3, h4]

/-- C22, the failing input: -2 EUR is a whole number of hundredths, and
Floor at the precision 100 returns -2.01 EUR, not -2 EUR. -/
theorem floor_moves_negative_whole_amount :
    InRange (Price.mk (-2) "EUR").amount 100 ∧
      (Price.mk (-2) "EUR").GetPayableByRoundingMode RoundingModeFloor 100 =
        Price.mk (-201 / 100) "EUR" ∧
      ((Price.mk (-2) "EUR").GetPayableByRoundingMode RoundingModeFloor 100).Equal
        (Price.mk (-2) "EUR") = false := by
  have h : (Price.mk (-2) "EUR").GetPayableByRoundingMode RoundingModeFloor 100 =
      Price.mk (-201 / 100) "EUR" := by
    simp [Price.GetPayableByRoundingMode, Price.IsNegative, Price.IsLessThenValue, Cmp,
      int64OfFloat, truncate, wrap64, minInt64, maxInt64, Price.precisionF,
      RoundingModeHalfUp, RoundingModeCeil, RoundingModeFloor, RoundingModeHalfDown]
    norm_num
  refine ⟨by norm_num [InRange, truncate, minInt64, maxInt64], h, ?_⟩
  rw [h, Bool.eq_false_iff, ne_eq, Equal_iff]
  norm_num

/-- On exact amounts, Floor does round down where the amount is not
negative, and where it is negative and not a whole number of units: the
defect is confined to the negative whole amounts. -/
theorem floor_mode_rounds_down (p : Price) (precision : Int) (hP : 0 < precision)
    (hr : InRange p.amount precision)
    (ha : 0 ≤ p.amount ∨ ∀ k : Int, p.amount * (precision : ℚ) ≠ (k : ℚ)) :
    p.GetPayableByRoundingMode RoundingModeFloor precision =
      Price.mk ((⌊p.amount * (precision : ℚ)⌋ : ℚ) / (precision : ℚ)) p.currency := by
  by_cases h0 : 0 ≤ p.amount
  · rw [GetPayableByRoundingMode_nonneg p _ precision h0 hP hr, if_neg (by decide),
      if_neg (by decide), if_neg (by decide)]
  · have hneg : p.amount < 0 := not_le.mp h0
    have hwhole : ∀ k : Int, p.amount * (precision : ℚ) ≠ (k : ℚ) := by
      rcases ha with h | h
      · exact absurd h h0
      · exact h
    have hPq : (0 : ℚ) < (precision : ℚ) := by exact_mod_cast hP
    have hx : p.amount * (precision : ℚ) < 0 := mul_neg_of_neg_of_pos hneg hPq
    obtain ⟨hle, hten⟩ := truncate_mul_ten_neg _ hx
    have hmin := hr.1
    have hint : int64OfFloat (p.amount * (precision : ℚ)) =
        truncate (p.amount * (precision : ℚ)) :=
      int64OfFloat_of_range _ (by unfold minInt64 at *; omega) (by unfold maxInt64; omega)
    rw [GetPayableByRoundingMode_negative p _ precision hneg hP, if_pos rfl, hint,
      wrap64_of_range _ (by unfold minInt64 at *; omega) (by unfold maxInt64; omega)]
    have hfloor : truncate (p.amount * (precision : ℚ)) + 1 * -1 =
        ⌊p.amount * (precision : ℚ)⌋ := by
      rw [truncate_neg _ hx]
      symm
      rw [Int.floor_eq_iff]
      have h1 := Int.floor_le (-(p.amount * (precision : ℚ)))
      have h2 := Int.lt_floor_add_one (-(p.amount * (precision : ℚ)))
      have h3 : ((⌊-(p.amount * (precision : ℚ))⌋ : Int) : ℚ) ≠ -(p.amount * (precision : ℚ)) := by
        intro h
        apply hwhole (-⌊-(p.amount * (precision : ℚ))⌋)
        push_cast
        linarith
      have h4 := lt_of_le_of_ne h1 h3
      push_cast
      constructor <;> linarith
    rw [hfloor]

theorem floor_mode_rounds_down_witness :
    (Price.mk (-1115 / 1000) "EUR").GetPayableByRoundingMode RoundingModeFloor 100 =
      Price.mk (-112 / 100) "EUR" := by
  have h := floor_mode_rounds_down (Price.mk (-1115 / 1000) "EUR") 100 (by decide)
    (by norm_num [InRange, truncate, minInt64, maxInt64])
    (Or.inr (by
      intro k hk
      have h2 : ((2 * k : Int) : ℚ) = ((-223 : Int) : ℚ) := by
        push_cast
        rw [← hk]
        norm_num
      have h3 : 2 * k = -223 := by exact_mod_cast h2
      omega))
  rw [h]
  norm_num

/-- C23, the failing input: 2 + 1/2048 EUR lies above 2.00 EUR by less than
a tenth of a hundredth; Ceil at the precision 100 returns 2.00 EUR, which is
smaller than the amount, and not 2.01 EUR. -/
theorem ceil_misses_small_excess :
    InRange (Price.mk (4097 / 2048) "EUR").amount 100 ∧
      (Price.mk (4097 / 2048) "EUR").GetPayableByRoundingMode RoundingModeCeil 100 =
        Price.mk 2 "EUR" ∧
      ((Price.mk (4097 / 2048) "EUR").GetPayableByRoundingMode RoundingModeCeil 100).IsLessThen
        (Price.mk (4097 / 2048) "EUR") = true := by
  have h : (Price.mk (4097 / 2048) "EUR").GetPayableByRoundingMode RoundingModeCeil 100 =
      Price.mk 2 "EUR" := by
    simp [Price.GetPayableByRoundingMode, Price.IsNegative, Price.IsLessThenValue, Cmp,
      int64OfFloat, truncate, wrap64, minInt64, maxInt64, Price.precisionF,
      RoundingModeHalfUp, RoundingModeCeil, RoundingModeFloor, RoundingModeHalfDown]
    norm_num
  refine ⟨by norm_num [InRange, truncate, minInt64, maxInt64], h, ?_⟩
  rw [h, IsLessThen_iff]
  norm_num

/-- C24, the failing input: 1.1151 at the precision 100 lies above the half
between 1.11 and 1.12, HalfUp returns 1.12 and HalfDown 1.11. -/
theorem halfDown_rounds_down_above_half :
    InRange (NewFromFloat 1.1151 "EUR").amount 100 ∧
      (NewFromFloat 1.1151 "EUR").amount * 100 - 111 > 1 / 2 ∧
      (NewFromFloat 1.1151 "EUR").GetPayableByRoundingMode RoundingModeHalfUp 100 =
        NewFromFloat 1.12 "EUR" ∧
      (NewFromFloat 1.1151 "EUR").GetPayableByRoundingMode RoundingModeHalfDown 100 =
        NewFromFloat 1.11 "EUR" := by
  refine ⟨by norm_num [InRange, NewFromFloat, truncate, minInt64, maxInt64],
    by norm_num [NewFromFloat], ?_, ?_⟩
  all_goals
    simp [NewFromFloat, Price.GetPayableByRoundingMode, Price.IsNegative,
      Price.IsLessThenValue, Cmp, int64OfFloat, truncate, wrap64, minInt64, maxInt64,
      Price.precisionF, RoundingModeHalfUp, RoundingModeCeil, RoundingModeFloor,
      RoundingModeHalfDown]
    norm_num

/-! ## C25: the parts of a split of a negative amount -/

theorem getPayable_neg_miles (k : Int) (hk : k < 0) (hmin : minInt64 ≤ k * 10) :
    (Price.mk (k : ℚ) "miles").GetPayable = Price.mk ((k - 1 : Int) : ℚ) "miles" := by
  have hmax : k * 10 ≤ maxInt64 := by unfold maxInt64; omega
  have h := GetPayableByRoundingMode_whole k 1 RoundingModeFloor "miles" (by decide) hmin hmax
  rw [if_pos ⟨rfl, hk⟩, wrap64_of_range _ (by unfold minInt64 at *; omega)
    (by unfold maxInt64; omega)] at h
  unfold Price.GetPayable
  rw [payable_miles]
  simp only [Int.cast_one, div_one] at h
  rw [h]
  norm_num
  ring

/-- C25, the failing input: -3 miles is split in 2 parts of -2 miles, and
-2 miles is not payable, its payable price being -3 miles. -/
theorem split_parts_not_payable_negative_miles :
    (Price.mk (-3) "miles").SplitInPayables 2 =
        ([Price.mk (-2) "miles", Price.mk (-2) "miles"], none) ∧
      (Price.mk (-2) "miles").GetPayable = Price.mk (-3) "miles" ∧
      (Price.mk (-2) "miles").IsPayable = false := by
  have h3 : (Price.mk (-3) "miles").GetPayable = Price.mk (-4) "miles" := by
    have := getPayable_neg_miles (-3) (by decide) (by decide)
    norm_num at this
    exact this
  have h2 : (Price.mk (-2) "miles").GetPayable = Price.mk (-3) "miles" := by
    have := getPayable_neg_miles (-2) (by decide) (by decide)
    norm_num at this
    exact this
  refine ⟨?_, h2, ?_⟩
  · have ha : int64OfFloat (-4) = -4 := by
      norm_num [int64OfFloat, truncate, minInt64, maxInt64]
    have hm : Int.tmod (-4) 2 = 0 := by decide
    have hd : Int.tdiv (-4) 2 = -2 := by decide
    simp [Price.SplitInPayables, h3, payable_miles, Price.Amount, Price.precisionF, ha, hm, hd,
      forRange, List.range_succ, NewFromInt, Price.Currency]
  · unfold Price.IsPayable
    rw [h2, Bool.eq_false_iff, ne_eq, Equal_iff]
    norm_num

/-- Any two parts of a split differ by at most one minor unit. -/
theorem split_parts_differ_by_one_unit (p : Price) (count : Int) (hc : 1 ≤ count) :
    ∀ x ∈ (p.SplitInPayables count).1, ∀ y ∈ (p.SplitInPayables count).1,
      |x.amount - y.amount| ≤ 1 / (p.payableRoundingPrecision.2 : ℚ) := by
  have hP : (0 : ℚ) < (p.payableRoundingPrecision.2 : ℚ) := by
    exact_mod_cast payableRoundingPrecision_pos p
  have hP' := payableRoundingPrecision_ne_zero p
  rw [SplitInPayables_eq_replicate p count hc]
  intro x hx y hy
  simp only [List.mem_append, List.mem_replicate] at hx hy
  have hdiv : ∀ a b : ℚ, |a - b| ≤ 1 →
      |a / (p.payableRoundingPrecision.2 : ℚ) - b / (p.payableRoundingPrecision.2 : ℚ)| ≤
        1 / (p.payableRoundingPrecision.2 : ℚ) := by
    intro a b hab
    rw [← sub_div, abs_div, abs_of_pos hP]
    exact div_le_div_of_nonneg_right hab (le_of_lt hP)
  rcases hx with ⟨_, rfl⟩ | ⟨_, rfl⟩ <;> rcases hy with ⟨_, rfl⟩ | ⟨_, rfl⟩ <;>
    simp only [NewFromInt, if_neg hP'] <;> apply hdiv <;> push_cast <;> norm_num

/-! ## C26: line numbers of the cart -/

/-- The loop of HasItem from the line number `start` on: it stops at the
first matching item, `i` places on, with the line number `start + i + 1`,
or finds that no item matches. -/
theorem HasItem_loop_spec (mc vc : String) (items : List Item) (start : Int) :
    (∃ i : Nat, ∃ item, items[i]? = some item ∧
        (item.MarketplaceCode = mc ∧ item.VariantMarketPlaceCode = vc) ∧
        (∀ j : Nat, j < i → ∀ other, items[j]? = some other →
          ¬ (other.MarketplaceCode = mc ∧ other.VariantMarketPlaceCode = vc)) ∧
        Cart.HasItem.loop mc vc items start = (true, start + i + 1)) ∨
    ((∀ item ∈ items, ¬ (item.MarketplaceCode = mc ∧ item.VariantMarketPlaceCode = vc)) ∧
        Cart.HasItem.loop mc vc items start = (false, 0)) := by
  induction items generalizing start with
  | nil => exact Or.inr ⟨by simp, rfl⟩
  | cons item rest ih =>
    by_cases hm : item.MarketplaceCode = mc ∧ item.VariantMarketPlaceCode = vc
    · refine Or.inl ⟨0, item, List.getElem?_cons_zero, hm,
        fun j hj => absurd hj (Nat.not_lt_zero j), ?_⟩
      unfold Cart.HasItem.loop
      rw [if_pos hm]
      simp
    · have hloop : Cart.HasItem.loop mc vc (item :: rest) start =
          Cart.HasItem.loop mc vc rest (start + 1) := by
        rw [Cart.HasItem.loop, if_neg hm]
      rcases ih (start + 1) with ⟨i, found, hget, hfound, hfirst, hres⟩ | ⟨hnone, hres⟩
      · refine Or.inl ⟨i + 1, found, by simpa using hget, hfound, ?_, ?_⟩
        · intro j hj other hother
          cases j with
          | zero =>
            simp only [List.getElem?_cons_zero, Option.some.injEq] at hother
            rw [← hother]
            exact hm
          | succ j =>
            exact hfirst j (by omega) other (by simpa using hother)
        · rw [hloop, hres]
          push_cast
          congr 1
          ring
      · refine Or.inr ⟨?_, by rw [hloop, hres]⟩
        intro x hx
        rcases List.mem_cons.mp hx with rfl | hx
        · exact hm
        · exact hnone x hx

/-- GetByLineNr within the lines of the cart: no error, and the item at the
position one below the line number. -/
theorem GetByLineNr_of_line (cart : Cart) (n : Int) (h1 : 1 ≤ n)
    (h2 : n ≤ (cart.Cartitems.length : Int)) :
    (cart.GetByLineNr n).2 = none ∧
      cart.Cartitems[(n - 1).toNat]? = some (cart.GetByLineNr n).1 := by
  have hcond : (cart.Cartitems.length : Int) ≥ n ∧ n > 0 := ⟨h2, by omega⟩
  unfold Cart.GetByLineNr
  rw [if_pos hcond]
  refine ⟨rfl, ?_⟩
  have hlt : (n - 1).toNat < cart.Cartitems.length := by omega
  simp only [List.getD_eq_getElem?_getD, List.getElem?_eq_getElem hlt, Option.getD_some]

theorem GetByLineNr_error_iff (cart : Cart) (n : Int) :
    (cart.GetByLineNr n).2 = none ↔ (1 ≤ n ∧ n ≤ (cart.Cartitems.length : Int)) := by
  unfold Cart.GetByLineNr
  by_cases hcond : (cart.Cartitems.length : Int) ≥ n ∧ n > 0
  · rw [if_pos hcond]
    simp only [true_iff]
    omega
  · rw [if_neg hcond]
    simp only [reduceCtorEq, false_iff]
    omega

/-- C26: line numbers start at 1: GetByLineNr succeeds exactly on the lines
1 to the number of items and returns the item one position below the line;
HasItem returns `(true, n)` exactly for the smallest line `n` whose item has
both codes, and `(false, 0)` exactly when no item has them. -/
theorem cart_line_numbers (cart : Cart) (mc vc : String) :
    (∀ n : Int, (cart.GetByLineNr n).2 = none ↔
        (1 ≤ n ∧ n ≤ (cart.Cartitems.length : Int))) ∧
    (∀ n : Int, 1 ≤ n → n ≤ (cart.Cartitems.length : Int) →
        cart.Cartitems[(n - 1).toNat]? = some (cart.GetByLineNr n).1) ∧
    (∀ n : Int, cart.HasItem mc vc = (true, n) ↔
        ((cart.GetByLineNr n).2 = none ∧
          ((cart.GetByLineNr n).1.MarketplaceCode = mc ∧
            (cart.GetByLineNr n).1.VariantMarketPlaceCode = vc) ∧
          ∀ m : Int, 1 ≤ m → m < n →
            ¬ ((cart.GetByLineNr m).1.MarketplaceCode = mc ∧
              (cart.GetByLineNr m).1.VariantMarketPlaceCode = vc))) ∧
    (cart.HasItem mc vc = (false, 0) ↔
        ∀ item ∈ cart.Cartitems,
          ¬ (item.MarketplaceCode = mc ∧ item.VariantMarketPlaceCode = vc)) := by
  refine ⟨GetByLineNr_error_iff cart, fun n h1 h2 => (GetByLineNr_of_line cart n h1 h2).2,
    fun n => ?_, ?_⟩
  · unfold Cart.HasItem
    rcases HasItem_loop_spec mc vc cart.Cartitems 0 with
      ⟨i, item, hget, hitem, hfirst, hres⟩ | ⟨hnone, hres⟩
    · have hi : i < cart.Cartitems.length := by
        by_contra hge
        rw [List.getElem?_eq_none (not_lt.mp hge)] at hget
        exact absurd hget (by simp)
      have hline := GetByLineNr_of_line cart ((i : Int) + 1) (by omega) (by omega)
      have hidx : ((i : Int) + 1 - 1).toNat = i := by omega
      rw [hidx, hget] at hline
      have hgot : (cart.GetByLineNr ((i : Int) + 1)).1 = item := (Option.some.inj hline.2).symm
      rw [hres]
      constructor
      · intro hn
        have hn' : n = (i : Int) + 1 := by
          have := congrArg Prod.snd hn
          simp only at this
          omega
        subst hn'
        refine ⟨hline.1, by rw [hgot]; exact hitem, fun m hm1 hm2 => ?_⟩
        have hmline := GetByLineNr_of_line cart m hm1 (by omega)
        exact hfirst (m - 1).toNat (by omega) _ hmline.2
      · rintro ⟨hok, hmatch, hmin⟩
        have hrange := (GetByLineNr_error_iff cart n).mp hok
        have hnline := GetByLineNr_of_line cart n hrange.1 hrange.2
        have hle : (i : Int) + 1 ≤ n := by
          by_contra hlt
          exact hfirst (n - 1).toNat (by omega) _ hnline.2 hmatch
        have hge : n ≤ (i : Int) + 1 := by
          by_contra hlt
          apply hmin ((i : Int) + 1) (by omega) (by omega)
          rw [hgot]
          exact hitem
        have : n = (i : Int) + 1 := by omega
        rw [this]
        simp
    · rw [hres]
      constructor
      · intro h
        exact absurd (congrArg Prod.fst h) (by simp)
      · rintro ⟨hok, hmatch, _⟩
        have hrange := (GetByLineNr_error_iff cart n).mp hok
        have hnline := GetByLineNr_of_line cart n hrange.1 hrange.2
        exact absurd hmatch (hnone _ (List.getElem?_mem hnline.2))
  · unfold Cart.HasItem
    rcases HasItem_loop_spec mc vc cart.Cartitems 0 with
      ⟨i, item, hget, hitem, _, hres⟩ | ⟨hnone, hres⟩
    · rw [hres]
      constructor
      · intro h
        exact absurd (congrArg Prod.fst h) (by simp)
      · intro hall
        exact absurd hitem (hall item (List.getElem?_mem hget))
    · rw [hres]
      exact ⟨fun _ => hnone, fun _ => rfl⟩

/-- C26, a cart of three items: the second and third have the codes, HasItem
returns the line 2, and GetByLineNr of that line the second item. -/
theorem cart_line_numbers_witness :
    (Cart.mk [Item.mk "a" "sku1" "" 1, Item.mk "b" "sku2" "red" 1,
        Item.mk "c" "sku2" "red" 4]).HasItem "sku2" "red" = (true, 2) ∧
      (Cart.mk [Item.mk "a" "sku1" "" 1, Item.mk "b" "sku2" "red" 1,
        Item.mk "c" "sku2" "red" 4]).GetByLineNr 2 = (Item.mk "b" "sku2" "red" 1, none) ∧
      ((Cart.mk [Item.mk "a" "sku1" "" 1, Item.mk "b" "sku2" "red" 1,
        Item.mk "c" "sku2" "red" 4]).GetByLineNr 4).2 ≠ none ∧
      (Cart.mk [Item.mk "a" "sku1" "" 1, Item.mk "b" "sku2" "red" 1,
        Item.mk "c" "sku2" "red" 4]).HasItem "sku3" "" = (false, 0) := by
  have h := cart_line_numbers (Cart.mk [Item.mk "a" "sku1" "" 1, Item.mk "b" "sku2" "red" 1,
    Item.mk "c" "sku2" "red" 4])
  refine ⟨by decide, by decide, ?_, ?_⟩
  · intro hnone
    have := ((h "sku2" "red").1 4).mp hnone
    simp at this
  · exact (h "sku3" "").2.2.2.mpr (by decide)

/-! ## C27: AddCharge and the keys of Charges -/

theorem getPayable_zero_value : (Price.mk 0 "").GetPayable = Price.mk 0 "" := by
  have hp : (Price.mk 0 "").payableRoundingPrecision = (RoundingModeHalfUp, 100) := by
    simp [Price.payableRoundingPrecision, toLower]
  simp [Price.GetPayable, Price.GetPayableByRoundingMode, hp, Price.IsNegative,
    Price.IsLessThenValue, Cmp, int64OfFloat, truncate, wrap64, minInt64, maxInt64,
    Price.precisionF, RoundingModeHalfUp, RoundingModeCeil, RoundingModeFloor,
    RoundingModeHalfDown]

/-- C27, the failing input: Charges that hold a main charge of 5 EUR under
"main" get a main charge of 5 USD added; the sum fails, and the entry under
"main" becomes the zero-value Charge, whose type is empty. -/
theorem addCharge_breaks_key_type :
    (∀ k e, (NewCharges (some ((∅ : ChargeMap).insert "main"
          (Charge.mk (Price.mk 5 "EUR") (Price.mk 5 "EUR") "main")))).lookup k = some e →
        e.type = k) ∧
      ((Charge.mk (Price.mk 5 "EUR") (Price.mk 5 "EUR") "main").Add
        (Charge.mk (Price.mk 5 "USD") (Price.mk 5 "USD") "main")).2 ≠ none ∧
      ((NewCharges (some ((∅ : ChargeMap).insert "main"
          (Charge.mk (Price.mk 5 "EUR") (Price.mk 5 "EUR") "main")))).AddCharge
        (Charge.mk (Price.mk 5 "USD") (Price.mk 5 "USD") "main")).GetByType "main" =
        (Charge.mk (Price.mk 0 "") (Price.mk 0 "") "", true) := by
  have hadd : (Charge.mk (Price.mk 5 "EUR") (Price.mk 5 "EUR") "main").Add
      (Charge.mk (Price.mk 5 "USD") (Price.mk 5 "USD") "main") =
      (Charge.zero, some "Cannot calculate prices in different currencies") := by
    have hz1 : (Price.mk 5 "EUR").IsZero = false := by
      rw [Bool.eq_false_iff, ne_eq, IsZero_iff]; norm_num
    have hz2 : (Price.mk 5 "USD").IsZero = false := by
      rw [Bool.eq_false_iff, ne_eq, IsZero_iff]; norm_num
    simp [Charge.Add, Price.Add, Price.currencyGuard, hz1, hz2]
  refine ⟨?_, by rw [hadd]; simp, ?_⟩
  · intro k e hke
    simp only [NewCharges, Charges.lookup, AList.insert_empty, lookup_singleton] at hke
    split_ifs at hke with hk
    rw [← Option.some.inj hke, hk]
  · have hentry := Charges.AddCharge_eq_addEntry
      (NewCharges (some ((∅ : ChargeMap).insert "main"
        (Charge.mk (Price.mk 5 "EUR") (Price.mk 5 "EUR") "main"))))
      ⟨"main", Charge.mk (Price.mk 5 "USD") (Price.mk 5 "USD") "main"⟩ rfl
    simp only at hentry
    unfold Charges.GetByType
    rw [hentry, Charges.lookup_some, Charges.lookup_addEntry, if_pos rfl]
    simp only [NewCharges, Charges.madeMap, AList.insert_empty, lookup_singleton, if_true, hadd]
    simp [Charge.zero, Charge.GetPayable, getPayable_zero_value]

/-- AddCharge keeps every entry under its own type when the sum with the
entry that is there succeeds: the invariant is lost on a failing sum only. -/
theorem addCharge_keeps_key_type (cs : Charges) (c : Charge)
    (hinv : ∀ k e, cs.lookup k = some e → e.type = k)
    (hok : ∀ e, cs.lookup c.type = some e → (e.Add c).2 = none) :
    ∀ k e, (cs.AddCharge c).lookup k = some e → e.type = k := by
  intro k e hke
  rw [Charges.AddCharge_eq_addEntry cs ⟨c.type, c⟩ rfl, Charges.lookup_some,
    Charges.lookup_addEntry] at hke
  simp only at hke
  by_cases hk : k = c.type
  · rw [if_pos hk, Charges.madeMap_lookup] at hke
    rcases hl : cs.lookup c.type with _ | existing
    · rw [hl] at hke
      rw [← Option.some.inj hke, hk]
    · rw [hl] at hke
      simp only at hke
      have hsucc := hok existing hl
      have htype : (existing.Add c).1.type = existing.type := by
        unfold Charge.Add at hsucc ⊢
        by_cases ht : existing.type = c.type
        · rw [if_neg (not_not.mpr ht)] at hsucc ⊢
          rcases hp : existing.Price.Add c.Price with ⟨newPrice, _ | err⟩
          · rcases hv : existing.Value.Add c.Value with ⟨newValue, _ | err⟩
            · rfl
            · rw [hp, hv] at hsucc
              exact absurd hsucc (by simp)
          · rw [hp] at hsucc
            exact absurd hsucc (by simp)
        · rw [if_pos ht] at hsucc
          exact absurd hsucc (by simp)
      rw [← Option.some.inj hke]
      show (existing.Add c).1.type = k
      rw [htype, hinv _ _ hl, hk]
  · rw [if_neg hk, Charges.madeMap_lookup] at hke
    exact hinv k e hke

theorem addCharge_keeps_key_type_witness :
    ∀ k e, ((NewCharges none).AddCharge
        (Charge.mk (Price.mk 5 "EUR") (Price.mk 5 "EUR") "main")).lookup k = some e →
      e.type = k :=
  addCharge_keeps_key_type (NewCharges none)
    (Charge.mk (Price.mk 5 "EUR") (Price.mk 5 "EUR") "main")
    (fun k e h => absurd h (by simp [NewCharges, Charges.lookup]))
    (fun e h => absurd h (by simp [NewCharges, Charges.lookup]))

/-! ## C28: Add and the order of its operands -/

theorem Add_of_guard_ok (p q : Price) (c : String)
    (h : p.currencyGuard q = ({ amount := 0, currency := c }, none)) :
    p.Add q = ({ amount := p.amount + q.amount, currency := c }, none) := by
  simp [Price.Add, h]

theorem Add_of_guard_error (p q : Price) (z : Price) (err : Error)
    (h : p.currencyGuard q = (z, some err)) : p.Add q = (z, some err) := by
  simp [Price.Add, h]

/-- Add by cases: the sum in the currency of the operand when the currencies
agree or the receiver is zero-valued, the sum in the currency of the receiver
when only the operand is zero-valued, and an error otherwise. -/
theorem Add_cases (p q : Price) :
    (p.Add q = ({ amount := p.amount + q.amount, currency := q.currency }, none) ∧
        (p.currency = q.currency ∨ p.amount = 0)) ∨
    (p.Add q = ({ amount := p.amount + q.amount, currency := p.currency }, none) ∧
        p.currency ≠ q.currency ∧ p.amount ≠ 0 ∧ q.amount = 0) ∨
    (p.Add q = (NewZero p.currency, some "Cannot calculate prices in different currencies") ∧
        p.currency ≠ q.currency ∧ p.amount ≠ 0 ∧ q.amount ≠ 0) := by
  have hz : ∀ r : Price, r.IsZero = false ↔ r.amount ≠ 0 := by
    intro r
    rw [ne_eq, ← IsZero_iff, Bool.not_eq_true]
  rcases currencyGuard_cases p q with ⟨h, hc⟩ | ⟨h, hc, hp, hq⟩ | ⟨h, hc, hp, hq⟩
  · exact Or.inl ⟨Add_of_guard_ok p q _ h, hc.imp id (IsZero_iff p).mp⟩
  · exact Or.inr (Or.inl ⟨Add_of_guard_ok p q _ h, hc, (hz p).mp hp, (IsZero_iff q).mp hq⟩)
  · exact Or.inr (Or.inr ⟨Add_of_guard_error p q _ _ h, hc, (hz p).mp hp, (hz q).mp hq⟩)

theorem Add_ok_iff (p q : Price) :
    (p.Add q).2 = none ↔ (p.currency = q.currency ∨ p.amount = 0 ∨ q.amount = 0) := by
  rcases Add_cases p q with ⟨h, hc⟩ | ⟨h, hc, hp, hq⟩ | ⟨h, hc, hp, hq⟩
  · rw [h]
    simp only [true_iff]
    rcases hc with hc | hc
    · exact Or.inl hc
    · exact Or.inr (Or.inl hc)
  · rw [h]
    simp only [true_iff]
    exact Or.inr (Or.inr hq)
  · rw [h]
    simp only [reduceCtorEq, false_iff]
    rintro (h1 | h1 | h1)
    · exact hc h1
    · exact hp h1
    · exact hq h1

theorem Add_amount (p q : Price) (h : (p.Add q).2 = none) :
    (p.Add q).1.amount = p.amount + q.amount := by
  rcases Add_cases p q with ⟨h1, _⟩ | ⟨h1, _⟩ | ⟨h1, _⟩
  · rw [h1]
  · rw [h1]
  · rw [h1] at h
    exact absurd h (by simp)

theorem Add_currency (p q : Price) (h : (p.Add q).2 = none) :
    (p.Add q).1.currency =
      if p.currency = q.currency ∨ p.amount = 0 then q.currency else p.currency := by
  rcases Add_cases p q with ⟨h1, hc⟩ | ⟨h1, hc, hp, _⟩ | ⟨h1, _⟩
  · rw [h1, if_pos hc]
  · rw [h1, if_neg (by rintro (h2 | h2); exact hc h2; exact hp h2)]
  · rw [h1] at h
    exact absurd h (by simp)

/-- C28, the counterexample: 0 EUR plus 0 USD is 0 USD, 0 USD plus 0 EUR is
0 EUR; both sums succeed and the results are not Equal. -/
theorem add_not_commutative_zero_prices :
    (Price.mk 0 "EUR").Add (Price.mk 0 "USD") = (Price.mk 0 "USD", none) ∧
      (Price.mk 0 "USD").Add (Price.mk 0 "EUR") = (Price.mk 0 "EUR", none) ∧
      ((Price.mk 0 "EUR").Add (Price.mk 0 "USD")).1.Equal
        ((Price.mk 0 "USD").Add (Price.mk 0 "EUR")).1 = false := by
  have h1 : (Price.mk 0 "EUR").Add (Price.mk 0 "USD") = (Price.mk 0 "USD", none) := by
    simp [Price.Add, Price.currencyGuard, Price.IsZero, Price.Equal, NewZero, NewFromFloat,
      Price.Currency, Cmp]
  have h2 : (Price.mk 0 "USD").Add (Price.mk 0 "EUR") = (Price.mk 0 "EUR", none) := by
    simp [Price.Add, Price.currencyGuard, Price.IsZero, Price.Equal, NewZero, NewFromFloat,
      Price.Currency, Cmp]
  refine ⟨h1, h2, ?_⟩
  rw [h1, h2]
  simp [Price.Equal]

/-- C28, amended: for every pair of Prices p and q, p.Add(q) and q.Add(p)
both fail or both succeed; when they succeed the two results have the same
amount, and they are Equal unless p and q are both zero-valued with different
currencies (each sum then takes the currency of its operand). -/
theorem add_commutative_unless_both_zero (p q : Price) :
    ((p.Add q).2 = none ↔ (q.Add p).2 = none) ∧
      ((p.Add q).2 = none → (p.Add q).1.amount = (q.Add p).1.amount) ∧
      (¬(p.IsZero = true ∧ q.IsZero = true ∧ p.currency ≠ q.currency) →
        (p.Add q).2 = none → (p.Add q).1.Equal (q.Add p).1 = true) := by
  have hiff : (p.Add q).2 = none ↔ (q.Add p).2 = none := by
    rw [Add_ok_iff, Add_ok_iff]
    constructor
    · rintro (h | h | h)
      · exact Or.inl h.symm
      · exact Or.inr (Or.inr h)
      · exact Or.inr (Or.inl h)
    · rintro (h | h | h)
      · exact Or.inl h.symm
      · exact Or.inr (Or.inr h)
      · exact Or.inr (Or.inl h)
  have hamount : (p.Add q).2 = none → (p.Add q).1.amount = (q.Add p).1.amount := by
    intro h
    rw [Add_amount p q h, Add_amount q p (hiff.mp h), add_comm]
  refine ⟨hiff, hamount, ?_⟩
  intro hn h
  rw [Equal_iff]
  refine ⟨?_, hamount h⟩
  rw [Add_currency p q h, Add_currency q p (hiff.mp h)]
  rw [IsZero_iff, IsZero_iff] at hn
  by_cases hc : p.currency = q.currency
  · rw [if_pos (Or.inl hc), if_pos (Or.inl hc.symm)]
    exact hc.symm
  · by_cases hp : p.amount = 0
    · have hq : q.amount ≠ 0 := fun hq => hn ⟨hp, hq, hc⟩
      rw [if_pos (Or.inr hp), if_neg (by rintro (h2 | h2); exact hc h2.symm; exact hq h2)]
    · rw [if_neg (by rintro (h2 | h2); exact hc h2; exact hp h2)]
      have hq : q.amount = 0 := by
        rcases (Add_ok_iff p q).mp h with h2 | h2 | h2
        · exact absurd h2 hc
        · exact absurd h2 hp
        · exact h2
      rw [if_pos (Or.inr hq)]

theorem add_commutative_unless_both_zero_witness :
    ((Price.mk 5 "EUR").Add (Price.mk 0 "USD")).2 = none ∧
      ¬((Price.mk 5 "EUR").IsZero = true ∧ (Price.mk 0 "USD").IsZero = true ∧
          (Price.mk 5 "EUR").currency ≠ (Price.mk 0 "USD").currency) ∧
      ((Price.mk 0 "USD").Add (Price.mk 5 "EUR")).2 = none ∧
      ((Price.mk 5 "EUR").Add (Price.mk 0 "USD")).1.amount =
        ((Price.mk 0 "USD").Add (Price.mk 5 "EUR")).1.amount ∧
      ((Price.mk 5 "EUR").Add (Price.mk 0 "USD")).1.Equal
        ((Price.mk 0 "USD").Add (Price.mk 5 "EUR")).1 = true :=
  have hok : ((Price.mk 5 "EUR").Add (Price.mk 0 "USD")).2 = none :=
    (Add_ok_iff _ _).mpr (Or.inr (Or.inr rfl))
  have hn : ¬((Price.mk 5 "EUR").IsZero = true ∧ (Price.mk 0 "USD").IsZero = true ∧
      (Price.mk 5 "EUR").currency ≠ (Price.mk 0 "USD").currency) := by
    rw [IsZero_iff]
    norm_num
  have h := add_commutative_unless_both_zero (Price.mk 5 "EUR") (Price.mk 0 "USD")
  ⟨hok, hn, h.1.mp hok, h.2.1 hok, h.2.2 hn hok⟩

/-! ## Rounding to a mantissa -/

namespace big

theorem roundHalfEven_sub_le (t : ℚ) : |(roundHalfEven t : ℚ) - t| ≤ 1 / 2 := by
  have h1 := Int.floor_le t
  have h2 := Int.lt_floor_add_one t
  unfold roundHalfEven
  rw [abs_le]
  split_ifs with ha hb hc <;> push_cast <;> constructor <;> linarith

theorem roundHalfEven_of_close (t : ℚ) (n : Int) (h : |t - n| < 1 / 2) :
    roundHalfEven t = n := by
  rw [abs_lt] at h
  have hfl : ⌊t⌋ = n ∨ ⌊t⌋ = n - 1 := by
    have h1 : n - 1 ≤ ⌊t⌋ := Int.le_floor.mpr (by push_cast; linarith)
    have h2 : ⌊t⌋ < n + 1 := Int.floor_lt.mpr (by push_cast; linarith)
    omega
  unfold roundHalfEven
  rcases hfl with hf | hf
  · rw [hf, if_pos (by linarith)]
  · rw [hf, if_neg (by push_cast; linarith), if_pos (by push_cast; linarith)]
    ring

theorem roundHalfEven_intCast (n : Int) : roundHalfEven (n : ℚ) = n :=
  roundHalfEven_of_close _ n (by norm_num)

theorem roundHalfEven_tie (t : ℚ) (n : Int) (h : t = (n : ℚ) + 1 / 2) :
    roundHalfEven t = if n % 2 = 0 then n else n + 1 := by
  have hf : ⌊t⌋ = n := by
    rw [Int.floor_eq_iff]
    constructor <;> linarith
  unfold roundHalfEven
  rw [hf, if_neg (by linarith), if_neg (by linarith)]

theorem roundHalfEven_nonneg (t : ℚ) (h : 0 ≤ t) : 0 ≤ roundHalfEven t := by
  have hf : 0 ≤ ⌊t⌋ := Int.floor_nonneg.mpr h
  unfold roundHalfEven
  split_ifs <;> omega

theorem roundHalfEven_nonpos (t : ℚ) (h : t ≤ 0) : roundHalfEven t ≤ 0 := by
  rcases eq_or_lt_of_le h with h0 | hneg
  · rw [h0]
    have := roundHalfEven_intCast 0
    simp only [Int.cast_zero] at this
    rw [this]
  · have hf : ⌊t⌋ ≤ -1 := by
      have : ⌊t⌋ < 0 := Int.floor_lt.mpr (by exact_mod_cast hneg)
      omega
    have hfl := Int.floor_le t
    unfold roundHalfEven
    split_ifs with ha hb hc
    · omega
    · omega
    · omega
    · omega

theorem ulp_pos (prec : Nat) (x : ℚ) : 0 < ulp prec x := zpow_pos (by norm_num) _

theorem log_eq (x : ℚ) (e : Int) (h1 : (2 : ℚ) ^ e ≤ |x|) (h2 : |x| < (2 : ℚ) ^ (e + 1)) :
    Int.log 2 |x| = e := by
  have hpos : 0 < |x| := lt_of_lt_of_le (zpow_pos (by norm_num) e) h1
  have ha : e ≤ Int.log 2 |x| :=
    (Int.zpow_le_iff_le_log (by norm_num) hpos).mp (by exact_mod_cast h1)
  have hb : Int.log 2 |x| < e + 1 :=
    (Int.lt_zpow_iff_log_lt (by norm_num) hpos).mp (by exact_mod_cast h2)
  omega

theorem zpow_log_le (x : ℚ) (hx : x ≠ 0) : (2 : ℚ) ^ Int.log 2 |x| ≤ |x| := by
  have := Int.zpow_log_le_self (b := 2) (r := |x|) (by norm_num) (abs_pos.mpr hx)
  exact_mod_cast this

theorem lt_zpow_log_succ (x : ℚ) : |x| < (2 : ℚ) ^ (Int.log 2 |x| + 1) := by
  have := Int.lt_zpow_succ_log_self (b := 2) (by norm_num) |x|
  exact_mod_cast this

theorem round_zero (prec : Nat) : round prec 0 = 0 := by
  unfold round
  rw [zero_div]
  have := roundHalfEven_intCast 0
  simp only [Int.cast_zero] at this
  rw [this]
  simp

/-- The value of a rounding, from the binary exponent of the value and the
integer nearest to the scaled value. -/
theorem round_eval (prec : Nat) (x y : ℚ) (e n : Int)
    (h1 : (2 : ℚ) ^ e ≤ |x|) (h2 : |x| < (2 : ℚ) ^ (e + 1))
    (h3 : |x / (2 : ℚ) ^ (e - (prec : Int) + 1) - n| < 1 / 2)
    (h4 : y = (n : ℚ) * (2 : ℚ) ^ (e - (prec : Int) + 1)) : round prec x = y := by
  unfold round ulp
  rw [log_eq x e h1 h2, roundHalfEven_of_close _ n h3, h4]

/-- The value of a rounding of a value half way between two neighbours. -/
theorem round_eval_tie (prec : Nat) (x y : ℚ) (e n : Int)
    (h1 : (2 : ℚ) ^ e ≤ |x|) (h2 : |x| < (2 : ℚ) ^ (e + 1))
    (h3 : x / (2 : ℚ) ^ (e - (prec : Int) + 1) = (n : ℚ) + 1 / 2)
    (h4 : y = ((if n % 2 = 0 then n else n + 1 : Int) : ℚ) *
      (2 : ℚ) ^ (e - (prec : Int) + 1)) : round prec x = y := by
  unfold round ulp
  rw [log_eq x e h1 h2, roundHalfEven_tie _ n h3, h4]

/-- Rounding moves a value by half a unit in the last place at most. -/
theorem round_sub_le_ulp (prec : Nat) (x : ℚ) : |round prec x - x| ≤ ulp prec x / 2 := by
  have hu := ulp_pos prec x
  have h := roundHalfEven_sub_le (x / ulp prec x)
  have e : round prec x - x = ((roundHalfEven (x / ulp prec x) : ℚ) - x / ulp prec x) *
      ulp prec x := by
    unfold round
    field_simp
  rw [e, abs_mul, abs_of_pos hu]
  calc |(roundHalfEven (x / ulp prec x) : ℚ) - x / ulp prec x| * ulp prec x
      ≤ 1 / 2 * ulp prec x := mul_le_mul_of_nonneg_right h (le_of_lt hu)
    _ = ulp prec x / 2 := by ring

theorem ulp_le (prec : Nat) (x : ℚ) (hx : x ≠ 0) :
    ulp prec x ≤ |x| * 2 / (2 : ℚ) ^ prec := by
  have h := zpow_log_le x hx
  have e : ulp prec x = (2 : ℚ) ^ Int.log 2 |x| * 2 / (2 : ℚ) ^ prec := by
    unfold ulp
    rw [zpow_add₀ (by norm_num), zpow_sub₀ (by norm_num), zpow_natCast, zpow_one]
    ring
  rw [e]
  have hp : (0 : ℚ) < (2 : ℚ) ^ prec := pow_pos (by norm_num) _
  apply div_le_div_of_nonneg_right _ (le_of_lt hp)
  linarith

/-- The relative error of a rounding: at most `2 ^ (-prec)`. -/
theorem round_sub_le (prec : Nat) (x : ℚ) : |round prec x - x| ≤ |x| / (2 : ℚ) ^ prec := by
  by_cases hx : x = 0
  · rw [hx, round_zero]
    simp
  · have h1 := round_sub_le_ulp prec x
    have h2 := ulp_le prec x hx
    have e : |x| * 2 / (2 : ℚ) ^ prec / 2 = |x| / (2 : ℚ) ^ prec := by ring
    linarith

theorem round_nonneg (prec : Nat) (x : ℚ) (h : 0 ≤ x) : 0 ≤ round prec x := by
  unfold round
  have hu := ulp_pos prec x
  have := roundHalfEven_nonneg (x / ulp prec x) (div_nonneg h (le_of_lt hu))
  exact mul_nonneg (by exact_mod_cast this) (le_of_lt hu)

theorem round_nonpos (prec : Nat) (x : ℚ) (h : x ≤ 0) : round prec x ≤ 0 := by
  unfold round
  have hu := ulp_pos prec x
  have := roundHalfEven_nonpos (x / ulp prec x) (div_nonpos_of_nonpos_of_nonneg h (le_of_lt hu))
  exact mul_nonpos_of_nonpos_of_nonneg (by exact_mod_cast this) (le_of_lt hu)

/-- A value on the grid of the unit in the last place, nearer than half
a unit, is the result of the rounding. -/
theorem round_eq_of_close (prec : Nat) (z m : ℚ) (j : Int) (hm : m = (j : ℚ) * ulp prec z)
    (h : |z - m| < ulp prec z / 2) : round prec z = m := by
  have hu := ulp_pos prec z
  have hj : roundHalfEven (z / ulp prec z) = j := by
    apply roundHalfEven_of_close
    have e : z / ulp prec z - (j : ℚ) = (z - m) / ulp prec z := by
      rw [hm]
      field_simp
      ring
    rw [e, abs_div, abs_of_pos hu, div_lt_iff₀ hu]
    linarith
  unfold round
  rw [hj, hm]

/-- A multiple of `2 ^ k` below `2 ^ (k + prec)` in magnitude is a value of
the precision `prec`. -/
theorem round_of_grid (prec : Nat) (x : ℚ) (j k : Int) (hx : x = (j : ℚ) * (2 : ℚ) ^ k)
    (hlt : |x| < (2 : ℚ) ^ (k + (prec : Int))) : round prec x = x := by
  by_cases h0 : x = 0
  · rw [h0, round_zero]
  · have hL : Int.log 2 |x| < k + (prec : Int) :=
      (Int.lt_zpow_iff_log_lt (by norm_num) (abs_pos.mpr h0)).mp (by exact_mod_cast hlt)
    obtain ⟨d, hd⟩ : ∃ d : Nat, k = (Int.log 2 |x| - (prec : Int) + 1) + (d : Int) :=
      ⟨(k - (Int.log 2 |x| - (prec : Int) + 1)).toNat, by omega⟩
    have hgrid : x = ((j * 2 ^ d : Int) : ℚ) * ulp prec x := by
      unfold ulp
      rw [hx] 
      conv_lhs => rw [hd, zpow_add₀ (by norm_num : (2 : ℚ) ≠ 0), zpow_natCast]
      push_cast
      rw [← hx]
      ring
    apply round_eq_of_close prec x x (j * 2 ^ d) hgrid
    rw [sub_self, abs_zero]
    exact half_pos (ulp_pos prec x)

/-- An integer below `2 ^ prec` in magnitude is a value of the precision
`prec`. -/
theorem round_intCast (prec : Nat) (n : Int) (h : |(n : ℚ)| < (2 : ℚ) ^ prec) :
    round prec (n : ℚ) = n := by
  apply round_of_grid prec _ n 0 (by simp)
  rw [zero_add, zpow_natCast]
  exact h

/-- A value of a precision is a value of every larger precision. -/
theorem round_of_le (p q : Nat) (x : ℚ) (h : round p x = x) (hpq : p ≤ q) :
    round q x = x := by
  obtain ⟨d, hd⟩ : ∃ d : Nat, q = p + d := ⟨q - p, by omega⟩
  have hu : ulp p x = (2 : ℚ) ^ d * ulp q x := by
    unfold ulp
    rw [hd, ← zpow_natCast, ← zpow_add₀ (by norm_num : (2 : ℚ) ≠ 0)]
    congr 1
    push_cast
    ring
  have hgrid : x = ((roundHalfEven (x / ulp p x) * 2 ^ d : Int) : ℚ) * ulp q x := by
    conv_lhs => rw [← h]
    unfold round
    rw [hu]
    push_cast
    ring
  apply round_eq_of_close q x x _ hgrid
  rw [sub_self, abs_zero]
  exact half_pos (ulp_pos q x)

theorem ulp_eq (prec : Nat) (x : ℚ) :
    ulp prec x = (2 : ℚ) ^ Int.log 2 |x| * 2 / (2 : ℚ) ^ prec := by
  unfold ulp
  rw [zpow_add₀ (by norm_num), zpow_sub₀ (by norm_num), zpow_natCast, zpow_one]
  ring

/-- A float64 conversion returns a whole number of at most 53 bits from
every value that lies near it. -/
theorem round_near_int (m : Int) (z : ℚ) (hm : |(m : ℚ)| ≤ 2 ^ 53)
    (hz : |z - m| ≤ |(m : ℚ)| / 2 ^ 60) : round 53 z = m := by
  by_cases hz0 : z = 0
  · have hm0 : (m : ℚ) = 0 := by
      rw [hz0, zero_sub, abs_neg] at hz
      have h0 : (0 : ℚ) ≤ |(m : ℚ)| := abs_nonneg _
      have : |(m : ℚ)| = 0 := by
        have : |(m : ℚ)| * (1 - 1 / 2 ^ 60) ≤ 0 := by linarith
        nlinarith
      exact abs_eq_zero.mp this
    rw [hz0, round_zero, hm0]
  · have hlow := zpow_log_le z hz0
    have hhigh := lt_zpow_log_succ z
    have ha : (0 : ℚ) < (2 : ℚ) ^ Int.log 2 |z| := zpow_pos (by norm_num) _
    rw [zpow_add₀ (by norm_num : (2 : ℚ) ≠ 0), zpow_one] at hhigh
    have htri : |(m : ℚ)| ≤ |z| + |z - m| := by
      have := abs_sub_abs_le_abs_sub (m : ℚ) z
      rw [abs_sub_comm (m : ℚ) z] at this
      linarith
    have htri2 : |z| ≤ |(m : ℚ)| + |z - m| := by
      have := abs_sub_abs_le_abs_sub z (m : ℚ)
      linarith
    have hd0 : 0 ≤ |z - m| := abs_nonneg _
    have hclose : |z - m| < ulp 53 z / 2 := by
      rw [ulp_eq]
      norm_num at hz ⊢
      linarith
    have hL : Int.log 2 |z| < 54 := by
      apply (Int.lt_zpow_iff_log_lt (by norm_num) (abs_pos.mpr hz0)).mp
      norm_num at hz hm ⊢
      linarith
    by_cases h52 : Int.log 2 |z| ≤ 52
    · obtain ⟨d, hd⟩ : ∃ d : Nat, (d : Int) = 52 - Int.log 2 |z| :=
        ⟨(52 - Int.log 2 |z|).toNat, by omega⟩
      apply round_eq_of_close 53 z m (m * 2 ^ d) _ hclose
      unfold ulp
      push_cast
      have e : ((2 : ℚ) ^ d) * (2 : ℚ) ^ (Int.log 2 |z| - 53 + 1) = 1 := by
        rw [← zpow_natCast, ← zpow_add₀ (by norm_num : (2 : ℚ) ≠ 0), hd]
        have : 52 - Int.log 2 |z| + (Int.log 2 |z| - 53 + 1) = 0 := by ring
        rw [this, zpow_zero]
      rw [mul_assoc, e, mul_one]
    · have hL53 : Int.log 2 |z| = 53 := by omega
      rw [hL53] at hlow
      have hM : (2 : ℚ) ^ 53 - 1 < |(m : ℚ)| := by
        norm_num at hz hlow ⊢
        linarith
      have hmi : |m| = 2 ^ 53 := by
        have h1 : (2 ^ 53 - 1 : Int) < |m| := by
          have : ((2 ^ 53 - 1 : Int) : ℚ) < ((|m| : Int) : ℚ) := by
            rw [Int.cast_abs]
            push_cast
            norm_num at hM ⊢
            exact hM
          exact_mod_cast this
        have h2 : |m| ≤ (2 ^ 53 : Int) := by
          have : ((|m| : Int) : ℚ) ≤ ((2 ^ 53 : Int) : ℚ) := by
            rw [Int.cast_abs]
            push_cast
            norm_num at hm ⊢
            exact hm
          exact_mod_cast this
        omega
      have hu : ulp 53 z = 2 := by
        unfold ulp
        rw [hL53]
        norm_num
      rcases abs_eq (by norm_num : (0 : Int) ≤ 2 ^ 53) |>.mp hmi with h | h
      · apply round_eq_of_close 53 z m (2 ^ 52) _ hclose
        rw [hu, h]
        norm_num
      · apply round_eq_of_close 53 z m (-(2 ^ 52)) _ hclose
        rw [hu, h]
        norm_num

end big

/-! ## Prices at the precision of `math/big`: comparisons and the guard -/

theorem fp_Equal_iff (p q : fp.Price) :
    p.Equal q = true ↔ p.currency = q.currency ∧ p.amount.val = q.amount.val := by
  unfold fp.Price.Equal big.Float.Cmp
  by_cases h : p.currency = q.currency
  · simp [h, Cmp_eq_zero_iff]
  · simp [h]

theorem fp_IsZero_iff (p : fp.Price) : p.IsZero = true ↔ p.amount.val = 0 := by
  simp [fp.Price.IsZero, fp_Equal_iff, fp.NewZero, fp.NewFromFloat, fp.Price.Currency,
    big.SetInt64, big.NewFloat]

theorem fp_IsNegative_iff (p : fp.Price) : p.IsNegative = true ↔ p.amount.val < 0 := by
  simp [fp.Price.IsNegative, fp.Price.IsLessThenValue, big.Float.Cmp, big.NewFloat,
    Cmp_eq_neg_one_iff]

theorem fp_currencyGuard_same (p q : fp.Price) (h : p.currency = q.currency) :
    p.currencyGuard q = ({ amount := big.Float.zero, currency := q.currency }, none) := by
  simp [fp.Price.currencyGuard, h]

theorem fp_Add_same (p q : fp.Price) (h : p.currency = q.currency) :
    p.Add q = ({ amount := p.amount.Add q.amount, currency := q.currency }, none) := by
  simp [fp.Price.Add, fp_currencyGuard_same p q h]

theorem fp_Sub_same (p q : fp.Price) (h : p.currency = q.currency) :
    p.Sub q = ({ amount := p.amount.Sub q.amount, currency := q.currency }, none) := by
  simp [fp.Price.Sub, fp_currencyGuard_same p q h]

/-! ## Rounding to a payable price at the precision of `math/big` -/

theorem fp_precision_ne_zero (p : fp.Price) : p.payableRoundingPrecision.2 ≠ 0 := by
  unfold fp.Price.payableRoundingPrecision
  split_ifs <;> decide

theorem fp_NewFromInt_of_ne_zero (a precision : Int) (currency : String) (h : precision ≠ 0) :
    fp.NewFromInt a precision currency =
      { amount := (big.SetInt64 a).Quo (big.SetInt64 precision), currency := currency } := by
  unfold fp.NewFromInt
  simp only [if_neg h]

theorem fp_scaled_nonneg (p : fp.Price) (precision : Int) (ha : 0 ≤ p.amount.val)
    (hP : 0 < precision) : 0 ≤ fp.scaled p precision ∧ 0 ≤ fp.scaled10 p precision := by
  have hPq : (0 : ℚ) ≤ (precision : ℚ) := by exact_mod_cast le_of_lt hP
  unfold fp.scaled fp.scaled10 big.Float.Float64 big.Float.Mul big.SetInt64
  constructor
  · exact big.round_nonneg _ _ (big.round_nonneg _ _ (mul_nonneg ha hPq))
  · refine big.round_nonneg _ _ (big.round_nonneg _ _ (mul_nonneg ha ?_))
    exact big.round_nonneg _ _ (mul_nonneg hPq (by norm_num))

theorem fp_scaled_nonpos (p : fp.Price) (precision : Int) (ha : p.amount.val ≤ 0)
    (hP : 0 < precision) : fp.scaled p precision ≤ 0 ∧ fp.scaled10 p precision ≤ 0 := by
  have hPq : (0 : ℚ) ≤ (precision : ℚ) := by exact_mod_cast le_of_lt hP
  unfold fp.scaled fp.scaled10 big.Float.Float64 big.Float.Mul big.SetInt64
  constructor
  · exact big.round_nonpos _ _ (big.round_nonpos _ _ (mul_nonpos_of_nonpos_of_nonneg ha hPq))
  · refine big.round_nonpos _ _ (big.round_nonpos _ _ (mul_nonpos_of_nonpos_of_nonneg ha ?_))
    exact big.round_nonneg _ _ (mul_nonneg hPq (by norm_num))

/-- GetPayableByRoundingMode through the two scaled float64 values it
converts. -/
theorem fp_GetPayableByRoundingMode_unfold (p : fp.Price) (mode : String) (precision : Int) :
    p.GetPayableByRoundingMode mode precision =
      if fp.scaled p precision ≥ 2 ^ 63 then { amount := p.amount, currency := p.currency }
      else
        { amount :=
            (big.SetInt64
              (if mode = RoundingModeCeil then
                if (if p.IsNegative then (-1 : Int) else 1) = 1 ∧
                    wrap64 (wrap64 (int64OfFloat (fp.scaled10 p precision) -
                      wrap64 (int64OfFloat (fp.scaled p precision) * 10)) *
                      (if p.IsNegative then (-1 : Int) else 1)) > 0 then
                  wrap64 (int64OfFloat (fp.scaled p precision) +
                    1 * (if p.IsNegative then (-1 : Int) else 1))
                else int64OfFloat (fp.scaled p precision)
              else if mode = RoundingModeHalfUp then
                if (if p.IsNegative then (-1 : Int) else 1) = 1 ∧
                    wrap64 (wrap64 (int64OfFloat (fp.scaled10 p precision) -
                      wrap64 (int64OfFloat (fp.scaled p precision) * 10)) *
                      (if p.IsNegative then (-1 : Int) else 1)) ≥ 5 then
                  wrap64 (int64OfFloat (fp.scaled p precision) +
                    1 * (if p.IsNegative then (-1 : Int) else 1))
                else int64OfFloat (fp.scaled p precision)
              else if mode = RoundingModeHalfDown then
                if (if p.IsNegative then (-1 : Int) else 1) = 1 ∧
                    wrap64 (wrap64 (int64OfFloat (fp.scaled10 p precision) -
                      wrap64 (int64OfFloat (fp.scaled p precision) * 10)) *
                      (if p.IsNegative then (-1 : Int) else 1)) > 5 then
                  wrap64 (int64OfFloat (fp.scaled p precision) +
                    1 * (if p.IsNegative then (-1 : Int) else 1))
                else int64OfFloat (fp.scaled p precision)
              else if mode = RoundingModeFloor then
                if (if p.IsNegative then (-1 : Int) else 1) = -1 then
                  wrap64 (int64OfFloat (fp.scaled p precision) +
                    1 * (if p.IsNegative then (-1 : Int) else 1))
                else int64OfFloat (fp.scaled p precision)
              else int64OfFloat (fp.scaled p precision))).Quo (big.SetInt64 precision),
          currency := p.currency } := rfl

/-- Rounding a negative amount in range: the truncated scaled float64, one
unit less under Floor. -/
theorem fp_GetPayableByRoundingMode_neg (p : fp.Price) (mode : String) (precision : Int)
    (ha : p.amount.val < 0) (hP : 0 < precision) (hr : fp.InRange p precision) :
    p.GetPayableByRoundingMode mode precision =
      fp.NewFromInt
        (if mode = RoundingModeFloor then truncate (fp.scaled p precision) - 1
          else truncate (fp.scaled p precision))
        precision p.currency := by
  obtain ⟨hs, _⟩ := fp_scaled_nonpos p precision (le_of_lt ha) hP
  have hneg : p.IsNegative = true := (fp_IsNegative_iff p).mpr ha
  have hguard : ¬ (fp.scaled p precision ≥ 2 ^ 63) := by
    intro h
    have h2 : (0 : ℚ) < 2 ^ 63 := by positivity
    linarith
  obtain ⟨hr1, hr2, _, _⟩ := hr
  have hint : int64OfFloat (fp.scaled p precision) = truncate (fp.scaled p precision) :=
    int64OfFloat_of_range _ (by unfold minInt64 maxInt64 at *; omega)
      (by unfold minInt64 maxInt64 at *; omega)
  have hw : wrap64 (truncate (fp.scaled p precision) + 1 * -1) =
      truncate (fp.scaled p precision) - 1 := by
    rw [wrap64_of_range _ (by unfold minInt64 maxInt64 at *; omega)
      (by unfold minInt64 maxInt64 at *; omega)]
    ring
  rw [fp_GetPayableByRoundingMode_unfold, if_neg hguard,
    fp_NewFromInt_of_ne_zero _ _ _ (ne_of_gt hP)]
  simp only [hneg, if_true, hint, hw]
  by_cases hf : mode = RoundingModeFloor
  · subst hf
    simp [RoundingModeFloor, RoundingModeCeil, RoundingModeHalfUp, RoundingModeHalfDown]
  · simp [hf]

/-- Rounding an amount that is not negative and in range: the truncated
scaled float64, one unit up when the mode and the digit after the precision
say so; the digit is read from the two scaled float64 values. -/
theorem fp_GetPayableByRoundingMode_nonneg (p : fp.Price) (mode : String) (precision : Int)
    (ha : 0 ≤ p.amount.val) (hP : 0 < precision) (hr : fp.InRange p precision) :
    p.GetPayableByRoundingMode mode precision =
      fp.NewFromInt
        (if (mode = RoundingModeCeil ∧
              0 < ⌊fp.scaled10 p precision⌋ - ⌊fp.scaled p precision⌋ * 10) ∨
            (mode = RoundingModeHalfUp ∧
              5 ≤ ⌊fp.scaled10 p precision⌋ - ⌊fp.scaled p precision⌋ * 10) ∨
            (mode = RoundingModeHalfDown ∧
              5 < ⌊fp.scaled10 p precision⌋ - ⌊fp.scaled p precision⌋ * 10)
          then ⌊fp.scaled p precision⌋ + 1 else ⌊fp.scaled p precision⌋)
        precision p.currency := by
  obtain ⟨hs, hs10⟩ := fp_scaled_nonneg p precision ha hP
  have hneg : p.IsNegative = false := by
    rw [Bool.eq_false_iff, ne_eq, fp_IsNegative_iff]
    exact not_lt.mpr ha
  obtain ⟨hr1, hr2, hr3, hr4⟩ := hr
  rw [truncate_nonneg _ hs] at hr1 hr2
  rw [truncate_nonneg _ hs10] at hr3 hr4
  have ht0 : 0 ≤ ⌊fp.scaled p precision⌋ := Int.floor_nonneg.mpr hs
  have ht10 : 0 ≤ ⌊fp.scaled10 p precision⌋ := Int.floor_nonneg.mpr hs10
  have hguard : ¬ (fp.scaled p precision ≥ 2 ^ 63) := by
    intro h
    have h1 : ((2 ^ 63 : Int) : ℚ) ≤ fp.scaled p precision := by push_cast; exact h
    have h2 := Int.le_floor.mpr h1
    unfold maxInt64 at hr2
    omega
  have hint : int64OfFloat (fp.scaled p precision) = ⌊fp.scaled p precision⌋ := by
    rw [int64OfFloat_of_range, truncate_nonneg _ hs] <;> rw [truncate_nonneg _ hs] <;>
      unfold minInt64 maxInt64 at * <;> omega
  have hint10 : int64OfFloat (fp.scaled10 p precision) = ⌊fp.scaled10 p precision⌋ := by
    rw [int64OfFloat_of_range, truncate_nonneg _ hs10] <;> rw [truncate_nonneg _ hs10] <;>
      unfold minInt64 maxInt64 at * <;> omega
  have hw1 : wrap64 (⌊fp.scaled p precision⌋ * 10) = ⌊fp.scaled p precision⌋ * 10 :=
    wrap64_of_range _ hr1 hr2
  have hw2 : wrap64 (⌊fp.scaled10 p precision⌋ - ⌊fp.scaled p precision⌋ * 10) =
      ⌊fp.scaled10 p precision⌋ - ⌊fp.scaled p precision⌋ * 10 :=
    wrap64_of_range _ (by unfold minInt64 maxInt64 at *; omega)
      (by unfold minInt64 maxInt64 at *; omega)
  have hw3 : wrap64 (⌊fp.scaled p precision⌋ + 1) = ⌊fp.scaled p precision⌋ + 1 :=
    wrap64_of_range _ (by unfold minInt64 maxInt64 at *; omega)
      (by unfold minInt64 maxInt64 at *; omega)
  rw [fp_GetPayableByRoundingMode_unfold, if_neg hguard]
  simp only [hneg, hint, hint10, hw1, hw2, mul_one, Bool.false_eq_true, if_false, true_and, hw3]
  rw [fp_NewFromInt_of_ne_zero _ _ _ (ne_of_gt hP)]
  by_cases h1 : mode = RoundingModeCeil
  · simp [h1, RoundingModeFloor, RoundingModeCeil, RoundingModeHalfUp, RoundingModeHalfDown]
  · by_cases h2 : mode = RoundingModeHalfUp
    · simp [h2, RoundingModeFloor, RoundingModeCeil, RoundingModeHalfUp, RoundingModeHalfDown]
    · by_cases h3 : mode = RoundingModeHalfDown
      · simp [h3, RoundingModeFloor, RoundingModeCeil, RoundingModeHalfUp,
          RoundingModeHalfDown]
      · by_cases h4 : mode = RoundingModeFloor
        · simp [h4, RoundingModeFloor, RoundingModeCeil, RoundingModeHalfUp,
            RoundingModeHalfDown]
        · simp [h1, h2, h3, h4]

/-! ## The parts of SplitInPayables at the precision of `math/big` -/

/-- A whole number of at most 53 bits, divided by a precision and scaled
back, each time rounded to 64 bits, lies near the whole number. -/
theorem scaled_back_close (k P : Int) (c : ℚ) (hc : 0 ≤ c) :
    |big.round 64 (big.round 64 ((k : ℚ) / (P : ℚ)) * c) - (k : ℚ) / (P : ℚ) * c| ≤
      |(k : ℚ) / (P : ℚ) * c| / 2 ^ 62 := by
  have h1 := big.round_sub_le 64 ((k : ℚ) / (P : ℚ))
  have h2 := big.round_sub_le 64 (big.round 64 ((k : ℚ) / (P : ℚ)) * c)
  set x : ℚ := (k : ℚ) / (P : ℚ) with hx
  set y : ℚ := big.round 64 x with hy
  have hyc : |y * c - x * c| ≤ |x * c| / 2 ^ 64 := by
    have e : y * c - x * c = (y - x) * c := by ring
    rw [e, abs_mul, abs_mul, abs_of_nonneg hc]
    have := mul_le_mul_of_nonneg_right h1 hc
    calc |y - x| * c ≤ |x| / 2 ^ 64 * c := this
      _ = |x| * c / 2 ^ 64 := by ring
  have htri : |y * c| ≤ |x * c| + |y * c - x * c| := by
    have := abs_sub_abs_le_abs_sub (y * c) (x * c)
    linarith
  have hx0 : 0 ≤ |x * c| := abs_nonneg _
  have hsum : |big.round 64 (y * c) - x * c| ≤
      |big.round 64 (y * c) - y * c| + |y * c - x * c| := by
    have e : big.round 64 (y * c) - x * c =
        (big.round 64 (y * c) - y * c) + (y * c - x * c) := by ring
    rw [e]
    exact abs_add _ _
  norm_num at h2 hyc ⊢
  linarith

/-- The scaled float64 of a price of `k` minor units is `k`, for `k` of at
most 53 bits. -/
theorem fp_scaled_NewFromInt (k P : Int) (currency : String) (hP : 0 < P)
    (hk : |(k : ℚ)| ≤ 2 ^ 53) : fp.scaled (fp.NewFromInt k P currency) P = (k : ℚ) := by
  have hPq : (0 : ℚ) < (P : ℚ) := by exact_mod_cast hP
  have hclose := scaled_back_close k P (P : ℚ) (le_of_lt hPq)
  have e : (k : ℚ) / (P : ℚ) * (P : ℚ) = (k : ℚ) := by field_simp
  rw [e] at hclose
  rw [fp_NewFromInt_of_ne_zero _ _ _ (ne_of_gt hP)]
  unfold fp.scaled big.Float.Float64 big.Float.Mul big.Float.Quo big.SetInt64
  simp only [Nat.max_self]
  apply big.round_near_int k _ hk
  have h0 : 0 ≤ |(k : ℚ)| := abs_nonneg _
  norm_num at hclose ⊢
  linarith

theorem ulp_le_of_lt (prec : Nat) (x : ℚ) (e : Nat) (h : |x| < (2 : ℚ) ^ e) (he : 1 ≤ e) :
    big.ulp prec x ≤ (2 : ℚ) ^ e / (2 : ℚ) ^ prec := by
  have hL : Int.log 2 |x| + 1 ≤ (e : Int) := by
    by_cases hx : x = 0
    · rw [hx, abs_zero, Int.log_zero_right]
      omega
    · have : Int.log 2 |x| < (e : Int) :=
        (Int.lt_zpow_iff_log_lt (by norm_num) (abs_pos.mpr hx)).mp
          (by rw [zpow_natCast]; exact_mod_cast h)
      omega
  rw [big.ulp_eq]
  have hp : (0 : ℚ) < (2 : ℚ) ^ prec := pow_pos (by norm_num) _
  apply div_le_div_of_nonneg_right _ (le_of_lt hp)
  have h2 : (2 : ℚ) ^ Int.log 2 |x| * 2 = (2 : ℚ) ^ (Int.log 2 |x| + 1) := by
    rw [zpow_add₀ (by norm_num), zpow_one]
  rw [h2, ← zpow_natCast]
  exact zpow_le_zpow_right₀ (by norm_num) hL

theorem fp_NewFromInt_currency (a precision : Int) (currency : String) :
    (fp.NewFromInt a precision currency).currency = currency := by
  unfold fp.NewFromInt
  split_ifs <;> rfl

theorem fp_payable_of_not_miles (p : fp.Price) (h1 : toLower p.currency ≠ "miles")
    (h2 : toLower p.currency ≠ "points") :
    p.payableRoundingPrecision = (RoundingModeHalfUp, 100) := by
  unfold fp.Price.payableRoundingPrecision
  rw [if_neg (by rintro (h | h); exact h1 h; exact h2 h)]

/-- The check digit of a price of `n` minor units: the scaled float64
values are `n` and at most `10 n + 4`. -/
theorem fp_scaled10_NewFromInt (n : Int) (currency : String) (hn : 0 ≤ n)
    (hb : n * 10 < 2 ^ 56) :
    0 ≤ fp.scaled10 (fp.NewFromInt n 100 currency) 100 ∧
      ⌊fp.scaled10 (fp.NewFromInt n 100 currency) 100⌋ ≤ n * 10 + 4 := by
  have hnq : (0 : ℚ) ≤ (n : ℚ) := by exact_mod_cast hn
  have hbq : (n : ℚ) * 10 ≤ 2 ^ 56 - 1 := by
    have : n * 10 ≤ 2 ^ 56 - 1 := by omega
    exact_mod_cast this
  have hval : 0 ≤ (fp.NewFromInt n 100 currency).amount.val := by
    rw [fp_NewFromInt_of_ne_zero _ _ _ (by decide)]
    exact big.round_nonneg _ _ (div_nonneg hnq (by norm_num [big.SetInt64]))
  refine ⟨(fp_scaled_nonneg _ 100 hval (by decide)).2, ?_⟩
  have h1000 : big.round 64 (((100 : Int) : ℚ) * ((10 : Int) : ℚ)) = 1000 := by
    have := big.round_intCast 64 1000 (by norm_num)
    norm_num at this ⊢
    exact this
  have hclose := scaled_back_close n 100 1000 (by norm_num)
  have e : (n : ℚ) / ((100 : Int) : ℚ) * 1000 = (n : ℚ) * 10 := by
    push_cast
    ring
  rw [e, abs_of_nonneg (by positivity : (0 : ℚ) ≤ (n : ℚ) * 10)] at hclose
  rw [abs_le] at hclose
  set z : ℚ := big.round 64 (big.round 64 ((n : ℚ) / ((100 : Int) : ℚ)) * 1000) with hz
  have hzlt : |z| < (2 : ℚ) ^ 56 := by
    rw [abs_lt]
    norm_num at hclose hbq ⊢
    constructor <;> linarith
  have hulp := ulp_le_of_lt 53 z 56 hzlt (by norm_num)
  have herr := big.round_sub_le_ulp 53 z
  rw [abs_le] at herr
  have hS : fp.scaled10 (fp.NewFromInt n 100 currency) 100 = big.round 53 z := by
    rw [fp_NewFromInt_of_ne_zero _ _ _ (by decide)]
    unfold fp.scaled10 big.Float.Float64 big.Float.Mul big.Float.Quo big.SetInt64
    simp only [Nat.max_self, h1000]
  rw [hS]
  have hlt : big.round 53 z < ((n * 10 + 4 + 1 : Int) : ℚ) := by
    push_cast
    norm_num at hclose hulp hbq ⊢
    linarith
  have := Int.floor_lt.mpr hlt
  omega

/-- A price of `n` minor units of hundredths, `n` not negative and `10 n`
below `2 ^ 56`, is its own payable price. -/
theorem fp_GetPayable_NewFromInt (n : Int) (currency : String) (hn : 0 ≤ n)
    (hb : n * 10 < 2 ^ 56) (h1 : toLower currency ≠ "miles")
    (h2 : toLower currency ≠ "points") :
    (fp.NewFromInt n 100 currency).GetPayable = fp.NewFromInt n 100 currency := by
  have hnq : (0 : ℚ) ≤ (n : ℚ) := by exact_mod_cast hn
  have hcur := fp_NewFromInt_currency n 100 currency
  have hmode := fp_payable_of_not_miles (fp.NewFromInt n 100 currency)
    (by rw [hcur]; exact h1) (by rw [hcur]; exact h2)
  have hval : 0 ≤ (fp.NewFromInt n 100 currency).amount.val := by
    rw [fp_NewFromInt_of_ne_zero _ _ _ (by decide)]
    exact big.round_nonneg _ _ (div_nonneg hnq (by norm_num [big.SetInt64]))
  have hk : |(n : ℚ)| ≤ 2 ^ 53 := by
    rw [abs_of_nonneg hnq]
    have : n ≤ 2 ^ 53 := by omega
    exact_mod_cast this
  have hs := fp_scaled_NewFromInt n 100 currency (by decide) hk
  obtain ⟨hs10, hfl⟩ := fp_scaled10_NewFromInt n currency hn hb
  have hfl0 : 0 ≤ ⌊fp.scaled10 (fp.NewFromInt n 100 currency) 100⌋ := Int.floor_nonneg.mpr hs10
  have hr : fp.InRange (fp.NewFromInt n 100 currency) 100 := by
    unfold fp.InRange
    rw [hs, truncate_intCast, truncate_nonneg _ hs10]
    unfold minInt64 maxInt64
    refine ⟨by omega, by omega, by omega, by omega⟩
  unfold fp.Price.GetPayable
  rw [hmode]
  simp only []
  rw [fp_GetPayableByRoundingMode_nonneg _ _ 100 hval (by decide) hr, hs, Int.floor_intCast,
    hcur, if_neg]
  simp only [RoundingModeHalfUp, RoundingModeCeil, RoundingModeHalfDown]
  rintro (⟨h, _⟩ | ⟨_, h⟩ | ⟨h, _⟩)
  · exact absurd h (by decide)
  · omega
  · exact absurd h (by decide)

namespace big

end big

namespace big

end big

/-! ## Sums at the precision of `math/big` -/

theorem fp_SumAll_loop_same_currency (c : String) (l : List fp.Price) :
    ∀ acc : fp.Price, acc.currency = c → (∀ x ∈ l, x.currency = c) →
      (fp.SumAll.loop acc l).2 = none ∧ (fp.SumAll.loop acc l).1.currency = c := by
  induction l with
  | nil =>
    intro acc hacc _
    exact ⟨rfl, hacc⟩
  | cons x xs ih =>
    intro acc hacc hl
    have hx : x.currency = c := hl x (List.mem_cons_self _ _)
    rw [fp.SumAll.loop, fp_Add_same acc x (hacc.trans hx.symm)]
    exact ih _ hx (fun y hy => hl y (List.mem_cons_of_mem _ hy))

/-- A sum of amounts on one binary grid whose magnitudes fit the mantissa:
no addition of the loop rounds. -/
theorem fp_SumAll_loop_grid (k : Int) (P : Nat) (c : String) (l : List fp.Price) :
    ∀ acc : fp.Price, acc.currency = c → P ≤ acc.amount.prec →
      (∃ j : Int, acc.amount.val = (j : ℚ) * (2 : ℚ) ^ k) →
      (∀ x ∈ l, x.currency = c ∧ P ≤ x.amount.prec ∧
        ∃ j : Int, x.amount.val = (j : ℚ) * (2 : ℚ) ^ k) →
      |acc.amount.val| + (l.map (fun x => |x.amount.val|)).sum < (2 : ℚ) ^ (k + (P : Int)) →
      (fp.SumAll.loop acc l).1.amount.val =
        acc.amount.val + (l.map (fun x => x.amount.val)).sum := by
  induction l with
  | nil =>
    intro acc _ _ _ _ _
    simp [fp.SumAll.loop]
  | cons x xs ih =>
    intro acc hacc hprec hgrid hl hsum
    obtain ⟨hxc, hxp, jx, hjx⟩ := hl x (List.mem_cons_self _ _)
    obtain ⟨ja, hja⟩ := hgrid
    rw [List.map_cons, List.sum_cons] at hsum
    have hrest0 : 0 ≤ (xs.map (fun x => |x.amount.val|)).sum :=
      List.sum_nonneg (by
        intro y hy
        obtain ⟨z, _, rfl⟩ := List.mem_map.mp hy
        exact abs_nonneg _)
    have hs : acc.amount.val + x.amount.val = ((ja + jx : Int) : ℚ) * (2 : ℚ) ^ k := by
      rw [hja, hjx]
      push_cast
      ring
    have hslt : |acc.amount.val + x.amount.val| <
        (2 : ℚ) ^ (k + ((max acc.amount.prec x.amount.prec : Nat) : Int)) := by
      have h1 := abs_add acc.amount.val x.amount.val
      have h2 : (2 : ℚ) ^ (k + (P : Int)) ≤
          (2 : ℚ) ^ (k + ((max acc.amount.prec x.amount.prec : Nat) : Int)) :=
        zpow_le_zpow_right₀ (by norm_num) (by
          have : P ≤ max acc.amount.prec x.amount.prec := le_trans hprec (le_max_left _ _)
          omega)
      linarith
    have hexact := big.round_of_grid _ _ _ k hs hslt
    have hval : (acc.amount.Add x.amount).val = acc.amount.val + x.amount.val := hexact
    have hih := ih { amount := acc.amount.Add x.amount, currency := x.currency } hxc
      (le_trans hprec (le_max_left _ _)) ⟨ja + jx, by rw [hval, hs]⟩
      (fun y hy => hl y (List.mem_cons_of_mem _ hy)) (by
        simp only [hval]
        have h1 := abs_add acc.amount.val x.amount.val
        linarith)
    rw [fp.SumAll.loop, fp_Add_same acc x (hacc.trans hxc.symm)]
    simp only []
    rw [hih]
    simp only [hval]
    rw [List.map_cons, List.sum_cons]
    ring

theorem fp_SumAll_grid (k : Int) (P : Nat) (c : String) (l : List fp.Price)
    (hl : ∀ x ∈ l, x.currency = c ∧ P ≤ x.amount.prec ∧
      ∃ j : Int, x.amount.val = (j : ℚ) * (2 : ℚ) ^ k)
    (hsum : (l.map (fun x => |x.amount.val|)).sum < (2 : ℚ) ^ (k + (P : Int))) :
    (fp.SumAll l).1.amount.val = (l.map (fun x => x.amount.val)).sum := by
  cases l with
  | nil => simp [fp.SumAll, fp.NewZero, big.SetInt64]
  | cons x xs =>
    obtain ⟨hxc, hxp, hxg⟩ := hl x (List.mem_cons_self _ _)
    rw [List.map_cons, List.sum_cons] at hsum
    have := fp_SumAll_loop_grid k P c xs x.Clone hxc hxp hxg
      (fun y hy => hl y (List.mem_cons_of_mem _ hy)) hsum
    rw [fp.SumAll, this, List.map_cons, List.sum_cons]
    rfl

theorem fp_SumAll_same_currency (c : String) (l : List fp.Price) (hne : l ≠ [])
    (hl : ∀ x ∈ l, x.currency = c) :
    (fp.SumAll l).2 = none ∧ (fp.SumAll l).1.currency = c := by
  cases l with
  | nil => exact absurd rfl hne
  | cons x xs =>
    exact fp_SumAll_loop_same_currency c xs x.Clone (hl x (List.mem_cons_self _ _))
      (fun y hy => hl y (List.mem_cons_of_mem _ hy))

/-! ## C3: Add and Sub at the precision of the amounts -/

/-- C3, the counterexample: 0.1 EUR plus 0.2 EUR minus 0.2 EUR, the three
amounts float64 values, is 0.10000000000000003 EUR: both operations succeed
and the result is not Equal to 0.1 EUR. -/
theorem add_sub_rounds_sum :
    ((fp.NewFromFloat (float64 (1 / 10)) "EUR").Add
        (fp.NewFromFloat (float64 (2 / 10)) "EUR")).2 = none ∧
      (((fp.NewFromFloat (float64 (1 / 10)) "EUR").Add
        (fp.NewFromFloat (float64 (2 / 10)) "EUR")).1.Sub
        (fp.NewFromFloat (float64 (2 / 10)) "EUR")).2 = none ∧
      (((fp.NewFromFloat (float64 (1 / 10)) "EUR").Add
        (fp.NewFromFloat (float64 (2 / 10)) "EUR")).1.Sub
        (fp.NewFromFloat (float64 (2 / 10)) "EUR")).1.Equal
        (fp.NewFromFloat (float64 (1 / 10)) "EUR") = false := by
  have h1 : float64 (1 / 10) = 3602879701896397 / 36028797018963968 :=
    big.round_eval 53 _ _ (-4) 7205759403792794 (by norm_num [abs_of_pos])
      (by norm_num [abs_of_pos]) (by norm_num [abs_of_pos]) (by norm_num)
  have h2 : float64 (2 / 10) = 3602879701896397 / 18014398509481984 :=
    big.round_eval 53 _ _ (-3) 7205759403792794 (by norm_num [abs_of_pos])
      (by norm_num [abs_of_pos]) (by norm_num [abs_of_pos]) (by norm_num)
  have h3 : big.round 53 (3602879701896397 / 36028797018963968 +
      3602879701896397 / 18014398509481984) = 1351079888211149 / 4503599627370496 :=
    big.round_eval_tie 53 _ _ (-2) 5404319552844595 (by norm_num [abs_of_pos])
      (by norm_num [abs_of_pos]) (by norm_num) (by norm_num)
  have h4 : big.round 53 (1351079888211149 / 4503599627370496 -
      3602879701896397 / 18014398509481984) = 1801439850948199 / 18014398509481984 :=
    big.round_eval 53 _ _ (-4) 7205759403792796 (by norm_num [abs_of_pos])
      (by norm_num [abs_of_pos]) (by norm_num [abs_of_pos]) (by norm_num)
  have hadd : (fp.NewFromFloat (3602879701896397 / 36028797018963968) "EUR").Add
      (fp.NewFromFloat (3602879701896397 / 18014398509481984) "EUR") =
      (fp.Price.mk (big.Float.mk 53 (1351079888211149 / 4503599627370496)) "EUR", none) := by
    rw [fp_Add_same _ _ (by rfl)]
    simp only [fp.NewFromFloat, big.NewFloat, big.Float.Add, Nat.max_self, h3]
  have hsub : (fp.Price.mk (big.Float.mk 53 (1351079888211149 / 4503599627370496)) "EUR").Sub
      (fp.NewFromFloat (3602879701896397 / 18014398509481984) "EUR") =
      (fp.Price.mk (big.Float.mk 53 (1801439850948199 / 18014398509481984)) "EUR", none) := by
    rw [fp_Sub_same _ _ (by rfl)]
    simp only [fp.NewFromFloat, big.NewFloat, big.Float.Sub, Nat.max_self, h4]
  rw [h1, h2, hadd, hsub]
  refine ⟨rfl, rfl, ?_⟩
  rw [Bool.eq_false_iff, ne_eq, fp_Equal_iff]
  norm_num [fp.NewFromFloat, big.NewFloat]

/-- C3, amended: for two Prices of the same currency Add succeeds, and Sub
of the second Price from the sum succeeds with a Price of that currency; the
final Price is Equal to the first one whenever the sum of the two amounts is a
value of the larger mantissa precision of the two amounts, so that Add does
not round. -/
theorem add_sub_exact_when_sum_fits (p q : fp.Price) (hc : p.currency = q.currency) :
    (p.Add q).2 = none ∧ ((p.Add q).1.Sub q).2 = none ∧
      ((p.Add q).1.Sub q).1.currency = p.currency ∧
      (p.amount.Valid →
        big.round (max p.amount.prec q.amount.prec) (p.amount.val + q.amount.val) =
          p.amount.val + q.amount.val →
        ((p.Add q).1.Sub q).1.Equal p = true) := by
  have hadd := fp_Add_same p q hc
  have hsub := fp_Sub_same { amount := p.amount.Add q.amount, currency := q.currency } q rfl
  rw [hadd]
  simp only []
  rw [hsub]
  refine ⟨trivial, rfl, hc.symm, fun hv hexact => ?_⟩
  rw [fp_Equal_iff]
  refine ⟨hc.symm, ?_⟩
  show big.round _ (big.round _ (p.amount.val + q.amount.val) - q.amount.val) = p.amount.val
  rw [hexact, add_sub_cancel_right]
  exact big.round_of_le _ _ _ hv (le_trans (le_max_left _ _) (le_max_left _ _))

theorem add_sub_exact_when_sum_fits_witness :
    (fp.NewFromFloat (5 / 2) "EUR").currency = (fp.NewFromFloat 7 "EUR").currency ∧
      (fp.NewFromFloat (5 / 2) "EUR").amount.Valid ∧
      (((fp.NewFromFloat (5 / 2) "EUR").Add (fp.NewFromFloat 7 "EUR")).1.Sub
        (fp.NewFromFloat 7 "EUR")).1.Equal (fp.NewFromFloat (5 / 2) "EUR") = true := by
  have f0 : big.round 53 (5 / 2) = 5 / 2 :=
    big.round_eval 53 _ _ (1) (5629499534213120) (by norm_num [le_abs])
      (by norm_num [abs_lt]) (by norm_num [abs_lt]) (by norm_num)
  have f1 : big.round 53 (19 / 2) = 19 / 2 :=
    big.round_eval 53 _ _ (3) (5348024557502464) (by norm_num [le_abs])
      (by norm_num [abs_lt]) (by norm_num [abs_lt]) (by norm_num)
  have hv : (fp.NewFromFloat (5 / 2) "EUR").amount.Valid := by
    norm_num [big.Float.Valid, fp.NewFromFloat, big.NewFloat, f0]
  exact ⟨rfl, hv,
    (add_sub_exact_when_sum_fits (fp.NewFromFloat (5 / 2) "EUR") (fp.NewFromFloat 7 "EUR")
      rfl).2.2.2 hv (by norm_num [fp.NewFromFloat, big.NewFloat, f1])⟩

/-! ## C10: the parts of a split -/

/-- C12, the counterexample: the float64 -0.03 lies above -0.03, so that
`amount * 100` truncates to -2; at the precision 100 HalfUp returns the Price
of -3 hundredths and Floor the Price of -4 hundredths, whose amounts are not
-0.02 and -0.03. -/
theorem negative_float64_rounds_past_truncation :
    (fp.NewFromFloat (float64 (-3 / 100)) "EUR").amount.val < 0 ∧
      fp.InRange (fp.NewFromFloat (float64 (-3 / 100)) "EUR") 100 ∧
      truncate ((fp.NewFromFloat (float64 (-3 / 100)) "EUR").amount.val * 100) = -2 ∧
      (fp.NewFromFloat (float64 (-3 / 100)) "EUR").GetPayableByRoundingMode
        RoundingModeHalfUp 100 = fp.NewFromInt (-3) 100 "EUR" ∧
      (fp.NewFromFloat (float64 (-3 / 100)) "EUR").GetPayableByRoundingMode
        RoundingModeFloor 100 = fp.NewFromInt (-4) 100 "EUR" ∧
      (fp.NewFromInt (-3) 100 "EUR").amount.val ≠ -2 / 100 ∧
      (fp.NewFromInt (-4) 100 "EUR").amount.val ≠ (-2 - 1) / 100 := by
  have f0 : big.round 53 (-(3 / 100)) = -(1080863910568919 / 36028797018963968) :=
    big.round_eval 53 _ _ (-6) (-8646911284551352) (by norm_num [le_abs])
      (by norm_num [abs_lt]) (by norm_num [abs_lt]) (by norm_num)
  have hp : float64 (-3 / 100) = -(1080863910568919 / 36028797018963968) := by norm_num [float64,
      f0]
  have f1 : big.round 64 (-(27021597764222975 / 9007199254740992)) =
      -(27021597764222975 / 9007199254740992) :=
    big.round_eval 64 _ _ (1) (-13835058055282163200) (by norm_num [le_abs])
      (by norm_num [abs_lt]) (by norm_num [abs_lt]) (by norm_num)
  have f2 : big.round 53 (-(27021597764222975 / 9007199254740992)) = -3 :=
    big.round_eval 53 _ _ (1) (-6755399441055744) (by norm_num [le_abs])
      (by norm_num [abs_lt]) (by norm_num [abs_lt]) (by norm_num)
  have f3 : big.round 64 1000 = 1000 :=
    big.round_eval 64 _ _ (9) (18014398509481984000) (by norm_num [le_abs])
      (by norm_num [abs_lt]) (by norm_num [abs_lt]) (by norm_num)
  have f4 : big.round 64 (-(135107988821114875 / 4503599627370496)) =
      -(135107988821114875 / 4503599627370496) :=
    big.round_eval 64 _ _ (4) (-17293822569102704000) (by norm_num [le_abs])
      (by norm_num [abs_lt]) (by norm_num [abs_lt]) (by norm_num)
  have f5 : big.round 53 (-(135107988821114875 / 4503599627370496)) = -30 :=
    big.round_eval 53 _ _ (4) (-8444249301319680) (by norm_num [le_abs])
      (by norm_num [abs_lt]) (by norm_num [abs_lt]) (by norm_num)
  have hs : fp.scaled (fp.NewFromFloat (-(1080863910568919 / 36028797018963968)) "EUR") 100 =
      -3 := by
    norm_num [fp.scaled, fp.scaled10, fp.NewFromFloat, fp.NewFromInt, big.NewFloat, big.Float.Mul,
        big.Float.Quo, big.SetInt64, big.Float.Float64, f0, f1, f2, f3, f4, f5]
  have hs10 : fp.scaled10 (fp.NewFromFloat (-(1080863910568919 / 36028797018963968)) "EUR") 100 =
      -30 := by
    norm_num [fp.scaled, fp.scaled10, fp.NewFromFloat, fp.NewFromInt, big.NewFloat, big.Float.Mul,
        big.Float.Quo, big.SetInt64, big.Float.Float64, f0, f1, f2, f3, f4, f5]
  have hr : fp.InRange (fp.NewFromFloat (-(1080863910568919 / 36028797018963968)) "EUR") 100 := by
    unfold fp.InRange
    rw [hs, hs10]
    norm_num [truncate, minInt64, maxInt64]
  have f6 : big.round 64 (-(3 / 100)) = -(17708874310761169551 / 590295810358705651712) :=
    big.round_eval 64 _ _ (-6) (-17708874310761169551) (by norm_num [le_abs])
      (by norm_num [abs_lt]) (by norm_num [abs_lt]) (by norm_num)
  have f7 : big.round 64 (-(1 / 25)) = -(5902958103587056517 / 147573952589676412928) :=
    big.round_eval 64 _ _ (-5) (-11805916207174113034) (by norm_num [le_abs])
      (by norm_num [abs_lt]) (by norm_num [abs_lt]) (by norm_num)
  rw [hp]
  refine ⟨by norm_num [fp.NewFromFloat, big.NewFloat], hr,
    by norm_num [fp.NewFromFloat, big.NewFloat, truncate], ?_, ?_, ?_, ?_⟩
  · rw [fp_GetPayableByRoundingMode_neg _ _ 100
      (by norm_num [fp.NewFromFloat, big.NewFloat]) (by decide) hr, hs]
    norm_num [RoundingModeHalfUp, RoundingModeCeil, RoundingModeHalfDown, RoundingModeFloor,
        fp.NewFromFloat, truncate]
    simp
  · rw [fp_GetPayableByRoundingMode_neg _ _ 100
      (by norm_num [fp.NewFromFloat, big.NewFloat]) (by decide) hr, hs]
    norm_num [RoundingModeHalfUp, RoundingModeCeil, RoundingModeHalfDown, RoundingModeFloor,
        fp.NewFromFloat, truncate]
  · norm_num [fp.scaled, fp.scaled10, fp.NewFromFloat, fp.NewFromInt, big.NewFloat, big.Float.Mul,
      big.Float.Quo, big.SetInt64, big.Float.Float64, f0, f1, f2, f3, f4, f5, f6, f7]
  · norm_num [fp.scaled, fp.scaled10, fp.NewFromFloat, fp.NewFromInt, big.NewFloat, big.Float.Mul,
      big.Float.Quo, big.SetInt64, big.Float.Float64, f0, f1, f2, f3, f4, f5, f6, f7]

/-- C12, amended: a negative amount in range is rounded under every mode
but Floor (Ceil, HalfUp, HalfDown and any unrecognized mode) to the Price of
`t` minor units, `NewFromInt(t, precision, currency)`, and under Floor to the
Price of `t - 1` minor units, where `t` is the truncation toward zero of the
float64 nearest to `amount * precision`, the product taken at the mantissa
precision of the amount, 64 bits at least. -/
theorem negative_amount_rounds_by_float64 (p : fp.Price) (precision : Int)
    (ha : p.amount.val < 0) (hP : 0 < precision) (hr : fp.InRange p precision) :
    (∀ mode, mode ≠ RoundingModeFloor →
        p.GetPayableByRoundingMode mode precision =
          fp.NewFromInt (truncate (fp.scaled p precision)) precision p.currency) ∧
      p.GetPayableByRoundingMode RoundingModeFloor precision =
        fp.NewFromInt (truncate (fp.scaled p precision) - 1) precision p.currency := by
  constructor
  · intro mode hmode
    rw [fp_GetPayableByRoundingMode_neg p mode precision ha hP hr, if_neg hmode]
  · rw [fp_GetPayableByRoundingMode_neg p _ precision ha hP hr, if_pos rfl]

theorem negative_amount_rounds_by_float64_witness :
    (fp.NewFromFloat (float64 (-7 / 10)) "EUR").amount.val < 0 ∧
      fp.InRange (fp.NewFromFloat (float64 (-7 / 10)) "EUR") 100 ∧
      (fp.NewFromFloat (float64 (-7 / 10)) "EUR").GetPayableByRoundingMode
        RoundingModeHalfUp 100 = fp.NewFromInt (-70) 100 "EUR" ∧
      (fp.NewFromFloat (float64 (-7 / 10)) "EUR").GetPayableByRoundingMode
        RoundingModeFloor 100 = fp.NewFromInt (-71) 100 "EUR" := by
  have f0 : big.round 53 (-(7 / 10)) = -(3152519739159347 / 4503599627370496) :=
    big.round_eval 53 _ _ (-1) (-6305039478318694) (by norm_num [le_abs])
      (by norm_num [abs_lt]) (by norm_num [abs_lt]) (by norm_num)
  have hp : float64 (-7 / 10) = -(3152519739159347 / 4503599627370496) := by norm_num [float64, f0]
  have f1 : big.round 64 (-(78812993478983675 / 1125899906842624)) =
      -(78812993478983675 / 1125899906842624) :=
    big.round_eval 64 _ _ (6) (-10088063165309910400) (by norm_num [le_abs])
      (by norm_num [abs_lt]) (by norm_num [abs_lt]) (by norm_num)
  have f2 : big.round 53 (-(78812993478983675 / 1125899906842624)) = -70 :=
    big.round_eval 53 _ _ (6) (-4925812092436480) (by norm_num [le_abs])
      (by norm_num [abs_lt]) (by norm_num [abs_lt]) (by norm_num)
  have f3 : big.round 64 1000 = 1000 :=
    big.round_eval 64 _ _ (9) (18014398509481984000) (by norm_num [le_abs])
      (by norm_num [abs_lt]) (by norm_num [abs_lt]) (by norm_num)
  have f4 : big.round 64 (-(394064967394918375 / 562949953421312)) =
      -(394064967394918375 / 562949953421312) :=
    big.round_eval 64 _ _ (9) (-12610078956637388000) (by norm_num [le_abs])
      (by norm_num [abs_lt]) (by norm_num [abs_lt]) (by norm_num)
  have f5 : big.round 53 (-(394064967394918375 / 562949953421312)) = -700 :=
    big.round_eval 53 _ _ (9) (-6157265115545600) (by norm_num [le_abs])
      (by norm_num [abs_lt]) (by norm_num [abs_lt]) (by norm_num)
  have hs : fp.scaled (fp.NewFromFloat (-(3152519739159347 / 4503599627370496)) "EUR") 100 =
      -70 := by
    norm_num [fp.scaled, fp.scaled10, fp.NewFromFloat, fp.NewFromInt, big.NewFloat, big.Float.Mul,
        big.Float.Quo, big.SetInt64, big.Float.Float64, f0, f1, f2, f3, f4, f5]
  have hs10 : fp.scaled10 (fp.NewFromFloat (-(3152519739159347 / 4503599627370496)) "EUR") 100 =
      -700 := by
    norm_num [fp.scaled, fp.scaled10, fp.NewFromFloat, fp.NewFromInt, big.NewFloat, big.Float.Mul,
        big.Float.Quo, big.SetInt64, big.Float.Float64, f0, f1, f2, f3, f4, f5]
  have hr : fp.InRange (fp.NewFromFloat (-(3152519739159347 / 4503599627370496)) "EUR") 100 := by
    unfold fp.InRange
    rw [hs, hs10]
    norm_num [truncate, minInt64, maxInt64]
  rw [hp]
  have ha : (fp.NewFromFloat (-(3152519739159347 / 4503599627370496)) "EUR").amount.val <
      0 := by norm_num [fp.NewFromFloat, big.NewFloat]
  have h := negative_amount_rounds_by_float64 _ 100 ha (by decide) hr
  rw [hs] at h
  refine ⟨ha, hr, ?_, ?_⟩
  · have h1 := h.1 RoundingModeHalfUp (by decide)
    rw [h1]
    norm_num [fp.NewFromFloat, truncate]
  · rw [h.2]
    norm_num [fp.NewFromFloat, truncate]

/-! ## C13: the documented rounding examples -/

/-- C13: the documented examples, the amounts float64 values: 1.115 EUR
gives the Price of 112 hundredths under HalfUp and of 111 hundredths under
Floor, -1.115 EUR gives the Price of -111 hundredths under HalfUp and of -112
hundredths under Floor, at the precision 100; the float64 amounts of the four
results are 1.12, 1.11, -1.11 and -1.12. -/
theorem documented_examples_float64 :
    (fp.NewFromFloat (float64 (1115 / 1000)) "EUR").GetPayableByRoundingMode
        RoundingModeHalfUp 100 = fp.NewFromInt 112 100 "EUR" ∧
      (fp.NewFromFloat (float64 (1115 / 1000)) "EUR").GetPayableByRoundingMode
        RoundingModeFloor 100 = fp.NewFromInt 111 100 "EUR" ∧
      (fp.NewFromFloat (float64 (-1115 / 1000)) "EUR").GetPayableByRoundingMode
        RoundingModeHalfUp 100 = fp.NewFromInt (-111) 100 "EUR" ∧
      (fp.NewFromFloat (float64 (-1115 / 1000)) "EUR").GetPayableByRoundingMode
        RoundingModeFloor 100 = fp.NewFromInt (-112) 100 "EUR" ∧
      (fp.NewFromInt 112 100 "EUR").FloatAmount = float64 (112 / 100) ∧
      (fp.NewFromInt 111 100 "EUR").FloatAmount = float64 (111 / 100) ∧
      (fp.NewFromInt (-111) 100 "EUR").FloatAmount = float64 (-111 / 100) ∧
      (fp.NewFromInt (-112) 100 "EUR").FloatAmount = float64 (-112 / 100) := by
  have f0 : big.round 53 (223 / 200) = 5021513584518103 / 4503599627370496 :=
    big.round_eval 53 _ _ (0) (5021513584518103) (by norm_num [le_abs])
      (by norm_num [abs_lt]) (by norm_num [abs_lt]) (by norm_num)
  have f1 : big.round 53 (-(223 / 200)) = -(5021513584518103 / 4503599627370496) :=
    big.round_eval 53 _ _ (0) (-5021513584518103) (by norm_num [le_abs])
      (by norm_num [abs_lt]) (by norm_num [abs_lt]) (by norm_num)
  have hp : float64 (1115 / 1000) = 5021513584518103 / 4503599627370496 := by norm_num [float64, f0]
  have hn : float64 (-1115 / 1000) = -(5021513584518103 / 4503599627370496) := by norm_num [float64,
      f1]
  have f2 : big.round 64 (125537839612952575 / 1125899906842624) =
      125537839612952575 / 1125899906842624 :=
    big.round_eval 64 _ _ (6) (16068843470457929600) (by norm_num [le_abs])
      (by norm_num [abs_lt]) (by norm_num [abs_lt]) (by norm_num)
  have f3 : big.round 53 (125537839612952575 / 1125899906842624) = 223 / 2 :=
    big.round_eval 53 _ _ (6) (7846114975809536) (by norm_num [le_abs])
      (by norm_num [abs_lt]) (by norm_num [abs_lt]) (by norm_num)
  have f4 : big.round 64 1000 = 1000 :=
    big.round_eval 64 _ _ (9) (18014398509481984000) (by norm_num [le_abs])
      (by norm_num [abs_lt]) (by norm_num [abs_lt]) (by norm_num)
  have f5 : big.round 64 (627689198064762875 / 562949953421312) =
      627689198064762875 / 562949953421312 :=
    big.round_eval 64 _ _ (10) (10043027169036206000) (by norm_num [le_abs])
      (by norm_num [abs_lt]) (by norm_num [abs_lt]) (by norm_num)
  have f6 : big.round 53 (627689198064762875 / 562949953421312) = 1115 :=
    big.round_eval 53 _ _ (10) (4903821859880960) (by norm_num [le_abs])
      (by norm_num [abs_lt]) (by norm_num [abs_lt]) (by norm_num)
  have hsp : fp.scaled (fp.NewFromFloat (5021513584518103 / 4503599627370496) "EUR") 100 =
      223 / 2 := by
    norm_num [fp.scaled, fp.scaled10, fp.NewFromFloat, fp.NewFromInt, big.NewFloat, big.Float.Mul,
        big.Float.Quo, big.SetInt64, big.Float.Float64, f0, f1, f2, f3, f4, f5, f6]
  have hs10p : fp.scaled10 (fp.NewFromFloat (5021513584518103 / 4503599627370496) "EUR") 100 =
      1115 := by
    norm_num [fp.scaled, fp.scaled10, fp.NewFromFloat, fp.NewFromInt, big.NewFloat, big.Float.Mul,
        big.Float.Quo, big.SetInt64, big.Float.Float64, f0, f1, f2, f3, f4, f5, f6]
  have hrp : fp.InRange (fp.NewFromFloat (5021513584518103 / 4503599627370496) "EUR") 100 := by
    unfold fp.InRange
    rw [hsp, hs10p]
    norm_num [truncate, minInt64, maxInt64]
  have f7 : big.round 64 (-(125537839612952575 / 1125899906842624)) =
      -(125537839612952575 / 1125899906842624) :=
    big.round_eval 64 _ _ (6) (-16068843470457929600) (by norm_num [le_abs])
      (by norm_num [abs_lt]) (by norm_num [abs_lt]) (by norm_num)
  have f8 : big.round 53 (-(125537839612952575 / 1125899906842624)) = -(223 / 2) :=
    big.round_eval 53 _ _ (6) (-7846114975809536) (by norm_num [le_abs])
      (by norm_num [abs_lt]) (by norm_num [abs_lt]) (by norm_num)
  have f9 : big.round 64 (-(627689198064762875 / 562949953421312)) =
      -(627689198064762875 / 562949953421312) :=
    big.round_eval 64 _ _ (10) (-10043027169036206000) (by norm_num [le_abs])
      (by norm_num [abs_lt]) (by norm_num [abs_lt]) (by norm_num)
  have f10 : big.round 53 (-(627689198064762875 / 562949953421312)) = -1115 :=
    big.round_eval 53 _ _ (10) (-4903821859880960) (by norm_num [le_abs])
      (by norm_num [abs_lt]) (by norm_num [abs_lt]) (by norm_num)
  have hsn : fp.scaled (fp.NewFromFloat (-(5021513584518103 / 4503599627370496)) "EUR") 100 =
      -(223 / 2) := by
    norm_num [fp.scaled, fp.scaled10, fp.NewFromFloat, fp.NewFromInt, big.NewFloat, big.Float.Mul,
        big.Float.Quo, big.SetInt64, big.Float.Float64, f0, f1, f2, f3, f4, f5, f6, f7, f8, f9, f10]
  have hs10n : fp.scaled10 (fp.NewFromFloat (-(5021513584518103 / 4503599627370496)) "EUR") 100 =
      -1115 := by
    norm_num [fp.scaled, fp.scaled10, fp.NewFromFloat, fp.NewFromInt, big.NewFloat, big.Float.Mul,
        big.Float.Quo, big.SetInt64, big.Float.Float64, f0, f1, f2, f3, f4, f5, f6, f7, f8, f9, f10]
  have hrn : fp.InRange (fp.NewFromFloat (-(5021513584518103 / 4503599627370496)) "EUR") 100 := by
    unfold fp.InRange
    rw [hsn, hs10n]
    norm_num [truncate, minInt64, maxInt64]
  have f11 : big.round 64 (28 / 25) = 10330176681277348905 / 9223372036854775808 :=
    big.round_eval 64 _ _ (0) (10330176681277348905) (by norm_num [le_abs])
      (by norm_num [abs_lt]) (by norm_num [abs_lt]) (by norm_num)
  have f12 : big.round 53 (10330176681277348905 / 9223372036854775808) =
      1261007895663739 / 1125899906842624 :=
    big.round_eval 53 _ _ (0) (5044031582654956) (by norm_num [le_abs])
      (by norm_num [abs_lt]) (by norm_num [abs_lt]) (by norm_num)
  have f13 : big.round 53 (28 / 25) = 1261007895663739 / 1125899906842624 :=
    big.round_eval 53 _ _ (0) (5044031582654956) (by norm_num [le_abs])
      (by norm_num [abs_lt]) (by norm_num [abs_lt]) (by norm_num)
  have f14 : big.round 64 (111 / 100) = 10237942960908801147 / 9223372036854775808 :=
    big.round_eval 64 _ _ (0) (10237942960908801147) (by norm_num [le_abs])
      (by norm_num [abs_lt]) (by norm_num [abs_lt]) (by norm_num)
  have f15 : big.round 53 (10237942960908801147 / 9223372036854775808) =
      4998995586381251 / 4503599627370496 :=
    big.round_eval 53 _ _ (0) (4998995586381251) (by norm_num [le_abs])
      (by norm_num [abs_lt]) (by norm_num [abs_lt]) (by norm_num)
  have f16 : big.round 53 (111 / 100) = 4998995586381251 / 4503599627370496 :=
    big.round_eval 53 _ _ (0) (4998995586381251) (by norm_num [le_abs])
      (by norm_num [abs_lt]) (by norm_num [abs_lt]) (by norm_num)
  have f17 : big.round 64 (-(111 / 100)) = -(10237942960908801147 / 9223372036854775808) :=
    big.round_eval 64 _ _ (0) (-10237942960908801147) (by norm_num [le_abs])
      (by norm_num [abs_lt]) (by norm_num [abs_lt]) (by norm_num)
  have f18 : big.round 53 (-(10237942960908801147 / 9223372036854775808)) =
      -(4998995586381251 / 4503599627370496) :=
    big.round_eval 53 _ _ (0) (-4998995586381251) (by norm_num [le_abs])
      (by norm_num [abs_lt]) (by norm_num [abs_lt]) (by norm_num)
  have f19 : big.round 53 (-(111 / 100)) = -(4998995586381251 / 4503599627370496) :=
    big.round_eval 53 _ _ (0) (-4998995586381251) (by norm_num [le_abs])
      (by norm_num [abs_lt]) (by norm_num [abs_lt]) (by norm_num)
  have f20 : big.round 64 (-(28 / 25)) = -(10330176681277348905 / 9223372036854775808) :=
    big.round_eval 64 _ _ (0) (-10330176681277348905) (by norm_num [le_abs])
      (by norm_num [abs_lt]) (by norm_num [abs_lt]) (by norm_num)
  have f21 : big.round 53 (-(10330176681277348905 / 9223372036854775808)) =
      -(1261007895663739 / 1125899906842624) :=
    big.round_eval 53 _ _ (0) (-5044031582654956) (by norm_num [le_abs])
      (by norm_num [abs_lt]) (by norm_num [abs_lt]) (by norm_num)
  have f22 : big.round 53 (-(28 / 25)) = -(1261007895663739 / 1125899906842624) :=
    big.round_eval 53 _ _ (0) (-5044031582654956) (by norm_num [le_abs])
      (by norm_num [abs_lt]) (by norm_num [abs_lt]) (by norm_num)
  rw [hp, hn]
  refine ⟨?_, ?_, ?_, ?_, ?_, ?_, ?_, ?_⟩
  · rw [fp_GetPayableByRoundingMode_nonneg _ _ 100
      (by norm_num [fp.NewFromFloat, big.NewFloat]) (by decide) hrp, hsp, hs10p]
    norm_num [RoundingModeHalfUp, RoundingModeCeil, RoundingModeHalfDown, RoundingModeFloor,
        fp.NewFromFloat]
  · rw [fp_GetPayableByRoundingMode_nonneg _ _ 100
      (by norm_num [fp.NewFromFloat, big.NewFloat]) (by decide) hrp, hsp, hs10p]
    norm_num [RoundingModeHalfUp, RoundingModeCeil, RoundingModeHalfDown, RoundingModeFloor,
        fp.NewFromFloat]
    simp
  · rw [fp_GetPayableByRoundingMode_neg _ _ 100
      (by norm_num [fp.NewFromFloat, big.NewFloat]) (by decide) hrn, hsn]
    norm_num [RoundingModeHalfUp, RoundingModeCeil, RoundingModeHalfDown, RoundingModeFloor,
        fp.NewFromFloat, truncate]
    simp
  · rw [fp_GetPayableByRoundingMode_neg _ _ 100
      (by norm_num [fp.NewFromFloat, big.NewFloat]) (by decide) hrn, hsn]
    norm_num [RoundingModeHalfUp, RoundingModeCeil, RoundingModeHalfDown, RoundingModeFloor,
        fp.NewFromFloat, truncate]
  · norm_num [fp.Price.FloatAmount, float64, fp.scaled, fp.scaled10, fp.NewFromFloat, fp.NewFromInt,
      big.NewFloat, big.Float.Mul, big.Float.Quo, big.SetInt64, big.Float.Float64, f0, f1, f2, f3,
      f4, f5, f6, f7, f8, f9, f10, f11, f12, f13, f14, f15, f16, f17, f18, f19, f20, f21, f22]
  · norm_num [fp.Price.FloatAmount, float64, fp.scaled, fp.scaled10, fp.NewFromFloat, fp.NewFromInt,
      big.NewFloat, big.Float.Mul, big.Float.Quo, big.SetInt64, big.Float.Float64, f0, f1, f2, f3,
      f4, f5, f6, f7, f8, f9, f10, f11, f12, f13, f14, f15, f16, f17, f18, f19, f20, f21, f22]
  · norm_num [fp.Price.FloatAmount, float64, fp.scaled, fp.scaled10, fp.NewFromFloat, fp.NewFromInt,
      big.NewFloat, big.Float.Mul, big.Float.Quo, big.SetInt64, big.Float.Float64, f0, f1, f2, f3,
      f4, f5, f6, f7, f8, f9, f10, f11, f12, f13, f14, f15, f16, f17, f18, f19, f20, f21, f22]
  · norm_num [fp.Price.FloatAmount, float64, fp.scaled, fp.scaled10, fp.NewFromFloat, fp.NewFromInt,
      big.NewFloat, big.Float.Mul, big.Float.Quo, big.SetInt64, big.Float.Float64, f0, f1, f2, f3,
      f4, f5, f6, f7, f8, f9, f10, f11, f12, f13, f14, f15, f16, f17, f18, f19, f20, f21, f22]

/-! ## C14: prices built from minor units -/

/-- C14, the counterexample: the payable Price of 245 hundredths is that
Price, a quotient of 64 bits, which is not Equal to the Price of the float64
2.45; and the Price of 7205759403792796 hundredths, in range, has the payable
Price of 7205759403792797 hundredths, which is not Equal to it. -/
theorem minor_units_not_equal_float64 :
    (fp.NewFromInt 245 100 "EUR").GetPayable = fp.NewFromInt 245 100 "EUR" ∧
      (fp.NewFromInt 245 100 "EUR").GetPayable.Equal
        (fp.NewFromFloat (float64 (245 / 100)) "EUR") = false ∧
      fp.InRange (fp.NewFromInt 7205759403792796 100 "EUR") 100 ∧
      (fp.NewFromInt 7205759403792796 100 "EUR").GetPayable =
        fp.NewFromInt 7205759403792797 100 "EUR" ∧
      (fp.NewFromInt 7205759403792796 100 "EUR").GetPayable.Equal
        (fp.NewFromInt 7205759403792796 100 "EUR") = false := by
  have f0 : big.round 64 (49 / 20) = 11298630745147100365 / 4611686018427387904 :=
    big.round_eval 64 _ _ (1) (11298630745147100365) (by norm_num [le_abs])
      (by norm_num [abs_lt]) (by norm_num [abs_lt]) (by norm_num)
  have f1 : big.round 53 (49 / 20) = 2758454771764429 / 1125899906842624 :=
    big.round_eval 53 _ _ (1) (5516909543528858) (by norm_num [le_abs])
      (by norm_num [abs_lt]) (by norm_num [abs_lt]) (by norm_num)
  have f2 : big.round 64 (1801439850948199 / 25) = 9444732965739293573 / 131072 :=
    big.round_eval 64 _ _ (46) (9444732965739293573) (by norm_num [le_abs])
      (by norm_num [abs_lt]) (by norm_num [abs_lt]) (by norm_num)
  have f3 : big.round 64 (7205759403792797 / 100) = 2361183241434823721 / 32768 :=
    big.round_eval 64 _ _ (46) (9444732965739294884) (by norm_num [le_abs])
      (by norm_num [abs_lt]) (by norm_num [abs_lt]) (by norm_num)
  have f4 : big.round 64 (236118324143482339325 / 32768) = 7205759403792796 :=
    big.round_eval 64 _ _ (52) (14757395258967646208) (by norm_num [le_abs])
      (by norm_num [abs_lt]) (by norm_num [abs_lt]) (by norm_num)
  have f5 : big.round 53 7205759403792796 = 7205759403792796 :=
    big.round_eval 53 _ _ (52) (7205759403792796) (by norm_num [le_abs])
      (by norm_num [abs_lt]) (by norm_num [abs_lt]) (by norm_num)
  have f6 : big.round 64 1000 = 1000 :=
    big.round_eval 64 _ _ (9) (18014398509481984000) (by norm_num [le_abs])
      (by norm_num [abs_lt]) (by norm_num [abs_lt]) (by norm_num)
  have f7 : big.round 64 (1180591620717411696625 / 16384) = 72057594037927960 :=
    big.round_eval 64 _ _ (56) (9223372036854778880) (by norm_num [le_abs])
      (by norm_num [abs_lt]) (by norm_num [abs_lt]) (by norm_num)
  have f8 : big.round 53 72057594037927960 = 72057594037927968 :=
    big.round_eval_tie 53 _ _ (56) (4503599627370497) (by norm_num [le_abs])
      (by norm_num [abs_lt]) (by norm_num) (by norm_num)
  have hs : fp.scaled (fp.NewFromInt 7205759403792796 100 "EUR") 100 = 7205759403792796 := by
    norm_num [fp.scaled, fp.scaled10, fp.NewFromFloat, fp.NewFromInt, big.NewFloat, big.Float.Mul,
        big.Float.Quo, big.SetInt64, big.Float.Float64, f0, f1, f2, f3, f4, f5, f6, f7, f8]
  have hs10 : fp.scaled10 (fp.NewFromInt 7205759403792796 100 "EUR") 100 = 72057594037927968 := by
    norm_num [fp.scaled, fp.scaled10, fp.NewFromFloat, fp.NewFromInt, big.NewFloat, big.Float.Mul,
        big.Float.Quo, big.SetInt64, big.Float.Float64, f0, f1, f2, f3, f4, f5, f6, f7, f8]
  have hr : fp.InRange (fp.NewFromInt 7205759403792796 100 "EUR") 100 := by
    unfold fp.InRange
    rw [hs, hs10]
    norm_num [truncate, minInt64, maxInt64]
  have h245 := fp_GetPayable_NewFromInt 245 "EUR" (by decide) (by decide) (by decide) (by decide)
  have hmode : (fp.NewFromInt 7205759403792796 100 "EUR").payableRoundingPrecision =
      (RoundingModeHalfUp, 100) :=
    fp_payable_of_not_miles _ (by decide) (by decide)
  have hpay : (fp.NewFromInt 7205759403792796 100 "EUR").GetPayable =
      fp.NewFromInt 7205759403792797 100 "EUR" := by
    unfold fp.Price.GetPayable
    rw [hmode]
    simp only []
    rw [fp_GetPayableByRoundingMode_nonneg _ _ 100
      (by norm_num [fp.scaled, fp.scaled10, fp.NewFromFloat, fp.NewFromInt, big.NewFloat,
          big.Float.Mul, big.Float.Quo, big.SetInt64, big.Float.Float64, f0, f1, f2, f3, f4, f5, f6,
          f7, f8]) (by decide) hr, hs, hs10]
    norm_num [RoundingModeHalfUp, RoundingModeCeil, RoundingModeHalfDown, RoundingModeFloor,
        fp.NewFromInt]
  refine ⟨h245, ?_, hr, hpay, ?_⟩
  · rw [h245, Bool.eq_false_iff, ne_eq, fp_Equal_iff]
    norm_num [float64, fp.scaled, fp.scaled10, fp.NewFromFloat, fp.NewFromInt, big.NewFloat,
        big.Float.Mul, big.Float.Quo, big.SetInt64, big.Float.Float64, f0, f1, f2, f3, f4, f5, f6,
        f7, f8]
  · rw [hpay, Bool.eq_false_iff, ne_eq, fp_Equal_iff]
    norm_num [fp.scaled, fp.scaled10, fp.NewFromFloat, fp.NewFromInt, big.NewFloat, big.Float.Mul,
        big.Float.Quo, big.SetInt64, big.Float.Float64, f0, f1, f2, f3, f4, f5, f6, f7, f8]

/-- C14, amended: for every integer `n` that is not negative with `10 n`
below `2 ^ 56` and every currency other than miles and points, the Price of
`n` minor units `NewFromInt(n, 100, currency)` is its own payable Price: it
is returned by GetPayable, Equal to it, and payable; and the payable Price of
`NewFromInt(245, 100, "EUR")` has the FloatAmount of
`NewFromFloat(2.45, "EUR")`. -/
theorem minor_units_payable_below_bound (n : Int) (currency : String) (hn : 0 ≤ n)
    (hb : n * 10 < 2 ^ 56) (h1 : toLower currency ≠ "miles")
    (h2 : toLower currency ≠ "points") :
    (fp.NewFromInt n 100 currency).GetPayable = fp.NewFromInt n 100 currency ∧
      (fp.NewFromInt n 100 currency).GetPayable.Equal (fp.NewFromInt n 100 currency) = true ∧
      (fp.NewFromInt n 100 currency).IsPayable = true ∧
      (fp.NewFromInt 245 100 "EUR").GetPayable.FloatAmount =
        (fp.NewFromFloat (float64 (245 / 100)) "EUR").FloatAmount := by
  have h := fp_GetPayable_NewFromInt n currency hn hb h1 h2
  have he : (fp.NewFromInt n 100 currency).Equal (fp.NewFromInt n 100 currency) = true :=
    (fp_Equal_iff _ _).mpr ⟨rfl, rfl⟩
  refine ⟨h, ?_, ?_, ?_⟩
  · rw [h]; exact he
  · unfold fp.Price.IsPayable
    rw [h]; exact he
  · rw [fp_GetPayable_NewFromInt 245 "EUR" (by decide) (by decide) (by decide) (by decide)]
    have f0 : big.round 64 (49 / 20) = 11298630745147100365 / 4611686018427387904 :=
      big.round_eval 64 _ _ (1) (11298630745147100365) (by norm_num [le_abs])
        (by norm_num [abs_lt]) (by norm_num [abs_lt]) (by norm_num)
    have f1 : big.round 53 (49 / 20) = 2758454771764429 / 1125899906842624 :=
      big.round_eval 53 _ _ (1) (5516909543528858) (by norm_num [le_abs])
        (by norm_num [abs_lt]) (by norm_num [abs_lt]) (by norm_num)
    have f2 : big.round 53 (11298630745147100365 / 4611686018427387904) =
        2758454771764429 / 1125899906842624 :=
      big.round_eval 53 _ _ (1) (5516909543528858) (by norm_num [le_abs])
        (by norm_num [abs_lt]) (by norm_num [abs_lt]) (by norm_num)
    have f3 : big.round 53 (2758454771764429 / 1125899906842624) =
        2758454771764429 / 1125899906842624 :=
      big.round_eval 53 _ _ (1) (5516909543528858) (by norm_num [le_abs])
        (by norm_num [abs_lt]) (by norm_num [abs_lt]) (by norm_num)
    norm_num [fp.Price.FloatAmount, float64, fp.scaled, fp.scaled10, fp.NewFromFloat, fp.NewFromInt,
        big.NewFloat, big.Float.Mul, big.Float.Quo, big.SetInt64, big.Float.Float64, f0, f1, f2, f3]

theorem minor_units_payable_below_bound_witness :
    (fp.NewFromInt 245 100 "EUR").GetPayable = fp.NewFromInt 245 100 "EUR" ∧
      (fp.NewFromInt 245 100 "EUR").GetPayable.Equal (fp.NewFromInt 245 100 "EUR") = true ∧
      (fp.NewFromInt 245 100 "EUR").IsPayable = true ∧
      (fp.NewFromInt 245 100 "EUR").GetPayable.FloatAmount =
        (fp.NewFromFloat (float64 (245 / 100)) "EUR").FloatAmount :=
  minor_units_payable_below_bound 245 "EUR" (by decide) (by decide) (by decide) (by decide)

/-! ## C15: Multiply and Divided at the precision of the amounts -/

/-- C15, the counterexample: 10 EUR divided by 3 has the amount
15372286728091293013 / 4611686018427387904, the value of 64 mantissa
bits nearest to `10 / 3`, and not `10 / 3`; the Price of `1 / 3` at 64 bits
multiplied by 3 has the amount 1, and not the product
36893488147419103233 / 36893488147419103232. -/
theorem divided_rounds_quotient :
    (fp.NewFromInt 10 1 "EUR").amount.val = 10 ∧
      ((fp.NewFromInt 10 1 "EUR").Divided 3).amount.val =
        15372286728091293013 / 4611686018427387904 ∧
      ((fp.NewFromInt 10 1 "EUR").Divided 3).amount.val ≠
        (fp.NewFromInt 10 1 "EUR").amount.val / ((3 : Int) : ℚ) ∧
      ((fp.NewFromInt 1 3 "EUR").Multiply 3).amount.val = 1 ∧
      (fp.NewFromInt 1 3 "EUR").amount.val * ((3 : Int) : ℚ) =
        36893488147419103233 / 36893488147419103232 ∧
      ((fp.NewFromInt 1 3 "EUR").Multiply 3).amount.val ≠
        (fp.NewFromInt 1 3 "EUR").amount.val * ((3 : Int) : ℚ) := by
  have f0 : big.round 64 10 = 10 :=
    big.round_eval 64 _ _ (3) (11529215046068469760) (by norm_num [le_abs])
      (by norm_num [abs_lt]) (by norm_num [abs_lt]) (by norm_num)
  have f1 : big.round 64 (10 / 3) = 15372286728091293013 / 4611686018427387904 :=
    big.round_eval 64 _ _ (1) (15372286728091293013) (by norm_num [le_abs])
      (by norm_num [abs_lt]) (by norm_num [abs_lt]) (by norm_num)
  have f2 : big.round 64 (1 / 3) = 12297829382473034411 / 36893488147419103232 :=
    big.round_eval 64 _ _ (-2) (12297829382473034411) (by norm_num [le_abs])
      (by norm_num [abs_lt]) (by norm_num [abs_lt]) (by norm_num)
  have f3 : big.round 64 (36893488147419103233 / 36893488147419103232) = 1 :=
    big.round_eval 64 _ _ (0) (9223372036854775808) (by norm_num [le_abs])
      (by norm_num [abs_lt]) (by norm_num [abs_lt]) (by norm_num)
  refine ⟨?_, ?_, ?_, ?_, ?_, ?_⟩ <;>
    norm_num [fp.Price.Divided, fp.Price.Multiply, fp.NewFromInt, fp.NewFromFloat, big.NewFloat,
        big.SetInt64, big.Float.Mul, big.Float.Quo, big.Float.Add, big.Float.Sub, f0, f1, f2, f3]

/-- C15, amended: Divided(0) is the zero Price of the currency.  For a
quantity other than zero Divided has the currency of the Price and the
amount `amount / qty` rounded to the nearest value of the mantissa precision
`max(prec, 64)` (a half to the even mantissa), which differs from
`amount / qty` by at most its `2 ^ max(prec, 64)`-th part; Multiply has the
currency and the amount `amount * qty` rounded in the same way. -/
theorem multiply_divided_rounded (p : fp.Price) (qty : Int) :
    p.Divided 0 = fp.NewZero p.currency ∧
      (qty ≠ 0 →
        (p.Divided qty).currency = p.currency ∧
        (p.Divided qty).amount.val =
          big.round (max p.amount.prec 64) (p.amount.val / (qty : ℚ)) ∧
        |(p.Divided qty).amount.val - p.amount.val / (qty : ℚ)| ≤
          |p.amount.val / (qty : ℚ)| / (2 : ℚ) ^ (max p.amount.prec 64)) ∧
      (p.Multiply qty).currency = p.currency ∧
      (p.Multiply qty).amount.val =
        big.round (max p.amount.prec 64) (p.amount.val * (qty : ℚ)) ∧
      |(p.Multiply qty).amount.val - p.amount.val * (qty : ℚ)| ≤
        |p.amount.val * (qty : ℚ)| / (2 : ℚ) ^ (max p.amount.prec 64) := by
  refine ⟨by simp [fp.Price.Divided], fun hq => ?_, rfl, rfl, ?_⟩
  · have hd : p.Divided qty =
        { amount := p.amount.Quo (big.SetInt64 qty), currency := p.currency } := by
      simp [fp.Price.Divided, hq]
    rw [hd]
    exact ⟨rfl, rfl, big.round_sub_le _ _⟩
  · exact big.round_sub_le _ _

theorem multiply_divided_rounded_witness :
    (4 : Int) ≠ 0 ∧
      ((fp.NewFromInt 10 1 "EUR").Divided 4).currency = (fp.NewFromInt 10 1 "EUR").currency ∧
      ((fp.NewFromInt 10 1 "EUR").Divided 4).amount.val =
        big.round (max (fp.NewFromInt 10 1 "EUR").amount.prec 64)
          ((fp.NewFromInt 10 1 "EUR").amount.val / ((4 : Int) : ℚ)) ∧
      |((fp.NewFromInt 10 1 "EUR").Divided 4).amount.val -
          (fp.NewFromInt 10 1 "EUR").amount.val / ((4 : Int) : ℚ)| ≤
        |(fp.NewFromInt 10 1 "EUR").amount.val / ((4 : Int) : ℚ)| /
          (2 : ℚ) ^ (max (fp.NewFromInt 10 1 "EUR").amount.prec 64) :=
  ⟨by decide, (multiply_divided_rounded (fp.NewFromInt 10 1 "EUR") 4).2.1 (by decide)⟩

/-! ## C19: the serialization round trip -/

/-- C21, the counterexample: the float64 1.115 lies below 1.115, so that
`floor (amount * 100 + 1/2)` is 111; HalfUp at the precision 100 returns the
Price of 112 hundredths, whose amount is not 1.11. -/
theorem halfUp_float64_above_formula :
    0 ≤ (fp.NewFromFloat (float64 (1115 / 1000)) "EUR").amount.val ∧
      fp.InRange (fp.NewFromFloat (float64 (1115 / 1000)) "EUR") 100 ∧
      ⌊(fp.NewFromFloat (float64 (1115 / 1000)) "EUR").amount.val * 100 + 1 / 2⌋ = 111 ∧
      (fp.NewFromFloat (float64 (1115 / 1000)) "EUR").GetPayableByRoundingMode
        RoundingModeHalfUp 100 = fp.NewFromInt 112 100 "EUR" ∧
      (fp.NewFromInt 112 100 "EUR").amount.val ≠ 111 / 100 := by
  have f0 : big.round 53 (223 / 200) = 5021513584518103 / 4503599627370496 :=
    big.round_eval 53 _ _ (0) (5021513584518103) (by norm_num [le_abs])
      (by norm_num [abs_lt]) (by norm_num [abs_lt]) (by norm_num)
  have hp : float64 (1115 / 1000) = 5021513584518103 / 4503599627370496 := by norm_num [float64, f0]
  have f1 : big.round 64 (125537839612952575 / 1125899906842624) =
      125537839612952575 / 1125899906842624 :=
    big.round_eval 64 _ _ (6) (16068843470457929600) (by norm_num [le_abs])
      (by norm_num [abs_lt]) (by norm_num [abs_lt]) (by norm_num)
  have f2 : big.round 53 (125537839612952575 / 1125899906842624) = 223 / 2 :=
    big.round_eval 53 _ _ (6) (7846114975809536) (by norm_num [le_abs])
      (by norm_num [abs_lt]) (by norm_num [abs_lt]) (by norm_num)
  have f3 : big.round 64 1000 = 1000 :=
    big.round_eval 64 _ _ (9) (18014398509481984000) (by norm_num [le_abs])
      (by norm_num [abs_lt]) (by norm_num [abs_lt]) (by norm_num)
  have f4 : big.round 64 (627689198064762875 / 562949953421312) =
      627689198064762875 / 562949953421312 :=
    big.round_eval 64 _ _ (10) (10043027169036206000) (by norm_num [le_abs])
      (by norm_num [abs_lt]) (by norm_num [abs_lt]) (by norm_num)
  have f5 : big.round 53 (627689198064762875 / 562949953421312) = 1115 :=
    big.round_eval 53 _ _ (10) (4903821859880960) (by norm_num [le_abs])
      (by norm_num [abs_lt]) (by norm_num [abs_lt]) (by norm_num)
  have hs : fp.scaled (fp.NewFromFloat (5021513584518103 / 4503599627370496) "EUR") 100 =
      223 / 2 := by
    norm_num [fp.scaled, fp.scaled10, fp.NewFromFloat, fp.NewFromInt, big.NewFloat, big.Float.Mul,
        big.Float.Quo, big.SetInt64, big.Float.Float64, f0, f1, f2, f3, f4, f5]
  have hs10 : fp.scaled10 (fp.NewFromFloat (5021513584518103 / 4503599627370496) "EUR") 100 =
      1115 := by
    norm_num [fp.scaled, fp.scaled10, fp.NewFromFloat, fp.NewFromInt, big.NewFloat, big.Float.Mul,
        big.Float.Quo, big.SetInt64, big.Float.Float64, f0, f1, f2, f3, f4, f5]
  have hr : fp.InRange (fp.NewFromFloat (5021513584518103 / 4503599627370496) "EUR") 100 := by
    unfold fp.InRange
    rw [hs, hs10]
    norm_num [truncate, minInt64, maxInt64]
  have f6 : big.round 64 (28 / 25) = 10330176681277348905 / 9223372036854775808 :=
    big.round_eval 64 _ _ (0) (10330176681277348905) (by norm_num [le_abs])
      (by norm_num [abs_lt]) (by norm_num [abs_lt]) (by norm_num)
  rw [hp]
  refine ⟨by norm_num [fp.NewFromFloat, big.NewFloat], hr,
    by norm_num [fp.NewFromFloat, big.NewFloat], ?_, ?_⟩
  · rw [fp_GetPayableByRoundingMode_nonneg _ _ 100
      (by norm_num [fp.NewFromFloat, big.NewFloat]) (by decide) hr, hs, hs10]
    norm_num [RoundingModeHalfUp, RoundingModeCeil, RoundingModeHalfDown, RoundingModeFloor,
        fp.NewFromFloat]
  · norm_num [fp.scaled, fp.scaled10, fp.NewFromFloat, fp.NewFromInt, big.NewFloat, big.Float.Mul,
      big.Float.Quo, big.SetInt64, big.Float.Float64, f0, f1, f2, f3, f4, f5, f6]

/-- C21, amended: under HalfUp an amount that is not negative and in range
is rounded to the Price of `t` minor units, or of `t + 1` when the check
digit is 5 or more, where `t` is the whole part of the float64 nearest to
`amount * precision` and the check digit is the whole part of the float64
nearest to `amount * (precision * 10)` less `10 t`. -/
theorem halfUp_by_float64_digit (p : fp.Price) (precision : Int)
    (ha : 0 ≤ p.amount.val) (hP : 0 < precision) (hr : fp.InRange p precision) :
    p.GetPayableByRoundingMode RoundingModeHalfUp precision =
      fp.NewFromInt
        (if 5 ≤ ⌊fp.scaled10 p precision⌋ - ⌊fp.scaled p precision⌋ * 10
          then ⌊fp.scaled p precision⌋ + 1 else ⌊fp.scaled p precision⌋)
        precision p.currency := by
  rw [fp_GetPayableByRoundingMode_nonneg p _ precision ha hP hr]
  simp [RoundingModeHalfUp, RoundingModeCeil, RoundingModeHalfDown]

theorem halfUp_by_float64_digit_witness :
    0 ≤ (fp.NewFromFloat (float64 (12345 / 1000)) "EUR").amount.val ∧
      fp.InRange (fp.NewFromFloat (float64 (12345 / 1000)) "EUR") 100 ∧
      (fp.NewFromFloat (float64 (12345 / 1000)) "EUR").GetPayableByRoundingMode
        RoundingModeHalfUp 100 = fp.NewFromInt 1235 100 "EUR" := by
  have f0 : big.round 53 (2469 / 200) = 6949617174986097 / 562949953421312 :=
    big.round_eval 53 _ _ (3) (6949617174986097) (by norm_num [le_abs])
      (by norm_num [abs_lt]) (by norm_num [abs_lt]) (by norm_num)
  have hp : float64 (12345 / 1000) = 6949617174986097 / 562949953421312 := by norm_num [float64, f0]
  have f1 : big.round 64 (173740429374652425 / 140737488355328) =
      173740429374652425 / 140737488355328 :=
    big.round_eval 64 _ _ (10) (11119387479977755200) (by norm_num [le_abs])
      (by norm_num [abs_lt]) (by norm_num [abs_lt]) (by norm_num)
  have f2 : big.round 53 (173740429374652425 / 140737488355328) = 2469 / 2 :=
    big.round_eval 53 _ _ (10) (5429388417957888) (by norm_num [le_abs])
      (by norm_num [abs_lt]) (by norm_num [abs_lt]) (by norm_num)
  have f3 : big.round 64 1000 = 1000 :=
    big.round_eval 64 _ _ (9) (18014398509481984000) (by norm_num [le_abs])
      (by norm_num [abs_lt]) (by norm_num [abs_lt]) (by norm_num)
  have f4 : big.round 64 (868702146873262125 / 70368744177664) =
      868702146873262125 / 70368744177664 :=
    big.round_eval 64 _ _ (13) (13899234349972194000) (by norm_num [le_abs])
      (by norm_num [abs_lt]) (by norm_num [abs_lt]) (by norm_num)
  have f5 : big.round 53 (868702146873262125 / 70368744177664) = 12345 :=
    big.round_eval 53 _ _ (13) (6786735522447360) (by norm_num [le_abs])
      (by norm_num [abs_lt]) (by norm_num [abs_lt]) (by norm_num)
  have hs : fp.scaled (fp.NewFromFloat (6949617174986097 / 562949953421312) "EUR") 100 =
      2469 / 2 := by
    norm_num [fp.scaled, fp.scaled10, fp.NewFromFloat, fp.NewFromInt, big.NewFloat, big.Float.Mul,
        big.Float.Quo, big.SetInt64, big.Float.Float64, f0, f1, f2, f3, f4, f5]
  have hs10 : fp.scaled10 (fp.NewFromFloat (6949617174986097 / 562949953421312) "EUR") 100 =
      12345 := by
    norm_num [fp.scaled, fp.scaled10, fp.NewFromFloat, fp.NewFromInt, big.NewFloat, big.Float.Mul,
        big.Float.Quo, big.SetInt64, big.Float.Float64, f0, f1, f2, f3, f4, f5]
  have hr : fp.InRange (fp.NewFromFloat (6949617174986097 / 562949953421312) "EUR") 100 := by
    unfold fp.InRange
    rw [hs, hs10]
    norm_num [truncate, minInt64, maxInt64]
  rw [hp]
  have ha : 0 ≤
      (fp.NewFromFloat (6949617174986097 / 562949953421312) "EUR").amount.val := by
      norm_num [fp.NewFromFloat, big.NewFloat]
  refine ⟨ha, hr, ?_⟩
  rw [halfUp_by_float64_digit _ 100 ha (by decide) hr, hs, hs10]
  norm_num [fp.NewFromFloat]

/-! ## C29: SumAll and the order of its arguments -/

/-- C29, the counterexample: 5 EUR, -5 EUR, 5 USD sums to 5 USD (the
partial sum 0 EUR takes the next currency), while the permutation 5 EUR,
5 USD, -5 EUR fails at its first addition; and in one currency the float64
amounts 0.1, 0.2, 0.3 sum to 1351079888211149 / 2251799813685248 in
this order and to 5404319552844595 / 9007199254740992 in the reverse
order, two results that are not Equal. -/
theorem sumAll_order_changes_result :
    List.Perm [fp.NewFromFloat 5 "EUR", fp.NewFromFloat 5 "USD", fp.NewFromFloat (-5) "EUR"]
        [fp.NewFromFloat 5 "EUR", fp.NewFromFloat (-5) "EUR", fp.NewFromFloat 5 "USD"] ∧
      fp.SumAll [fp.NewFromFloat 5 "EUR", fp.NewFromFloat (-5) "EUR",
        fp.NewFromFloat 5 "USD"] = (fp.NewFromFloat 5 "USD", none) ∧
      (fp.SumAll [fp.NewFromFloat 5 "EUR", fp.NewFromFloat 5 "USD",
        fp.NewFromFloat (-5) "EUR"]).2 =
          some "Cannot calculate prices in different currencies" ∧
      List.Perm
        [fp.NewFromFloat (float64 (3 / 10)) "EUR", fp.NewFromFloat (float64 (2 / 10)) "EUR",
          fp.NewFromFloat (float64 (1 / 10)) "EUR"]
        [fp.NewFromFloat (float64 (1 / 10)) "EUR", fp.NewFromFloat (float64 (2 / 10)) "EUR",
          fp.NewFromFloat (float64 (3 / 10)) "EUR"] ∧
      fp.SumAll [fp.NewFromFloat (float64 (1 / 10)) "EUR",
        fp.NewFromFloat (float64 (2 / 10)) "EUR", fp.NewFromFloat (float64 (3 / 10)) "EUR"] =
          (fp.NewFromFloat (1351079888211149 / 2251799813685248) "EUR", none) ∧
      fp.SumAll [fp.NewFromFloat (float64 (3 / 10)) "EUR",
        fp.NewFromFloat (float64 (2 / 10)) "EUR", fp.NewFromFloat (float64 (1 / 10)) "EUR"] =
          (fp.NewFromFloat (5404319552844595 / 9007199254740992) "EUR", none) ∧
      (fp.NewFromFloat (5404319552844595 / 9007199254740992) "EUR").Equal
        (fp.NewFromFloat (1351079888211149 / 2251799813685248) "EUR") = false := by
  have f0 : big.round 53 (1 / 10) = 3602879701896397 / 36028797018963968 :=
    big.round_eval 53 _ _ (-4) (7205759403792794) (by norm_num [le_abs])
      (by norm_num [abs_lt]) (by norm_num [abs_lt]) (by norm_num)
  have f1 : big.round 53 (1 / 5) = 3602879701896397 / 18014398509481984 :=
    big.round_eval 53 _ _ (-3) (7205759403792794) (by norm_num [le_abs])
      (by norm_num [abs_lt]) (by norm_num [abs_lt]) (by norm_num)
  have f2 : big.round 53 (3 / 10) = 5404319552844595 / 18014398509481984 :=
    big.round_eval 53 _ _ (-2) (5404319552844595) (by norm_num [le_abs])
      (by norm_num [abs_lt]) (by norm_num [abs_lt]) (by norm_num)
  have f3 : big.round 53 (10808639105689191 / 36028797018963968) =
      1351079888211149 / 4503599627370496 :=
    big.round_eval_tie 53 _ _ (-2) (5404319552844595) (by norm_num [le_abs])
      (by norm_num [abs_lt]) (by norm_num) (by norm_num)
  have f4 : big.round 53 (10808639105689191 / 18014398509481984) =
      1351079888211149 / 2251799813685248 :=
    big.round_eval_tie 53 _ _ (-1) (5404319552844595) (by norm_num [le_abs])
      (by norm_num [abs_lt]) (by norm_num) (by norm_num)
  have f5 : big.round 53 (1 / 2) = 1 / 2 :=
    big.round_eval 53 _ _ (-1) (4503599627370496) (by norm_num [le_abs])
      (by norm_num [abs_lt]) (by norm_num [abs_lt]) (by norm_num)
  have f6 : big.round 53 (21617278211378381 / 36028797018963968) =
      5404319552844595 / 9007199254740992 :=
    big.round_eval 53 _ _ (-1) (5404319552844595) (by norm_num [le_abs])
      (by norm_num [abs_lt]) (by norm_num [abs_lt]) (by norm_num)
  have f7 : big.round 53 0 = 0 := big.round_zero 53
  have f8 : big.round 53 5 = 5 :=
    big.round_eval 53 _ _ (2) (5629499534213120) (by norm_num [le_abs])
      (by norm_num [abs_lt]) (by norm_num [abs_lt]) (by norm_num)
  have ha : float64 (1 / 10) = 3602879701896397 / 36028797018963968 := by norm_num [float64, f0]
  have hb : float64 (2 / 10) = 3602879701896397 / 18014398509481984 := by norm_num [float64, f1]
  have hc : float64 (3 / 10) = 5404319552844595 / 18014398509481984 := by norm_num [float64, f2]
  have h1 : (fp.NewFromFloat 5 "EUR").Clone.Add (fp.NewFromFloat (-5) "EUR") =
      (fp.NewFromFloat 0 "EUR", none) := by
    rw [fp_Add_same _ _ (by rfl)]
    norm_num [fp.Price.Clone, big.Float.Set, fp.NewFromFloat, big.NewFloat, big.Float.Add, f0, f1,
        f2, f3, f4, f5, f6, f7, f8]
  have hz : (fp.NewFromFloat 0 "EUR").IsZero = true := (fp_IsZero_iff _).mpr rfl
  have h2 : (fp.NewFromFloat 0 "EUR").Add (fp.NewFromFloat 5 "USD") =
      (fp.NewFromFloat 5 "USD", none) := by
    simp [fp.Price.Add, fp.Price.currencyGuard, hz]
    norm_num [fp.Price.Clone, big.Float.Set, fp.NewFromFloat, big.NewFloat, big.Float.Add, f0, f1,
        f2, f3, f4, f5, f6, f7, f8]
  have hz1 : (fp.NewFromFloat 5 "EUR").Clone.IsZero = false := by
    rw [Bool.eq_false_iff, ne_eq, fp_IsZero_iff]
    norm_num [fp.Price.Clone, big.Float.Set, fp.NewFromFloat, big.NewFloat, big.Float.Add]
  have hz2 : (fp.NewFromFloat 5 "USD").IsZero = false := by
    rw [Bool.eq_false_iff, ne_eq, fp_IsZero_iff]
    norm_num [fp.Price.Clone, big.Float.Set, fp.NewFromFloat, big.NewFloat, big.Float.Add]
  have h3 : ((fp.NewFromFloat 5 "EUR").Clone.Add (fp.NewFromFloat 5 "USD")).2 =
      some "Cannot calculate prices in different currencies" := by
    have hne : (fp.NewFromFloat 5 "EUR").Clone.currency ≠ (fp.NewFromFloat 5 "USD").currency := by
      decide
    simp [fp.Price.Add, fp.Price.currencyGuard, hz1, hz2, hne]
  refine ⟨(List.Perm.swap _ _ _).cons _, ?_, ?_, ?_, ?_, ?_, ?_⟩
  · rw [fp.SumAll, fp.SumAll.loop, h1]
    simp only []
    rw [fp.SumAll.loop, h2]
    rfl
  · rw [fp.SumAll, fp.SumAll.loop]
    generalize hg : (fp.NewFromFloat 5 "EUR").Clone.Add (fp.NewFromFloat 5 "USD") = r at h3
    obtain ⟨r1, r2⟩ := r
    simp only [] at h3
    subst h3
    rfl
  · exact ((List.Perm.swap _ _ _).cons _).trans
      ((List.Perm.swap _ _ _).trans ((List.Perm.swap _ _ _).cons _))
  · rw [ha, hb, hc]
    simp only [fp.SumAll, fp.SumAll.loop]
    rw [fp_Add_same _ _ (by rfl)]
    simp only []
    rw [fp_Add_same _ _ (by rfl)]
    norm_num [fp.Price.Clone, big.Float.Set, fp.NewFromFloat, big.NewFloat, big.Float.Add, f0, f1,
        f2, f3, f4, f5, f6, f7, f8]
  · rw [ha, hb, hc]
    simp only [fp.SumAll, fp.SumAll.loop]
    rw [fp_Add_same _ _ (by rfl)]
    simp only []
    rw [fp_Add_same _ _ (by rfl)]
    norm_num [fp.Price.Clone, big.Float.Set, fp.NewFromFloat, big.NewFloat, big.Float.Add, f0, f1,
        f2, f3, f4, f5, f6, f7, f8]
  · rw [Bool.eq_false_iff, ne_eq, fp_Equal_iff]
    norm_num [fp.Price.Clone, big.Float.Set, fp.NewFromFloat, big.NewFloat, big.Float.Add]

/-- C29, amended: for every non-empty list of Prices of one currency and
every permutation of it, SumAll succeeds on both lists with a Price of that
currency; the two results are Equal whenever the amounts are multiples of one
power of two `2 ^ k`, their mantissa precisions are `P` bits at least, and
the sum of their magnitudes is below `2 ^ (k + P)`, so that no addition
rounds. -/
theorem sumAll_perm_one_currency (l l' : List fp.Price) (c : String) (hne : l ≠ [])
    (hc : ∀ x ∈ l, x.currency = c) (hperm : l'.Perm l) :
    (fp.SumAll l).2 = none ∧ (fp.SumAll l').2 = none ∧
      (fp.SumAll l).1.currency = c ∧ (fp.SumAll l').1.currency = c ∧
      ∀ (k : Int) (P : Nat),
        (∀ x ∈ l, P ≤ x.amount.prec ∧ ∃ j : Int, x.amount.val = (j : ℚ) * (2 : ℚ) ^ k) →
        (l.map (fun x => |x.amount.val|)).sum < (2 : ℚ) ^ (k + (P : Int)) →
        (fp.SumAll l').1.Equal (fp.SumAll l).1 = true := by
  have hne' : l' ≠ [] := fun h => hne (List.Perm.eq_nil (h ▸ hperm.symm))
  have hc' : ∀ x ∈ l', x.currency = c := fun x hx => hc x (hperm.subset hx)
  obtain ⟨hok, hcur⟩ := fp_SumAll_same_currency c l hne hc
  obtain ⟨hok', hcur'⟩ := fp_SumAll_same_currency c l' hne' hc'
  refine ⟨hok, hok', hcur, hcur', fun k P hgrid hsum => ?_⟩
  have h1 := fp_SumAll_grid k P c l (fun x hx => ⟨hc x hx, hgrid x hx⟩) hsum
  have hsum' : (l'.map (fun x => |x.amount.val|)).sum < (2 : ℚ) ^ (k + (P : Int)) := by
    rw [(hperm.map (fun x => |x.amount.val|)).sum_eq]
    exact hsum
  have h2 := fp_SumAll_grid k P c l'
    (fun x hx => ⟨hc' x hx, hgrid x (hperm.subset hx)⟩) hsum'
  rw [fp_Equal_iff, hcur, hcur', h1, h2, (hperm.map (fun x => x.amount.val)).sum_eq]
  exact ⟨rfl, rfl⟩

theorem sumAll_perm_one_currency_witness :
    [fp.NewFromFloat (1 / 4) "EUR", fp.NewFromFloat (1 / 2) "EUR",
        fp.NewFromFloat (7 / 4) "EUR"] ≠ [] ∧
      List.Perm
        [fp.NewFromFloat (1 / 2) "EUR", fp.NewFromFloat (1 / 4) "EUR",
          fp.NewFromFloat (7 / 4) "EUR"]
        [fp.NewFromFloat (1 / 4) "EUR", fp.NewFromFloat (1 / 2) "EUR",
          fp.NewFromFloat (7 / 4) "EUR"] ∧
      (fp.SumAll [fp.NewFromFloat (1 / 2) "EUR", fp.NewFromFloat (1 / 4) "EUR",
        fp.NewFromFloat (7 / 4) "EUR"]).1.Equal
        (fp.SumAll [fp.NewFromFloat (1 / 4) "EUR", fp.NewFromFloat (1 / 2) "EUR",
          fp.NewFromFloat (7 / 4) "EUR"]).1 = true := by
  have hne : [fp.NewFromFloat (1 / 4) "EUR", fp.NewFromFloat (1 / 2) "EUR",
      fp.NewFromFloat (7 / 4) "EUR"] ≠ [] := List.cons_ne_nil _ _
  have hc : ∀ x ∈ [fp.NewFromFloat (1 / 4) "EUR", fp.NewFromFloat (1 / 2) "EUR",
      fp.NewFromFloat (7 / 4) "EUR"], x.currency = "EUR" := by
    intro x hx
    simp only [List.mem_cons, List.mem_singleton, List.not_mem_nil, or_false] at hx
    rcases hx with rfl | rfl | rfl <;> rfl
  have hperm : List.Perm
      [fp.NewFromFloat (1 / 2) "EUR", fp.NewFromFloat (1 / 4) "EUR",
        fp.NewFromFloat (7 / 4) "EUR"]
      [fp.NewFromFloat (1 / 4) "EUR", fp.NewFromFloat (1 / 2) "EUR",
        fp.NewFromFloat (7 / 4) "EUR"] := List.Perm.swap _ _ _
  have hgrid : ∀ x ∈ [fp.NewFromFloat (1 / 4) "EUR", fp.NewFromFloat (1 / 2) "EUR",
      fp.NewFromFloat (7 / 4) "EUR"],
      53 ≤ x.amount.prec ∧ ∃ j : Int, x.amount.val = (j : ℚ) * (2 : ℚ) ^ (-2 : Int) := by
    intro x hx
    simp only [List.mem_cons, List.mem_singleton, List.not_mem_nil, or_false] at hx
    rcases hx with rfl | rfl | rfl
    · exact ⟨le_refl _, 1, by norm_num [fp.NewFromFloat, big.NewFloat]⟩
    · exact ⟨le_refl _, 2, by norm_num [fp.NewFromFloat, big.NewFloat]⟩
    · exact ⟨le_refl _, 7, by norm_num [fp.NewFromFloat, big.NewFloat]⟩
  exact ⟨hne, hperm,
    (sumAll_perm_one_currency _ _ "EUR" hne hc hperm).2.2.2.2 (-2) 53 hgrid
      (by norm_num [fp.NewFromFloat, big.NewFloat, abs_of_pos])⟩

/-! ## C30: the tax round trip -/

end domain
